import Mathlib

/-!
Verification of the value-splitting legalization pass
(`src/lib/cretonne/src/legalizer/split.rs`).

The pass itself (`isplit`, `vsplit`, `split_any`, `split_value`, `add_repair`,
`resolve_splits`, `simplify_branch_arguments`) is translated directly from the
source.  Its collaborators (the SSA value store `DataFlowGraph`, the layout
cursor, the control-flow predecessor index, type halving) live outside the
given sources and are modelled from the spec's external-interface contracts
(spec §3 and §6), as noted on each definition.
-/

namespace Cretonne

/-- SSA value identifier (`ir::entities::Value`, modelled as an index). -/
abbrev Value := Nat

/-- Instruction identifier (`ir::entities::Inst`, modelled as an index). -/
abbrev Inst := Nat

/-- Extended basic block identifier (`ir::entities::Ebb`, modelled as an index). -/
abbrev Ebb := Nat

/-- Modelled from the spec: a value type describes a scalar width or vector
lane count/width (spec §3 "Type"); `ir/types.rs` is not among the sources.
`bits` is the lane bit-width and `lanes` the lane count. -/
structure Ty where
  bits : Nat
  lanes : Nat
deriving DecidableEq, Repr

/-- Modelled from the spec: *half-width* is a partial operation, "valid only
for sufficiently-wide integer types"; it halves the scalar width and fails
when the type cannot be halved further (spec §3). -/
def Ty.half_width (t : Ty) : Option Ty :=
  if 16 ≤ t.bits then some ⟨t.bits / 2, t.lanes⟩ else none

/-- Modelled from the spec: *half-vector* is a partial operation, "valid only
for even lane-count vector types"; it halves the lane count and fails when
the type cannot be halved further (spec §3). -/
def Ty.half_vector (t : Ty) : Option Ty :=
  if 2 ≤ t.lanes then some ⟨t.bits, t.lanes / 2⟩ else none

/-- The opcodes relevant to this pass: the two splittable opcode pairs
(spec §3), two branch opcodes with different fixed arities, and an ordinary
binary opcode standing in for the rest of the instruction set. -/
inductive Opcode where
  | Iconcat
  | Vconcat
  | Isplit
  | Vsplit
  | Jump
  | Brz
  | Iadd
deriving DecidableEq, Repr

/-- Modelled from the spec: opcode metadata telling branch instructions apart
(`opcode.is_branch()`). -/
def Opcode.is_branch : Opcode → Bool
  | .Jump => true
  | .Brz => true
  | _ => false

/-- Modelled from the spec: the fixed (non-block-argument) operand count of an
opcode (`opcode.constraints().fixed_value_arguments()`); a plain jump has
none, a conditional branch has one controlling operand. -/
def Opcode.fixed_value_arguments : Opcode → Nat
  | .Brz => 1
  | _ => 0

/-- Modelled from the spec: the instruction shapes this pass inspects
(spec §3 "Instruction"): binary instructions (two operands), unary
instructions (the split instructions), and branches carrying a value list
holding the fixed operands followed by the block arguments. -/
inductive InstructionData where
  | Binary (opcode : Opcode) (arg0 arg1 : Value)
  | Unary (opcode : Opcode) (arg : Value)
  | Branch (opcode : Opcode) (destination : Ebb) (args : List Value)
deriving DecidableEq, Repr

/-- The opcode of an instruction (`dfg[inst].opcode()`). -/
def InstructionData.opcode : InstructionData → Opcode
  | .Binary op _ _ => op
  | .Unary op _ => op
  | .Branch op _ _ => op

/-- Modelled from the spec: detach an instruction's value list for exclusive
mutation (`take_value_list`); only branch formats own one.  Returns the list
and the instruction with the list detached. -/
def InstructionData.take_value_list : InstructionData → Option (List Value) × InstructionData
  | .Branch op dest args => (some args, .Branch op dest [])
  | d => (none, d)

/-- Modelled from the spec: reattach a value list (`put_value_list`); a no-op
on formats without one (unreachable in this pass's uses). -/
def InstructionData.put_value_list : InstructionData → List Value → InstructionData
  | .Branch op dest _, args => .Branch op dest args
  | d, _ => d

/-- Modelled from the spec: how a value is defined inside the store
(spec §3): by an instruction result, by a block-parameter slot, or as an
alias of another value (spec §3 "Value", I4). -/
inductive ValueData where
  | Inst (ty : Ty) (num : Nat) (i : Inst)
  | Arg (ty : Ty) (num : Nat) (e : Ebb)
  | Alias (ty : Ty) (original : Value)
deriving DecidableEq, Repr

/-- The recorded type of a value entry. -/
def ValueData.ty : ValueData → Ty
  | .Inst t _ _ => t
  | .Arg t _ _ => t
  | .Alias t _ => t

/-- `ValueDef`: classification of a value's origin (result vs block
parameter), exactly as consumed by `split.rs`. -/
inductive ValueDef where
  | Res (i : Inst) (num : Nat)
  | Arg (e : Ebb) (num : Nat)
deriving DecidableEq, Repr

/-- Modelled from the spec: the SSA value/instruction store (spec §6
"Value/graph store").  `values` maps value ids to their definitions,
`insts` holds instruction data, `results` the result values of each
instruction, and `ebbArgs` each block's parameter list. -/
structure DataFlowGraph where
  values : List ValueData
  insts : List InstructionData
  results : List (List Value)
  ebbArgs : List (List Value)
deriving DecidableEq, Repr

/-- Alias chasing with explicit fuel (alias chains in a well-formed graph are
shorter than the number of values). -/
def DataFlowGraph.resolveAux (d : DataFlowGraph) : Nat → Value → Value
  | 0, v => v
  | n + 1, v =>
    match d.values.get? v with
    | some (.Alias _ orig) => d.resolveAux n orig
    | _ => v

/-- Modelled from the spec: resolve value aliases (`dfg.resolve_copies`,
spec I4: "all lookups resolve aliases first"). -/
def DataFlowGraph.resolve_copies (d : DataFlowGraph) (v : Value) : Value :=
  d.resolveAux d.values.length v

/-- Modelled from the spec: classify a value's definition
(`dfg.value_def`): instruction result or block parameter.  Returns `none`
for an alias; `split.rs` always resolves copies before calling this. -/
def DataFlowGraph.value_def (d : DataFlowGraph) (v : Value) : Option ValueDef :=
  match d.values.get? v with
  | some (.Inst _ num i) => some (.Res i num)
  | some (.Arg _ num e) => some (.Arg e num)
  | _ => none

/-- Modelled from the spec: a value's type (`dfg.value_type`). -/
def DataFlowGraph.value_type (d : DataFlowGraph) (v : Value) : Ty :=
  match d.values.get? v with
  | some vd => vd.ty
  | none => ⟨0, 0⟩

/-- Modelled from the spec: a block's current parameter count
(`dfg.num_ebb_args`). -/
def DataFlowGraph.num_ebb_args (d : DataFlowGraph) (e : Ebb) : Nat :=
  ((d.ebbArgs.get? e).getD []).length

/-- Modelled from the spec: replace a block's existing parameter with a value
of a new type, preserving the slot's index (`dfg.replace_ebb_arg`).  A fresh
value takes over the slot and is returned; the old value keeps its data but
no longer appears in the parameter list (the source comments that it is now
dangling). -/
def DataFlowGraph.replace_ebb_arg (d : DataFlowGraph) (v : Value) (new_type : Ty) :
    DataFlowGraph × Value :=
  match d.values.get? v with
  | some (.Arg _ num e) =>
    let newv := d.values.length
    ({ d with
        values := d.values ++ [.Arg new_type num e]
        ebbArgs := d.ebbArgs.set e (((d.ebbArgs.get? e).getD []).set num newv) },
     newv)
  | _ => (d, v)

/-- Modelled from the spec: append a brand-new parameter to a block and
return it (`dfg.append_ebb_arg`). -/
def DataFlowGraph.append_ebb_arg (d : DataFlowGraph) (e : Ebb) (ty : Ty) :
    DataFlowGraph × Value :=
  let num := ((d.ebbArgs.get? e).getD []).length
  let newv := d.values.length
  ({ d with
      values := d.values ++ [.Arg ty num e]
      ebbArgs := d.ebbArgs.set e (((d.ebbArgs.get? e).getD []) ++ [newv]) },
   newv)

/-- Modelled from the spec: make one value an alias of another
(`dfg.change_to_alias`); the value's recorded type is preserved. -/
def DataFlowGraph.change_to_alias (d : DataFlowGraph) (v dest : Value) : DataFlowGraph :=
  match d.values.get? v with
  | some vd => { d with values := d.values.set v (.Alias vd.ty dest) }
  | none => d

/-- Modelled from the spec: the first result value of an instruction
(`dfg.first_result`). -/
def DataFlowGraph.first_result (d : DataFlowGraph) (i : Inst) : Value :=
  ((d.results.get? i).getD []).getD 0 0

/-- Modelled from the spec: all value operands of an instruction
(`dfg.inst_args`); for a branch this is the fixed operands followed by the
block arguments, stored in one list. -/
def DataFlowGraph.inst_args (d : DataFlowGraph) (i : Inst) : List Value :=
  match d.insts.get? i with
  | some (.Binary _ a b) => [a, b]
  | some (.Unary _ a) => [a]
  | some (.Branch _ _ args) => args
  | none => []

/-- Modelled from the spec: overwrite all value operands of an instruction
(`dfg.inst_args_mut(..).copy_from_slice(..)`). -/
def DataFlowGraph.set_inst_args (d : DataFlowGraph) (i : Inst) (new_args : List Value) :
    DataFlowGraph :=
  match d.insts.get? i with
  | some (.Binary op a b) =>
    { d with insts := d.insts.set i (.Binary op (new_args.getD 0 a) (new_args.getD 1 b)) }
  | some (.Unary op a) =>
    { d with insts := d.insts.set i (.Unary op (new_args.getD 0 a)) }
  | some (.Branch op dest _) =>
    { d with insts := d.insts.set i (.Branch op dest new_args) }
  | none => d

/-- Reattach a previously taken value list to an instruction
(`dfg[inst].put_value_list(args)`). -/
def DataFlowGraph.put_list (d : DataFlowGraph) (i : Inst) (args : List Value) :
    DataFlowGraph :=
  match d.insts.get? i with
  | some idat => { d with insts := d.insts.set i (idat.put_value_list args) }
  | none => d

/-- Modelled from the spec: the function layout — per-block instruction
sequences plus the entry block (`pos.layout`, `layout.entry_block()`). -/
structure Layout where
  ebbs : List (List Inst)
  entry : Option Ebb
deriving DecidableEq, Repr

/-- Modelled from the spec: a cursor position (spec §6 "Cursor/position"):
nowhere, at a specific instruction, or at the empty end of a block. -/
inductive CursorPos where
  | nowhere
  | at_ (i : Inst)
  | endOf (e : Ebb)
deriving DecidableEq, Repr

/-- Insert `n` immediately before the first occurrence of `i`. -/
def insertBefore : List Inst → Inst → Inst → List Inst
  | [], _, _ => []
  | x :: xs, i, n => if x = i then n :: x :: xs else x :: insertBefore xs i n

/-- Insert a new instruction into the layout at a cursor position: before the
instruction the cursor is at, or at the end of an empty block.  Fails when
the cursor does not denote an insertion point. -/
def Layout.insert_at (l : Layout) (p : CursorPos) (newInst : Inst) : Option Layout :=
  match p with
  | .nowhere => none
  | .endOf e =>
    match l.ebbs.get? e with
    | some insts => some { l with ebbs := l.ebbs.set e (insts ++ [newInst]) }
    | none => none
  | .at_ i =>
    if l.ebbs.any (fun xs => xs.contains i) then
      some { l with ebbs := l.ebbs.map (fun xs =>
        if xs.contains i then insertBefore xs i newInst else xs) }
    else
      none

/-- The mutable compiler state a pass invocation works on: the value store,
the layout, and the cursor (`dfg`, `pos.layout`, `pos`). -/
structure State where
  dfg : DataFlowGraph
  layout : Layout
  pos : CursorPos
deriving DecidableEq, Repr

/-- Modelled from the spec: the control-flow predecessor index
(spec §6): for each block, its list of (predecessor block, branch
instruction) pairs; the list may contain duplicates. -/
structure ControlFlowGraph where
  preds : List (List (Ebb × Inst))
deriving DecidableEq, Repr

/-- `cfg.get_predecessors(ebb)`. -/
def ControlFlowGraph.get_predecessors (c : ControlFlowGraph) (e : Ebb) : List (Ebb × Inst) :=
  (c.preds.get? e).getD []

/-- The fatal diagnostics (`assert!`, `expect`, `panic!`) the pass can raise;
each constructor corresponds to one panic site, plus the model-level
conditions of an unknown entity or an invalid cursor. -/
inductive PanicMsg where
  | notABranch
  | noValueList
  | tooFewBranchArguments
  | invalidTypeForIsplit
  | invalidTypeForVsplit
  | unhandledConcatOpcode
  | badBinaryResultIndex
  | unknownValue
  | unknownInstruction
  | noInsertionPoint
deriving DecidableEq, Repr

/-- Failure modes of the embedded pass: a fatal diagnostic (a panic in the
source), or exhaustion of the drain fuel (the source's `while` loop has no
fuel; theorems below bound the fuel actually needed). -/
inductive Err where
  | fatal (m : PanicMsg)
  | outOfFuel
deriving DecidableEq, Repr

/-- The deferred repair of the predecessors of a block whose argument was
split (`struct Repair` in the source). -/
structure Repair where
  concat : Opcode
  split_type : Ty
  ebb : Ebb
  num : Nat
  hi_num : Nat
deriving DecidableEq, Repr

/-- `add_repair`: push a repair entry onto the work list (the list models the
source `Vec` with its top at the head). -/
def add_repair (concat : Opcode) (split_type : Ty) (ebb : Ebb) (num hi_num : Nat)
    (repairs : List Repair) : List Repair :=
  ⟨concat, split_type, ebb, num, hi_num⟩ :: repairs

/-- Create an instruction with given data and result types at the cursor
(`dfg.ins(pos)` builders): allocates the instruction, its result values, and
inserts it into the layout at the current position. -/
def State.make_inst (s : State) (data : InstructionData) (resTys : List Ty) :
    Except Err (State × Inst × List Value) :=
  let i := s.dfg.insts.length
  let base := s.dfg.values.length
  let resVals := (List.range resTys.length).map (fun k => base + k)
  let newValueData := resTys.enum.map (fun p => ValueData.Inst p.2 p.1 i)
  match s.layout.insert_at s.pos i with
  | none => .error (.fatal .noInsertionPoint)
  | some l' =>
    .ok ({ dfg := { values := s.dfg.values ++ newValueData
                    insts := s.dfg.insts ++ [data]
                    results := s.dfg.results ++ [resVals]
                    ebbArgs := s.dfg.ebbArgs }
           layout := l'
           pos := s.pos },
         i, resVals)

/-- The generic fallback of `split_value` (source lines 245–253): insert the
requested `isplit`/`vsplit` instruction at `pos` and return its two results.
Result types are the half type of the operand (`dfg.ins(pos).isplit(value)`,
result typing modelled from the spec's type contracts). -/
def insertSplitInst (s : State) (value : Value) (concat : Opcode)
    (repairs : List Repair) : Except Err ((Value × Value) × State × List Repair) :=
  let ty := s.dfg.value_type value
  match concat with
  | .Iconcat =>
    match ty.half_width with
    | none => .error (.fatal .invalidTypeForIsplit)
    | some h => do
      let (s', _i, res) ← s.make_inst (.Unary .Isplit value) [h, h]
      .ok ((res.getD 0 0, res.getD 1 0), s', repairs)
  | .Vconcat =>
    match ty.half_vector with
    | none => .error (.fatal .invalidTypeForVsplit)
    | some h => do
      let (s', _i, res) ← s.make_inst (.Unary .Vsplit value) [h, h]
      .ok ((res.getD 0 0, res.getD 1 0), s', repairs)
  | _ => .error (.fatal .unhandledConcatOpcode)

/-- The block-parameter surgery of `split_value` (source lines 202–237):
replace the parameter with the low half, append the high half, insert the
concatenation at the top of the block, alias the original value to it, and
enqueue a repair. -/
def splitEbbArg (s : State) (value : Value) (concat : Opcode) (ty split_type : Ty)
    (ebb : Ebb) (num : Nat) (repairs : List Repair) :
    Except Err ((Value × Value) × State × List Repair) :=
  let (d1, lo) := s.dfg.replace_ebb_arg value split_type
  let hi_num := d1.num_ebb_args ebb
  let (d2, hi) := d1.append_ebb_arg ebb split_type
  -- pos.goto_top(ebb); pos.next_inst();
  let pos' : CursorPos :=
    match (s.layout.ebbs.get? ebb).getD [] with
    | [] => .endOf ebb
    | i :: _ => .at_ i
  let s1 : State := { dfg := d2, layout := s.layout, pos := pos' }
  do
    let (s2, concat_inst, _res) ← s1.make_inst (.Binary concat lo hi) [ty]
    let concat_val := s2.dfg.first_result concat_inst
    let s3 : State := { s2 with dfg := s2.dfg.change_to_alias value concat_val }
    .ok ((lo, hi), s3, add_repair concat split_type ebb num hi_num repairs)

/-- `split_value` (source lines 178–254): split a single value using the
semantics given by the `concat` opcode, reusing the operands of an existing
concatenation, performing block-parameter surgery on a non-entry block
parameter, and otherwise inserting an explicit split instruction. -/
def split_value (s : State) (value : Value) (concat : Opcode)
    (repairs : List Repair) : Except Err ((Value × Value) × State × List Repair) :=
  let value := s.dfg.resolve_copies value
  match s.dfg.value_def value with
  | some (.Res inst num) =>
    match s.dfg.insts.get? inst with
    | some (.Binary opcode a0 a1) =>
      if num ≠ 0 then .error (.fatal .badBinaryResultIndex)
      else if opcode = concat then .ok ((a0, a1), s, repairs)
      else insertSplitInst s value concat repairs
    | _ => insertSplitInst s value concat repairs
  | some (.Arg ebb num) =>
    if s.layout.entry = some ebb then
      -- Entry-block parameters cannot be split; fall through to the
      -- generic case.
      insertSplitInst s value concat repairs
    else
      let ty := s.dfg.value_type value
      match concat with
      | .Iconcat =>
        match ty.half_width with
        | none => .error (.fatal .invalidTypeForIsplit)
        | some split_type => splitEbbArg s value concat ty split_type ebb num repairs
      | .Vconcat =>
        match ty.half_vector with
        | none => .error (.fatal .invalidTypeForVsplit)
        | some split_type => splitEbbArg s value concat ty split_type ebb num repairs
      | _ => .error (.fatal .unhandledConcatOpcode)
  | none => .error (.fatal .unknownValue)

/-- Place the high part at its slot in a branch's value list (source lines
152–161): overwrite in place if the list is already long enough, otherwise
extend it, padding with `hi` for any gap. -/
def place_high (args : List Value) (num_args fixed_args hi_num : Nat) (hi : Value) :
    List Value :=
  if fixed_args + hi_num < num_args then
    args.set (fixed_args + hi_num) hi
  else
    args ++ List.replicate (1 + fixed_args + hi_num - num_args) hi

/-- One predecessor edge of the repair loop of `split_any` (source lines
122–165): check the branch, detach its value list, short-circuit an already
repaired duplicate edge, otherwise split the old argument and write the low
and high parts back. -/
def repairEdge (s : State) (repairs : List Repair) (repair : Repair) (inst : Inst) :
    Except Err (State × List Repair) :=
  match s.dfg.insts.get? inst with
  | none => .error (.fatal .unknownInstruction)
  | some idata =>
    let branch_opc := idata.opcode
    if !branch_opc.is_branch then .error (.fatal .notABranch)
    else
      match idata.take_value_list with
      | (none, _) => .error (.fatal .noValueList)
      | (some args, idata') =>
        let s0 : State := { s with dfg := { s.dfg with insts := s.dfg.insts.set inst idata' } }
        let fixed_args := branch_opc.fixed_value_arguments
        let num_args := args.length
        match args.get? (fixed_args + repair.num) with
        | none => .error (.fatal .tooFewBranchArguments)
        | some old_arg =>
          if s0.dfg.value_type old_arg = repair.split_type then
            -- Duplicate predecessor edge: already repaired, reattach as-is.
            .ok ({ s0 with dfg := s0.dfg.put_list inst args }, repairs)
          else do
            let s1 : State := { s0 with pos := .at_ inst }
            let ((lo, hi), s2, repairs') ← split_value s1 old_arg repair.concat repairs
            let args1 := args.set (fixed_args + repair.num) lo
            let args2 := place_high args1 num_args fixed_args repair.hi_num hi
            .ok ({ s2 with dfg := s2.dfg.put_list inst args2 }, repairs')

/-- The inner predecessor loop of `split_any`: repair each predecessor edge
of the popped task's block in turn. -/
def processEdges (repair : Repair) :
    State → List Repair → List (Ebb × Inst) → Except Err (State × List Repair)
  | s, repairs, [] => .ok (s, repairs)
  | s, repairs, (_, inst) :: rest => do
    let (s', repairs') ← repairEdge s repairs repair inst
    processEdges repair s' repairs' rest

/-- The repair work-list drain of `split_any` (source lines 121–166),
with explicit fuel bounding the number of popped tasks. -/
def drain (cfg : ControlFlowGraph) :
    List Repair → Nat → State → Except Err State
  | [], _, s => .ok s
  | _ :: _, 0, _ => .error .outOfFuel
  | repair :: rest, fuel + 1, s => do
    let (s', repairs') ← processEdges repair s rest (cfg.get_predecessors repair.ebb)
    drain cfg repairs' fuel s'

/-- `split_any` (source lines 110–170): split the requested value, drain the
repair work list, and restore the saved cursor position. -/
def split_any (cfg : ControlFlowGraph) (s : State) (value : Value) (concat : Opcode)
    (fuel : Nat) : Except Err ((Value × Value) × State) := do
  let saved_pos := s.pos
  let out ← split_value s value concat []
  let s2 ← drain cfg out.2.2 fuel out.2.1
  .ok (out.1, { s2 with pos := saved_pos })

/-- `isplit` (source lines 74–80). -/
def isplit (cfg : ControlFlowGraph) (s : State) (value : Value) (fuel : Nat) :
    Except Err ((Value × Value) × State) :=
  split_any cfg s value .Iconcat fuel

/-- `vsplit` (source lines 84–90). -/
def vsplit (cfg : ControlFlowGraph) (s : State) (value : Value) (fuel : Nat) :
    Except Err ((Value × Value) × State) :=
  split_any cfg s value .Vconcat fuel

/-- `resolve_splits` (source lines 282–309): strip concat–split chains,
returning a simpler way of computing the same value. -/
def resolve_splits (d : DataFlowGraph) (value : Value) : Value :=
  let value := d.resolve_copies value
  match d.value_def value with
  | some (.Res inst split_res) =>
    match
      (match d.insts.get? inst with
       | some idat =>
         match idat.opcode with
         | .Isplit => some Opcode.Iconcat
         | .Vsplit => some Opcode.Vconcat
         | _ => none
       | none => none) with
    | none => value
    | some concat_opc =>
      let split_arg := (d.inst_args inst).getD 0 0
      match d.value_def (d.resolve_copies split_arg) with
      | some (.Res cinst _) =>
        match d.insts.get? cinst with
        | some cdat =>
          if cdat.opcode = concat_opc then (d.inst_args cinst).getD split_res 0
          else value
        | none => value
      | _ => value
  | _ => value

/-- `simplify_branch_arguments` (source lines 320–329): rewrite each argument
of a branch through `resolve_splits`. -/
def simplify_branch_arguments (d : DataFlowGraph) (branch : Inst) : DataFlowGraph :=
  let new_args := (d.inst_args branch).map (fun a => resolve_splits d a)
  d.set_inst_args branch new_args

/-- The branch-arity consistency invariant I3: every branch instruction's
argument-list length equals its opcode's fixed arity plus its target block's
current parameter count. -/
def branch_arity_ok (d : DataFlowGraph) : Bool :=
  d.insts.all (fun idat =>
    match idat with
    | .Branch op dest args => args.length = op.fixed_value_arguments + d.num_ebb_args dest
    | _ => true)

/-- The termination weight of a type for a given concat kind: how much
half-splitting potential it carries.  For `Iconcat` this is `bits/8 - 1`
(one unit per further halving in the binary tree of splits), for `Vconcat`
it is `lanes - 1`. -/
def weight (k : Opcode) (t : Ty) : Nat :=
  match k with
  | .Iconcat => t.bits / 8 - 1
  | .Vconcat => t.lanes - 1
  | _ => 0

/-- The weight of a value-store entry: only live block-parameter entries
carry splitting potential (instruction results are reused, aliases are
never split again). -/
def ValueData.weightOf (k : Opcode) : ValueData → Nat
  | .Arg ty _ _ => weight k ty
  | _ => 0

/-- The total splitting potential of a data-flow graph. -/
def dfgWeight (k : Opcode) (d : DataFlowGraph) : Nat :=
  (d.values.map (ValueData.weightOf k)).sum

/-! ## Concrete scenario states

Small programs used to witness the theorems and to exhibit counterexamples.
`tyI64`, `tyI32`, `tyI16` are scalar integer types of the given widths. -/

def tyI64 : Ty := ⟨64, 1⟩

def tyI32 : Ty := ⟨32, 1⟩

def tyI16 : Ty := ⟨16, 1⟩

/-- A value defined by an existing `iconcat v7, v9`: exercising the reuse
path.  Value 0 is the concatenation's result. -/
def reuseState : State :=
  { dfg := { values := [.Inst tyI64 0 0]
             insts := [.Binary .Iconcat 7 9]
             results := [[0]]
             ebbArgs := [] }
    layout := { ebbs := [], entry := none }
    pos := .nowhere }

/-- An empty predecessor index for `reuseState`. -/
def reuseCfg : ControlFlowGraph := ⟨[]⟩

/-- Block 1 has one `i64` parameter (value 1) and two identical predecessor
edges from the entry block's jump (instruction 0), which passes the entry's
own `i64` parameter (value 0). -/
def dupState : State :=
  { dfg := { values := [.Arg tyI64 0 0, .Arg tyI64 0 1]
             insts := [.Branch .Jump 1 [0]]
             results := [[]]
             ebbArgs := [[0], [1]] }
    layout := { ebbs := [[0], []], entry := some 0 }
    pos := .endOf 1 }

/-- The predecessor index for `dupState`: the one branch is listed twice. -/
def dupCfg : ControlFlowGraph := ⟨[[], [(0, 0), (0, 0)]]⟩

/-- The state `dupState` reaches after `isplit` of value 1 (computed by the
definitions themselves; frozen here to state the theorems). -/
def dupPost : State :=
  { dfg := { values := [.Arg tyI64 0 0, .Alias tyI64 4, .Arg tyI32 0 1,
                        .Arg tyI32 1 1, .Inst tyI64 0 1, .Inst tyI32 0 2,
                        .Inst tyI32 1 2]
             insts := [.Branch .Jump 1 [5, 6], .Binary .Iconcat 2 3,
                       .Unary .Isplit 0]
             results := [[], [4], [5, 6]]
             ebbArgs := [[0], [2, 3]] }
    layout := { ebbs := [[2, 0], [1]], entry := some 0 }
    pos := .endOf 1 }

/-- Two non-entry blocks (1 and 2) whose `i64` parameters (values 0 and 1)
feed only each other's jump arguments: a block-parameter cycle. -/
def cycState : State :=
  { dfg := { values := [.Arg tyI64 0 1, .Arg tyI64 0 2]
             insts := [.Branch .Jump 2 [0], .Branch .Jump 1 [1]]
             results := [[], []]
             ebbArgs := [[], [0], [1]] }
    layout := { ebbs := [[], [0], [1]], entry := some 0 }
    pos := .nowhere }

/-- The predecessor index for `cycState`. -/
def cycCfg : ControlFlowGraph := ⟨[[], [(2, 1)], [(1, 0)]]⟩

/-- The state `cycState` reaches after `isplit` of value 0 (frozen). -/
def cycPost : State :=
  { dfg := { values := [.Alias tyI64 4, .Alias tyI64 7, .Arg tyI32 0 1,
                        .Arg tyI32 1 1, .Inst tyI64 0 2, .Arg tyI32 0 2,
                        .Arg tyI32 1 2, .Inst tyI64 0 3]
             insts := [.Branch .Jump 2 [2, 3], .Branch .Jump 1 [5, 6],
                       .Binary .Iconcat 2 3, .Binary .Iconcat 5 6]
             results := [[], [], [4], [7]]
             ebbArgs := [[], [2, 3], [5, 6]] }
    layout := { ebbs := [[], [2, 0], [3, 1]], entry := some 0 }
    pos := .nowhere }

/-- An arity-consistent but type-inconsistent input: the entry's jump
passes an `i16` value (value 0) for block 1's `i32` parameter (value 1).
Every branch's argument count matches its target's parameter count. -/
def illState : State :=
  { dfg := { values := [.Arg tyI16 0 0, .Arg tyI32 0 1]
             insts := [.Branch .Jump 1 [0]]
             results := [[]]
             ebbArgs := [[0], [1]] }
    layout := { ebbs := [[0], []], entry := some 0 }
    pos := .nowhere }

/-- The predecessor index for `illState`. -/
def illCfg : ControlFlowGraph := ⟨[[], [(0, 0)]]⟩

/-- The state `illState` reaches after `isplit` of value 1 (frozen): the
jump still passes one argument while block 1 now has two parameters. -/
def illPost : State :=
  { dfg := { values := [.Arg tyI16 0 0, .Alias tyI32 4, .Arg tyI16 0 1,
                        .Arg tyI16 1 1, .Inst tyI32 0 1]
             insts := [.Branch .Jump 1 [0], .Binary .Iconcat 2 3]
             results := [[], [4]]
             ebbArgs := [[0], [2, 3]] }
    layout := { ebbs := [[0], [1]], entry := some 0 }
    pos := .nowhere }

/-- The simplifier scenario: `v2 = iconcat v0, v1`, `v3, v4 = isplit v2`,
and a jump passing `[v3, v4, v5]` where value 5 is an alias of value 0. -/
def simpDfg : DataFlowGraph :=
  { values := [.Arg tyI32 0 0, .Arg tyI32 1 0, .Inst tyI64 0 0,
               .Inst tyI32 0 1, .Inst tyI32 1 1, .Alias tyI32 0]
    insts := [.Binary .Iconcat 0 1, .Unary .Isplit 2, .Branch .Jump 3 [3, 4, 5]]
    results := [[2], [3, 4], []]
    ebbArgs := [[0, 1]] }

/-- A simplifier scenario without a matching concat: value 1 is the result
of `isplit` of value 0, but value 0 is the result of an `iadd`, not of an
`iconcat`, so `resolve_splits` must leave the split result alone (up to
alias resolution). -/
def splitNoConcatDfg : DataFlowGraph :=
  { values := [.Inst tyI64 0 0, .Inst tyI32 0 1]
    insts := [.Unary .Iadd 0, .Unary .Isplit 0]
    results := [[0], [1]]
    ebbArgs := [] }

/-- An entry-block parameter of `i64` type (value 0), with the cursor at the
entry's terminating jump. -/
def entryState : State :=
  { dfg := { values := [.Arg tyI64 0 0]
             insts := [.Branch .Jump 1 []]
             results := [[]]
             ebbArgs := [[0], []] }
    layout := { ebbs := [[0], []], entry := some 0 }
    pos := .at_ 0 }

/-- The predecessor index for `entryState`. -/
def entryCfg : ControlFlowGraph := ⟨[[], [(0, 0)]]⟩

/-! ## Invariant definitions for the branch-arity preservation proof -/

/-- The half operation selected by a concat opcode (spec §3: the type-halving
function of the opcode pair descriptor). -/
def halfOp (k : Opcode) (t : Ty) : Option Ty :=
  match k with
  | .Iconcat => t.half_width
  | .Vconcat => t.half_vector
  | _ => none

/-- Every alias entry points in one step to an instruction-result entry of
the same recorded type. -/
def AliasOk (d : DataFlowGraph) : Prop :=
  ∀ x ty orig, d.values.get? x = some (.Alias ty orig) →
    d.value_type orig = ty ∧ ∃ ty2 n i, d.values.get? orig = some (.Inst ty2 n i)

/-- Every concatenation of the drained kind has operands typed at the half
type of any of its claimed result types. -/
def ConcatTyped (k : Opcode) (d : DataFlowGraph) : Prop :=
  ∀ i a b x ty n st, d.insts.get? i = some (.Binary k a b) →
    d.values.get? x = some (.Inst ty n i) → halfOp k ty = some st →
    d.value_type a = st ∧ d.value_type b = st

/-- Result-claiming value entries refer to allocated instructions. -/
def ResultBound (d : DataFlowGraph) : Prop :=
  ∀ x ty n i, d.values.get? x = some (.Inst ty n i) → i < d.insts.length

/-- Every block-parameter entry is listed at its recorded slot of its
recorded block. -/
def ArgConsistent (d : DataFlowGraph) : Prop :=
  ∀ x ty j C, d.values.get? x = some (.Arg ty j C) →
    C < d.ebbArgs.length ∧ ((d.ebbArgs.get? C).getD []).get? j = some x

/-- Every listed block parameter is a parameter entry recording that very
slot and block. -/
def ParamsValid (d : DataFlowGraph) : Prop :=
  ∀ C j x, ((d.ebbArgs.get? C).getD []).get? j = some x →
    ∃ ty, d.values.get? x = some (.Arg ty j C)

/-- Shape of the pending repairs: drained kind, common split type, low slot
strictly below high slot, high slot strictly below the parameter count. -/
def PendShape (k : Opcode) (st0 : Ty) (d : DataFlowGraph) (rs : List Repair) : Prop :=
  ∀ r ∈ rs, r.concat = k ∧ r.split_type = st0 ∧
    r.num < r.hi_num ∧ r.hi_num < d.num_ebb_args r.ebb

/-- The parameters sitting at a pending repair's two slots are the fresh
half-typed parameters. -/
def PendParamTy (st0 : Ty) (d : DataFlowGraph) (rs : List Repair) : Prop :=
  ∀ r ∈ rs,
    (∀ x, ((d.ebbArgs.get? r.ebb).getD []).get? r.num = some x →
      d.value_type x = st0) ∧
    (∀ x, ((d.ebbArgs.get? r.ebb).getD []).get? r.hi_num = some x →
      d.value_type x = st0)

/-- The per-branch well-typedness and arity bookkeeping conditions used by
the branch-arity preservation proof.  For a branch with opcode `op`,
destination `dest` and value list `args`:
(a) the list never exceeds the fixed arity plus the current parameter count;
(b) a pending repair's low slot is in range and still carries a value of
    the un-split type;
(c) a slot not owned by any pending repair carries a value of the same type
    as the destination parameter;
(d) either the list is complete or a pending repair for the newest
    parameter will complete it;
(e) slots whose parameter is not of the split type are always in range;
(f) all arguments are allocated value ids. -/
def BranchOK (k : Opcode) (st0 : Ty) (d : DataFlowGraph) (rs : List Repair)
    (op : Opcode) (dest : Ebb) (args : List Value) : Prop :=
  (args.length ≤ op.fixed_value_arguments + d.num_ebb_args dest) ∧
  (∀ r ∈ rs, r.ebb = dest →
    op.fixed_value_arguments + r.num < args.length ∧
    ∀ a, args.get? (op.fixed_value_arguments + r.num) = some a →
      halfOp k (d.value_type a) = some st0) ∧
  (∀ j x a, ((d.ebbArgs.get? dest).getD []).get? j = some x →
    args.get? (op.fixed_value_arguments + j) = some a →
    (∀ r ∈ rs, r.ebb = dest → j ≠ r.num ∧ j ≠ r.hi_num) →
    d.value_type a = d.value_type x) ∧
  (args.length = op.fixed_value_arguments + d.num_ebb_args dest ∨
    ∃ r ∈ rs, r.ebb = dest ∧ r.hi_num + 1 = d.num_ebb_args dest) ∧
  (∀ j x, ((d.ebbArgs.get? dest).getD []).get? j = some x →
    d.value_type x ≠ st0 → op.fixed_value_arguments + j < args.length) ∧
  (∀ a ∈ args, a < d.values.length)

/-- The core (branch-independent) invariant of the branch-arity
preservation proof. -/
structure InvCore (k : Opcode) (st0 : Ty) (d : DataFlowGraph)
    (rs : List Repair) : Prop where
  resLen : d.results.length = d.insts.length
  aliasOk : AliasOk d
  concatTyped : ConcatTyped k d
  resultBound : ResultBound d
  argConsistent : ArgConsistent d
  paramsValid : ParamsValid d
  pendShape : PendShape k st0 d rs
  pendParamTy : PendParamTy st0 d rs
  stackOrder : rs.Pairwise (fun r1 r2 => r1.ebb = r2.ebb → r1.hi_num > r2.hi_num)
  pendDistinct : rs.Pairwise (fun r1 r2 => r1.ebb = r2.ebb →
    r1.num ≠ r2.num ∧ r1.num ≠ r2.hi_num ∧ r1.hi_num ≠ r2.num)

/-- The per-branch conditions, over all branch instructions. -/
def BranchesOK (k : Opcode) (st0 : Ty) (d : DataFlowGraph) (rs : List Repair) : Prop :=
  ∀ i op dest args, d.insts.get? i = some (.Branch op dest args) →
    BranchOK k st0 d rs op dest args

/-- Agreement between branch instructions and the predecessor index: every
branch is listed among its destination's predecessors, and is listed only
there. -/
def CfgOk (cfg : ControlFlowGraph) (d : DataFlowGraph) : Prop :=
  ∀ i op dest args, d.insts.get? i = some (.Branch op dest args) →
    (∃ e, (e, i) ∈ cfg.get_predecessors dest) ∧
    (∀ B e, (e, i) ∈ cfg.get_predecessors B → dest = B)

/-- The global invariant of the branch-arity preservation proof. -/
def Inv (k : Opcode) (st0 : Ty) (cfg : ControlFlowGraph) (d : DataFlowGraph)
    (rs : List Repair) : Prop :=
  InvCore k st0 d rs ∧ BranchesOK k st0 d rs ∧ CfgOk cfg d

/-- The store after the generic fallback of `split_value`: a fresh split
instruction with two fresh half-typed results. -/
def insertDfg (d : DataFlowGraph) (sop : Opcode) (w : Nat) (h : Ty) :
    DataFlowGraph :=
  { values := d.values ++
      [ValueData.Inst h 0 d.insts.length, ValueData.Inst h 1 d.insts.length]
    insts := d.insts ++ [InstructionData.Unary sop w]
    results := d.results ++ [[d.values.length, d.values.length + 1]]
    ebbArgs := d.ebbArgs }

/-- The store after the block-parameter surgery of `split_value` on the
parameter `r` sitting at slot `j` of block `C`: the slot is replaced by a
fresh low half, a fresh high half is appended, a concatenation of the two
is created, and `r` becomes an alias of its result. -/
def surgeryDfg (d : DataFlowGraph) (k : Opcode) (st t : Ty) (r j C : Nat) :
    DataFlowGraph :=
  { values := (d.values ++
      [ValueData.Arg st j C,
       ValueData.Arg st ((d.ebbArgs.get? C).getD []).length C,
       ValueData.Inst t 0 d.insts.length]).set r
      (ValueData.Alias t (d.values.length + 2))
    insts := d.insts ++
      [InstructionData.Binary k d.values.length (d.values.length + 1)]
    results := d.results ++ [[d.values.length + 2]]
    ebbArgs := d.ebbArgs.set C
      ((((d.ebbArgs.get? C).getD []).set j d.values.length) ++
        [d.values.length + 1]) }

/-- The structural effect of a successful `split_value` call: one of the
three outcomes reuse / insert / block-parameter surgery, with the resulting
store described componentwise. -/
def SVEffect (k : Opcode) (s : State) (rs : List Repair) (v : Nat)
    (lo hi : Nat) (s' : State) (rs' : List Repair) : Prop :=
  (s' = s ∧ rs' = rs ∧ ∃ inst ty,
    s.dfg.values.get? (s.dfg.resolve_copies v) = some (.Inst ty 0 inst) ∧
    s.dfg.insts.get? inst = some (.Binary k lo hi)) ∨
  (∃ sop h,
    halfOp k (s.dfg.value_type (s.dfg.resolve_copies v)) = some h ∧
    s'.dfg = insertDfg s.dfg sop (s.dfg.resolve_copies v) h ∧
    lo = s.dfg.values.length ∧ hi = s.dfg.values.length + 1 ∧ rs' = rs) ∨
  (∃ t st j C,
    s.dfg.values.get? (s.dfg.resolve_copies v) = some (.Arg t j C) ∧
    halfOp k t = some st ∧
    C < s.dfg.ebbArgs.length ∧
    j < ((s.dfg.ebbArgs.get? C).getD []).length ∧
    ((s.dfg.ebbArgs.get? C).getD []).get? j = some (s.dfg.resolve_copies v) ∧
    s'.dfg = surgeryDfg s.dfg k st t (s.dfg.resolve_copies v) j C ∧
    lo = s.dfg.values.length ∧ hi = s.dfg.values.length + 1 ∧
    rs' = ⟨k, st, C, j, ((s.dfg.ebbArgs.get? C).getD []).length⟩ :: rs)

/-- A branch already repaired for the in-flight repair `rp`: its conditions
hold without `rp`, and its low slot carries a split-typed value (the
duplicate-edge short circuit will fire). -/
def Visited (k : Opcode) (st0 : Ty) (d : DataFlowGraph) (rs : List Repair)
    (rp : Repair) (op : Opcode) (dest : Ebb) (args : List Value) : Prop :=
  BranchOK k st0 d rs op dest args ∧
  op.fixed_value_arguments + rp.num < args.length ∧
  (∀ a, args.get? (op.fixed_value_arguments + rp.num) = some a →
    d.value_type a = st0)

/-- The invariant maintained across the predecessor loop processing the
in-flight repair `rp` (which is no longer on the work list): every branch is
either already repaired for `rp` or still satisfies the conditions with `rp`
accounted as pending. -/
structure EdgeInv (k : Opcode) (st0 : Ty) (cfg : ControlFlowGraph)
    (rp : Repair) (s : State) (rs : List Repair) : Prop where
  core : InvCore k st0 s.dfg rs
  cfgok : CfgOk cfg s.dfg
  rpk : rp.concat = k
  rpst : rp.split_type = st0
  rpnh : rp.num < rp.hi_num
  rphm : rp.hi_num < s.dfg.num_ebb_args rp.ebb
  rpnty : ∀ x, ((s.dfg.ebbArgs.get? rp.ebb).getD []).get? rp.num = some x →
    s.dfg.value_type x = st0
  rphty : ∀ x, ((s.dfg.ebbArgs.get? rp.ebb).getD []).get? rp.hi_num = some x →
    s.dfg.value_type x = st0
  rpdist : ∀ r' ∈ rs, r'.ebb = rp.ebb →
    rp.num ≠ r'.num ∧ rp.num ≠ r'.hi_num ∧
    rp.hi_num ≠ r'.num ∧ rp.hi_num ≠ r'.hi_num
  branches : ∀ i op dest args,
    s.dfg.insts.get? i = some (.Branch op dest args) →
    (dest = rp.ebb ∧ Visited k st0 s.dfg rs rp op dest args) ∨
    BranchOK k st0 s.dfg (rp :: rs) op dest args

/-- A small well-formed state: values 0 and 1 are the `i32` results of an
`iadd`, value 2 is the `i64` result of `iconcat v0, v1`; no branches. -/
def wfState : State :=
  { dfg := { values := [.Inst tyI32 0 0, .Inst tyI32 1 0, .Inst tyI64 0 1]
             insts := [.Binary .Iadd 0 1, .Binary .Iconcat 0 1]
             results := [[0, 1], [2]]
             ebbArgs := [] }
    layout := { ebbs := [[0, 1]], entry := some 0 }
    pos := .nowhere }

/-- The (empty) predecessor index for `wfState`. -/
def wfCfg : ControlFlowGraph := ⟨[]⟩

/-! ## General-purpose helper lemmas -/

theorem list_set_of_get? {α : Type} :
    ∀ (l : List α) (i : Nat) (x : α), l.get? i = some x → l.set i x = l
  | [], i, x, h => by cases i <;> simp at h
  | a :: l, 0, x, h => by simp_all
  | a :: l, i + 1, x, h => by
    simp only [List.get?_cons_succ] at h
    simp [List.set, list_set_of_get? l i x h]

theorem drain_nil (cfg : ControlFlowGraph) (fuel : Nat) (s : State) :
    drain cfg [] fuel s = .ok s := by
  cases fuel <;> rfl

theorem except_bind_ok {e a b : Type} (x : a) (f : a → Except e b) :
    (Except.ok (ε := e) x >>= f) = f x := rfl

theorem except_bind_error {e a b : Type} (x : e) (f : a → Except e b) :
    (Except.error (α := a) x >>= f) = Except.error x := rfl

/-- A value whose store entry is not an alias resolves to itself. -/
theorem resolve_of_nonalias (d : DataFlowGraph) (v : Value)
    (h : ∀ ty orig, d.values.get? v ≠ some (.Alias ty orig)) :
    d.resolve_copies v = v := by
  unfold DataFlowGraph.resolve_copies
  cases hl : d.values.length with
  | zero => rfl
  | succ n =>
    unfold DataFlowGraph.resolveAux
    cases hv : d.values.get? v with
    | none => simp
    | some vd =>
      cases vd with
      | Inst ty num i => simp
      | Arg ty num e => simp
      | Alias ty orig => exact absurd hv (h ty orig)

/-! ## Claims -/

/-- C3: for every value that, after alias resolution, is the result of a
binary instruction whose opcode equals the concat member of the selected
opcode pair, with operands `(a, b)`, the split returns exactly `(a, b)` and
leaves the state completely unchanged: no new instruction, no new block
parameter, and no repair task. -/
theorem c3_reuse_idempotence (cfg : ControlFlowGraph) (s : State)
    (value v a b : Value) (ty : Ty) (i : Inst) (fuel : Nat)
    (hres : s.dfg.resolve_copies value = v)
    (hv : s.dfg.values.get? v = some (.Inst ty 0 i)) :
    (s.dfg.insts.get? i = some (.Binary .Iconcat a b) →
      isplit cfg s value fuel = .ok ((a, b), s)) ∧
    (s.dfg.insts.get? i = some (.Binary .Vconcat a b) →
      vsplit cfg s value fuel = .ok ((a, b), s)) := by
  simp only [List.get?_eq_getElem?] at hv
  have hdef : s.dfg.value_def v = some (.Res i 0) := by
    simp [DataFlowGraph.value_def, hv]
  constructor <;> intro hi <;> simp only [List.get?_eq_getElem?] at hi <;>
    simp [isplit, vsplit, split_any, split_value, hres, hdef, hi,
      except_bind_ok, drain_nil]

/-- Witness for C3 at `reuseState`: value 0 is the result of
`iconcat v7, v9`, and `isplit` returns `(7, 9)` without touching the
state. -/
theorem c3_reuse_idempotence_witness :
    isplit reuseCfg reuseState 0 0 = .ok ((7, 9), reuseState) :=
  (c3_reuse_idempotence reuseCfg reuseState 0 0 7 9 tyI64 0 0 rfl rfl).1 rfl

/-- C10: whenever `split_any` (hence `isplit`/`vsplit`) returns normally,
the cursor position of the returned state equals the position at entry. -/
theorem c10_cursor_restored (cfg : ControlFlowGraph) (s : State)
    (value : Value) (concat : Opcode) (fuel : Nat) (res : Value × Value)
    (s' : State) (h : split_any cfg s value concat fuel = .ok (res, s')) :
    s'.pos = s.pos := by
  unfold split_any at h
  cases h1 : split_value s value concat [] with
  | error e => rw [h1, except_bind_error] at h; exact absurd h (by simp)
  | ok out =>
    obtain ⟨p, s1, rs⟩ := out
    rw [h1, except_bind_ok] at h
    cases h2 : drain cfg rs fuel s1 with
    | error e => rw [h2, except_bind_error] at h; exact absurd h (by simp)
    | ok s2 =>
      rw [h2, except_bind_ok] at h
      cases h
      rfl

/-- Witness for C10: a concrete successful run through the reuse path. -/
theorem c10_cursor_restored_witness : reuseState.pos = reuseState.pos :=
  c10_cursor_restored reuseCfg reuseState 0 .Iconcat 0 (7, 9) reuseState rfl

/-- C6: when a repair places the high part at `high_param_index`: if the
branch's argument list is already longer than `fixed_args + hi_num`, the
element at that index is overwritten in place with `high`; otherwise the
list is extended with exactly `1 + fixed_args + hi_num - (old length)`
copies of `high`, so the resulting length is exactly
`fixed_args + hi_num + 1`, the element at `fixed_args + hi_num` is `high`,
intermediate gap positions are padded with `high`, and the existing prefix
is unchanged. -/
theorem c6_place_high (args : List Value) (fixed_args hi_num : Nat) (hi : Value) :
    (fixed_args + hi_num < args.length →
      place_high args args.length fixed_args hi_num hi =
        args.set (fixed_args + hi_num) hi) ∧
    (args.length ≤ fixed_args + hi_num →
      place_high args args.length fixed_args hi_num hi =
        args ++ List.replicate (1 + fixed_args + hi_num - args.length) hi ∧
      (place_high args args.length fixed_args hi_num hi).length =
        fixed_args + hi_num + 1 ∧
      (place_high args args.length fixed_args hi_num hi).get?
        (fixed_args + hi_num) = some hi ∧
      (∀ k, args.length ≤ k → k ≤ fixed_args + hi_num →
        (place_high args args.length fixed_args hi_num hi).get? k = some hi) ∧
      (∀ k, k < args.length →
        (place_high args args.length fixed_args hi_num hi).get? k =
          args.get? k)) := by
  constructor
  · intro h
    simp [place_high, h]
  · intro h
    have hnot : ¬ (fixed_args + hi_num < args.length) := by omega
    have heq : place_high args args.length fixed_args hi_num hi =
        args ++ List.replicate (1 + fixed_args + hi_num - args.length) hi := by
      simp [place_high, hnot]
    refine ⟨heq, ?_, ?_, ?_, ?_⟩
    · rw [heq]
      simp [List.length_append, List.length_replicate]
      omega
    · rw [heq, List.get?_append_right h]
      simp only [List.get?_eq_getElem?, List.getElem?_replicate]
      have hlt : fixed_args + hi_num - args.length <
          1 + fixed_args + hi_num - args.length := by omega
      simp [hlt]
    · intro k hk1 hk2
      rw [heq, List.get?_append_right hk1]
      simp only [List.get?_eq_getElem?, List.getElem?_replicate]
      have hlt : k - args.length < 1 + fixed_args + hi_num - args.length := by
        omega
      simp [hlt]
    · intro k hk
      rw [heq, List.get?_append hk]

/-- Witness for C6: extending a two-argument list to place the high part
at index 3 pads the gap with the high value. -/
theorem c6_place_high_witness :
    ([10, 11] : List Value).length ≤ 0 + 3 ∧
    place_high [10, 11] 2 0 3 7 = [10, 11, 7, 7] := by
  refine ⟨by decide, ?_⟩
  have h := ((c6_place_high [10, 11] 0 3 7).2 (by decide)).1
  simpa using h

/-- A branch whose argument already has the repair's split type. -/
def skipState : State :=
  { dfg := { values := [.Arg tyI16 0 0]
             insts := [.Branch .Jump 1 [0]]
             results := [[]]
             ebbArgs := [[0], []] }
    layout := { ebbs := [[0], []], entry := some 0 }
    pos := .nowhere }

/-- C5: while draining a repair task, a predecessor edge whose branch
argument at position `fixed_args + low_param_index` already has the task's
`split_type` is skipped with the branch's argument list reattached exactly
as it was (the whole state is unchanged); and consequently, in the concrete
duplicate-edge scenario `dupState` (block 1 with the same branch listed
twice as predecessor), the split repairs the edge exactly once per textual
edge and the final argument list `[5, 6]` is never double-extended. -/
theorem c5_duplicate_edge (s : State) (repairs : List Repair) (repair : Repair)
    (inst : Inst) (op : Opcode) (dest : Ebb) (args : List Value)
    (old_arg : Value)
    (hinst : s.dfg.insts.get? inst = some (.Branch op dest args))
    (hbr : op.is_branch = true)
    (hget : args.get? (op.fixed_value_arguments + repair.num) = some old_arg)
    (hty : s.dfg.value_type old_arg = repair.split_type) :
    repairEdge s repairs repair inst = .ok (s, repairs) ∧
    isplit dupCfg dupState 1 1 = .ok ((2, 3), dupPost) := by
  constructor
  · unfold repairEdge
    rw [hinst]
    simp only [InstructionData.opcode, hbr, Bool.not_true, Bool.false_eq_true,
      if_false, InstructionData.take_value_list]
    rw [hget]
    have hty' : ({ s with dfg := { s.dfg with insts := s.dfg.insts.set inst (.Branch op dest []) } } : State).dfg.value_type old_arg = repair.split_type := hty
    simp only [hty', if_pos rfl]
    have hset : (s.dfg.insts.set inst (InstructionData.Branch op dest [])).get? inst =
        some (.Branch op dest []) := by
      have hlt : inst < s.dfg.insts.length := by
        rcases List.get?_eq_some.mp hinst with ⟨hl, _⟩
        exact hl
      rw [List.get?_set_eq_of_lt]
      simpa using hlt
    simp only [DataFlowGraph.put_list, hset, InstructionData.put_value_list,
      List.set_set]
    rw [list_set_of_get? _ _ _ hinst]
    simp
  · rfl

/-- Witness for C5: a concrete skipped edge, via the theorem. -/
theorem c5_duplicate_edge_witness :
    repairEdge skipState [] ⟨.Iconcat, tyI16, 1, 0, 1⟩ 0 = .ok (skipState, []) :=
  (c5_duplicate_edge skipState [] ⟨.Iconcat, tyI16, 1, 0, 1⟩ 0 .Jump 1 [0] 0
    rfl rfl rfl rfl).1

/-- C8: if the alias-resolved value is a parameter of the entry block, the
call performs no argument surgery and enqueues no repair task (the block
parameter lists are unchanged and the returned state shows no repair was
drained); it falls through to the generic case, inserting an explicit
`isplit`/`vsplit` instruction at the insertion point and returning that
instruction's two results. -/
theorem c8_entry_param_generic (cfg : ControlFlowGraph) (s : State)
    (value v : Value) (ty h : Ty) (ebb num : Nat) (l' : Layout) (fuel : Nat)
    (hres : s.dfg.resolve_copies value = v)
    (hv : s.dfg.values.get? v = some (.Arg ty num ebb))
    (hentry : s.layout.entry = some ebb)
    (hins : s.layout.insert_at s.pos s.dfg.insts.length = some l') :
    (ty.half_width = some h →
      isplit cfg s value fuel = .ok
        ((s.dfg.values.length, s.dfg.values.length + 1),
         { dfg := { values := s.dfg.values ++
                      [.Inst h 0 s.dfg.insts.length, .Inst h 1 s.dfg.insts.length]
                    insts := s.dfg.insts ++ [.Unary .Isplit v]
                    results := s.dfg.results ++
                      [[s.dfg.values.length, s.dfg.values.length + 1]]
                    ebbArgs := s.dfg.ebbArgs }
           layout := l'
           pos := s.pos })) ∧
    (ty.half_vector = some h →
      vsplit cfg s value fuel = .ok
        ((s.dfg.values.length, s.dfg.values.length + 1),
         { dfg := { values := s.dfg.values ++
                      [.Inst h 0 s.dfg.insts.length, .Inst h 1 s.dfg.insts.length]
                    insts := s.dfg.insts ++ [.Unary .Vsplit v]
                    results := s.dfg.results ++
                      [[s.dfg.values.length, s.dfg.values.length + 1]]
                    ebbArgs := s.dfg.ebbArgs }
           layout := l'
           pos := s.pos })) := by
  simp only [List.get?_eq_getElem?] at hv
  have hdef : s.dfg.value_def v = some (.Arg ebb num) := by
    simp [DataFlowGraph.value_def, hv]
  have hty : s.dfg.value_type v = ty := by
    simp [DataFlowGraph.value_type, hv, ValueData.ty]
  constructor <;> intro hh <;>
    simp [isplit, vsplit, split_any, split_value, insertSplitInst,
      State.make_inst, hres, hdef, hentry, hins, hty, hh, except_bind_ok,
      drain_nil, List.range_succ, List.enum]

/-- Witness for C8: splitting the entry parameter of `entryState` inserts
an `isplit` before the jump and leaves the parameter lists untouched. -/
theorem c8_entry_param_generic_witness :
    isplit entryCfg entryState 0 0 = .ok ((1, 2),
      { dfg := { values := [.Arg tyI64 0 0, .Inst tyI32 0 1, .Inst tyI32 1 1]
                 insts := [.Branch .Jump 1 [], .Unary .Isplit 0]
                 results := [[], [1, 2]]
                 ebbArgs := [[0], []] }
        layout := { ebbs := [[1, 0], []], entry := some 0 }
        pos := .at_ 0 }) := by
  have h := (c8_entry_param_generic entryCfg entryState 0 0 tyI64 tyI32 0 0
    { ebbs := [[1, 0], []], entry := some 0 } 0 rfl rfl rfl rfl).1 rfl
  simpa using h

/-- A predecessor index entry that is a plain binary instruction. -/
def errStateA : State :=
  { dfg := { values := [.Arg tyI64 0 0]
             insts := [.Binary .Iadd 0 0]
             results := [[]]
             ebbArgs := [[0]] }
    layout := { ebbs := [[0]], entry := some 0 }
    pos := .nowhere }

/-- A branch-opcode instruction stored without a value list. -/
def errStateB : State :=
  { dfg := { values := [.Arg tyI64 0 0]
             insts := [.Binary .Jump 0 0]
             results := [[]]
             ebbArgs := [[0]] }
    layout := { ebbs := [[0]], entry := some 0 }
    pos := .nowhere }

/-- A branch whose argument list is too short for the repaired position. -/
def errStateC : State :=
  { dfg := { values := [.Arg tyI64 0 0]
             insts := [.Branch .Jump 1 []]
             results := [[]]
             ebbArgs := [[0], []] }
    layout := { ebbs := [[0], []], entry := some 0 }
    pos := .nowhere }

/-- A non-entry block parameter of a type too narrow to halve (`i8`,
single lane). -/
def errStateD : State :=
  { dfg := { values := [.Arg ⟨8, 1⟩ 0 1]
             insts := []
             results := []
             ebbArgs := [[], [0]] }
    layout := { ebbs := [[], []], entry := some 0 }
    pos := .nowhere }

/-- C9: the pass fails fast with a fatal diagnostic (modelled as
`Except.error (.fatal _)`, never a silent recovery or a normal return)
whenever, during repair of a target block, a predecessor's instruction is
not actually a branch, or the branch lacks a value list, or the argument
list is too short for the repaired position; and whenever a non-entry block
parameter being split has a type that does not support the requested
half-width/half-vector decomposition. -/
theorem c9_fail_fast :
    (∀ (s : State) (repairs : List Repair) (repair : Repair) (inst : Inst)
       (idata : InstructionData),
       s.dfg.insts.get? inst = some idata →
       idata.opcode.is_branch = false →
       repairEdge s repairs repair inst = .error (.fatal .notABranch)) ∧
    (∀ (s : State) (repairs : List Repair) (repair : Repair) (inst : Inst)
       (op : Opcode) (a0 a1 : Value),
       s.dfg.insts.get? inst = some (.Binary op a0 a1) →
       op.is_branch = true →
       repairEdge s repairs repair inst = .error (.fatal .noValueList)) ∧
    (∀ (s : State) (repairs : List Repair) (repair : Repair) (inst : Inst)
       (op : Opcode) (dest : Ebb) (args : List Value),
       s.dfg.insts.get? inst = some (.Branch op dest args) →
       op.is_branch = true →
       args.get? (op.fixed_value_arguments + repair.num) = none →
       repairEdge s repairs repair inst = .error (.fatal .tooFewBranchArguments)) ∧
    (∀ (s : State) (value v : Value) (ty : Ty) (ebb num : Nat)
       (repairs : List Repair),
       s.dfg.resolve_copies value = v →
       s.dfg.values.get? v = some (.Arg ty num ebb) →
       s.layout.entry ≠ some ebb →
       (ty.half_width = none →
         split_value s value .Iconcat repairs =
           .error (.fatal .invalidTypeForIsplit)) ∧
       (ty.half_vector = none →
         split_value s value .Vconcat repairs =
           .error (.fatal .invalidTypeForVsplit))) := by
  refine ⟨?_, ?_, ?_, ?_⟩
  · intro s repairs repair inst idata hinst hbr
    unfold repairEdge
    rw [hinst]
    simp [hbr]
  · intro s repairs repair inst op a0 a1 hinst hbr
    unfold repairEdge
    rw [hinst]
    simp [hbr, InstructionData.opcode, InstructionData.take_value_list]
  · intro s repairs repair inst op dest args hinst hbr hget
    unfold repairEdge
    rw [hinst]
    simp only [InstructionData.opcode, hbr, Bool.not_true, Bool.false_eq_true,
      if_false, InstructionData.take_value_list]
    rw [hget]
  · intro s value v ty ebb num repairs hres hv hentry
    simp only [List.get?_eq_getElem?] at hv
    have hdef : s.dfg.value_def v = some (.Arg ebb num) := by
      simp [DataFlowGraph.value_def, hv]
    have hty : s.dfg.value_type v = ty := by
      simp [DataFlowGraph.value_type, hv, ValueData.ty]
    constructor <;> intro hh <;>
      simp [split_value, hres, hdef, hentry, hty, hh]

/-- Witness for C9: each failure mode hit at a concrete state. -/
theorem c9_fail_fast_witness :
    repairEdge errStateA [] ⟨.Iconcat, tyI16, 0, 0, 0⟩ 0 =
      .error (.fatal .notABranch) ∧
    repairEdge errStateB [] ⟨.Iconcat, tyI16, 0, 0, 0⟩ 0 =
      .error (.fatal .noValueList) ∧
    repairEdge errStateC [] ⟨.Iconcat, tyI16, 1, 0, 0⟩ 0 =
      .error (.fatal .tooFewBranchArguments) ∧
    split_value errStateD 0 .Iconcat [] =
      .error (.fatal .invalidTypeForIsplit) ∧
    split_value errStateD 0 .Vconcat [] =
      .error (.fatal .invalidTypeForVsplit) :=
  ⟨c9_fail_fast.1 errStateA [] ⟨.Iconcat, tyI16, 0, 0, 0⟩ 0
      (.Binary .Iadd 0 0) rfl rfl,
   c9_fail_fast.2.1 errStateB [] ⟨.Iconcat, tyI16, 0, 0, 0⟩ 0 .Jump 0 0 rfl rfl,
   c9_fail_fast.2.2.1 errStateC [] ⟨.Iconcat, tyI16, 1, 0, 0⟩ 0 .Jump 1 []
      rfl rfl rfl,
   (c9_fail_fast.2.2.2 errStateD 0 0 ⟨8, 1⟩ 1 0 [] rfl rfl (by decide)).1 rfl,
   (c9_fail_fast.2.2.2 errStateD 0 0 ⟨8, 1⟩ 1 0 [] rfl rfl (by decide)).2 rfl⟩

/-- C7 counterexample: the claim says every argument that is not a matching
split result is left unchanged, but the third jump argument (value 5, an
alias of value 0, not the result of any instruction) is rewritten to 0: the
simplifier returns the alias-resolved value, not the original argument. -/
theorem c7_counterexample :
    simpDfg.values.get? 5 = some (.Alias tyI32 0) ∧
    simpDfg.inst_args 2 = [3, 4, 5] ∧
    (simplify_branch_arguments simpDfg 2).inst_args 2 = [0, 1, 0] :=
  ⟨rfl, rfl, rfl⟩

/-- C7 (amended): `simplify_branch_arguments` rewrites the branch's
argument list in place to the image of `resolve_splits`, which acts on each
argument as follows.  If the argument, after alias resolution, is result
`i` of a split instruction whose sole operand resolves to the result of the
matching concat opcode, it is replaced by operand `i` of that concat.  In
every other case it is replaced by its alias-resolved value (hence left
unchanged exactly when it is not an alias): when it resolves to a split
result but the split's operand does not resolve to a matching concat
result, when it resolves to a block parameter, to the result of a
non-split instruction, to a split result whose instruction entry is
missing, or to no known definition at all.  In particular, in `simpDfg`
(where value 2 is `iconcat` of values 0 and 1 and values 3, 4 are the
`isplit` of value 2) the jump arguments 3 and 4 are rewritten to 0 and 1.
-/
theorem c7_simplify_branch_arguments :
    (∀ (d : DataFlowGraph) (branch : Inst) (op : Opcode) (dest : Ebb)
       (args : List Value),
       d.insts.get? branch = some (.Branch op dest args) →
       simplify_branch_arguments d branch =
         { d with insts := d.insts.set branch (InstructionData.Branch op dest
             (args.map (fun x => resolve_splits d x))) }) ∧
    (∀ (d : DataFlowGraph) (a : Value) (ty cty : Ty) (snum cnum : Nat)
       (sinst cinst : Inst) (sop copc : Opcode) (sarg : Value)
       (c0 c1 : Value),
       d.values.get? (d.resolve_copies a) = some (.Inst ty snum sinst) →
       d.insts.get? sinst = some (.Unary sop sarg) →
       ((sop = .Isplit ∧ copc = .Iconcat) ∨ (sop = .Vsplit ∧ copc = .Vconcat)) →
       d.values.get? (d.resolve_copies sarg) = some (.Inst cty cnum cinst) →
       d.insts.get? cinst = some (.Binary copc c0 c1) →
       resolve_splits d a = [c0, c1].getD snum 0) ∧
    (∀ (d : DataFlowGraph) (a : Value) (ty : Ty) (snum : Nat) (sinst : Inst)
       (sop copc : Opcode) (sarg : Value),
       d.values.get? (d.resolve_copies a) = some (.Inst ty snum sinst) →
       d.insts.get? sinst = some (.Unary sop sarg) →
       ((sop = .Isplit ∧ copc = .Iconcat) ∨ (sop = .Vsplit ∧ copc = .Vconcat)) →
       (∀ (cty : Ty) (cnum : Nat) (cinst : Inst),
         d.values.get? (d.resolve_copies sarg) = some (.Inst cty cnum cinst) →
         ∀ cdat, d.insts.get? cinst = some cdat → cdat.opcode ≠ copc) →
       resolve_splits d a = d.resolve_copies a) ∧
    (∀ (d : DataFlowGraph) (a : Value) (ty : Ty) (num e : Nat),
       d.values.get? (d.resolve_copies a) = some (.Arg ty num e) →
       resolve_splits d a = d.resolve_copies a) ∧
    (∀ (d : DataFlowGraph) (a : Value) (ty : Ty) (snum : Nat) (sinst : Inst)
       (idat : InstructionData),
       d.values.get? (d.resolve_copies a) = some (.Inst ty snum sinst) →
       d.insts.get? sinst = some idat →
       idat.opcode ≠ .Isplit → idat.opcode ≠ .Vsplit →
       resolve_splits d a = d.resolve_copies a) ∧
    (∀ (d : DataFlowGraph) (a : Value) (ty : Ty) (snum : Nat) (sinst : Inst),
       d.values.get? (d.resolve_copies a) = some (.Inst ty snum sinst) →
       d.insts.get? sinst = none →
       resolve_splits d a = d.resolve_copies a) ∧
    (∀ (d : DataFlowGraph) (a : Value),
       d.value_def (d.resolve_copies a) = none →
       resolve_splits d a = d.resolve_copies a) ∧
    (simplify_branch_arguments simpDfg 2).inst_args 2 = [0, 1, 0] := by
  refine ⟨?_, ?_, ?_, ?_, ?_, ?_, ?_, rfl⟩
  · intro d branch op dest args hbranch
    unfold simplify_branch_arguments DataFlowGraph.set_inst_args
      DataFlowGraph.inst_args
    rw [hbranch]
  · intro d a ty cty snum cnum sinst cinst sop copc sarg c0 c1
      hv hs hop hc hcd
    simp only [List.get?_eq_getElem?] at hs hcd
    unfold resolve_splits
    have hdef : d.value_def (d.resolve_copies a) = some (.Res sinst snum) := by
      simp only [List.get?_eq_getElem?] at hv
      simp [DataFlowGraph.value_def, hv]
    have hdefc : d.value_def (d.resolve_copies sarg) = some (.Res cinst cnum) := by
      simp only [List.get?_eq_getElem?] at hc
      simp [DataFlowGraph.value_def, hc]
    have hargs : d.inst_args sinst = [sarg] := by
      simp [DataFlowGraph.inst_args, hs]
    simp only [List.get?_eq_getElem?] at hargs
    rcases hop with ⟨h1, h2⟩ | ⟨h1, h2⟩ <;> subst h1 h2 <;>
      simp [hdef, hs, InstructionData.opcode, hargs, hdefc, hcd,
        DataFlowGraph.inst_args]
  · intro d a ty snum sinst sop copc sarg hv hs hop hno
    simp only [List.get?_eq_getElem?] at hs
    have hdef : d.value_def (d.resolve_copies a) = some (.Res sinst snum) := by
      simp only [List.get?_eq_getElem?] at hv
      simp [DataFlowGraph.value_def, hv]
    have hargs : d.inst_args sinst = [sarg] := by
      simp [DataFlowGraph.inst_args, hs]
    simp only [List.get?_eq_getElem?] at hargs
    unfold resolve_splits
    cases hvd : d.value_def (d.resolve_copies sarg) with
    | none =>
      rcases hop with ⟨h1, h2⟩ | ⟨h1, h2⟩ <;> subst h1 h2 <;>
        simp [hdef, hs, InstructionData.opcode, hargs, hvd]
    | some vd =>
      cases vd with
      | Arg e2 n2 =>
        rcases hop with ⟨h1, h2⟩ | ⟨h1, h2⟩ <;> subst h1 h2 <;>
          simp [hdef, hs, InstructionData.opcode, hargs, hvd]
      | Res cinst cnum2 =>
        have hinv : ∃ cty, d.values.get? (d.resolve_copies sarg) =
            some (ValueData.Inst cty cnum2 cinst) := by
          unfold DataFlowGraph.value_def at hvd
          cases hg : d.values.get? (d.resolve_copies sarg) with
          | none => rw [hg] at hvd; simp at hvd
          | some vdta =>
            cases vdta with
            | Inst t n i =>
              rw [hg] at hvd
              simp only [Option.some.injEq, ValueDef.Res.injEq] at hvd
              obtain ⟨h1, h2⟩ := hvd
              exact ⟨t, by rw [h1, h2]⟩
            | Arg t n e => rw [hg] at hvd; simp at hvd
            | Alias t o => rw [hg] at hvd; simp at hvd
        obtain ⟨cty, hg⟩ := hinv
        cases hci : d.insts.get? cinst with
        | none =>
          have hci2 := hci
          simp only [List.get?_eq_getElem?] at hci2
          rcases hop with ⟨h1, h2⟩ | ⟨h1, h2⟩ <;> subst h1 h2 <;>
            simp [hdef, hs, InstructionData.opcode, hargs, hvd, hci, hci2]
        | some cdat =>
          have hne := hno cty cnum2 cinst hg cdat hci
          simp only [InstructionData.opcode] at hne
          have hci2 := hci
          simp only [List.get?_eq_getElem?] at hci2
          rcases hop with ⟨h1, h2⟩ | ⟨h1, h2⟩ <;> subst h1 h2 <;>
            simp [hdef, hs, InstructionData.opcode, hargs, hvd, hci, hci2,
              hne]
  · intro d a ty num e hv
    unfold resolve_splits
    have hdef : d.value_def (d.resolve_copies a) = some (.Arg e num) := by
      simp only [List.get?_eq_getElem?] at hv
      simp [DataFlowGraph.value_def, hv]
    simp [hdef]
  · intro d a ty snum sinst idat hv hs hop1 hop2
    unfold resolve_splits
    have hdef : d.value_def (d.resolve_copies a) = some (.Res sinst snum) := by
      simp only [List.get?_eq_getElem?] at hv
      simp [DataFlowGraph.value_def, hv]
    simp only [List.get?_eq_getElem?] at hs
    simp only [hdef]
    cases hco : idat.opcode <;> simp_all [InstructionData.opcode]
  · intro d a ty snum sinst hv hs
    unfold resolve_splits
    have hdef : d.value_def (d.resolve_copies a) = some (.Res sinst snum) := by
      simp only [List.get?_eq_getElem?] at hv
      simp [DataFlowGraph.value_def, hv]
    have hs2 := hs
    simp only [List.get?_eq_getElem?] at hs2
    simp [hdef, hs, hs2]
  · intro d a hnone
    unfold resolve_splits
    simp [hnone]

/-- Witness for C7: in `simpDfg` the split results resolve to the concat
operands, and in `splitNoConcatDfg` the split of a non-concat result is
left at its alias-resolved value, all via the theorem. -/
theorem c7_simplify_branch_arguments_witness :
    resolve_splits simpDfg 3 = 0 ∧ resolve_splits simpDfg 4 = 1 ∧
    resolve_splits splitNoConcatDfg 1 = 1 :=
  ⟨by
    have h := c7_simplify_branch_arguments.2.1 simpDfg 3 tyI32 tyI64 0 0 1 0
      .Isplit .Iconcat 2 0 1 rfl rfl (Or.inl ⟨rfl, rfl⟩) rfl rfl
    simpa using h,
   by
    have h := c7_simplify_branch_arguments.2.1 simpDfg 4 tyI32 tyI64 1 0 1 0
      .Isplit .Iconcat 2 0 1 rfl rfl (Or.inl ⟨rfl, rfl⟩) rfl rfl
    simpa using h,
   by
    have h := c7_simplify_branch_arguments.2.2.1 splitNoConcatDfg 1 tyI32 0 1
      .Isplit .Iconcat 0 rfl rfl (Or.inl ⟨rfl, rfl⟩) ?_
    · simpa using h
    · intro cty cnum cinst hg cdat hc
      have h0 : splitNoConcatDfg.values.get? (splitNoConcatDfg.resolve_copies 0) =
          some (ValueData.Inst tyI64 0 0) := rfl
      rw [h0] at hg
      injection hg with hg
      injection hg with e1 e2 e3
      rw [← e3] at hc
      have h1 : splitNoConcatDfg.insts.get? 0 =
          some (InstructionData.Unary .Iadd 0) := rfl
      rw [h1] at hc
      injection hc with hc
      rw [← hc]
      decide⟩

/-- The state produced by block-parameter surgery on value `v` (slot `num`
of block `ebb`, parameter list `eargs`, block instruction list `binsts`,
post-insertion layout `l'`): used to state the surgery theorem. -/
def surgeryPost (s : State) (v : Value) (ty split_type : Ty) (ebb num : Nat)
    (concat : Opcode) (eargs : List Value) (binsts : List Inst)
    (l' : Layout) : State :=
  { dfg := { values := (s.dfg.values ++
               [ValueData.Arg split_type num ebb,
                ValueData.Arg split_type eargs.length ebb,
                ValueData.Inst ty 0 s.dfg.insts.length]).set v
               (ValueData.Alias ty (s.dfg.values.length + 2))
             insts := s.dfg.insts ++
               [InstructionData.Binary concat s.dfg.values.length
                 (s.dfg.values.length + 1)]
             results := s.dfg.results ++ [[s.dfg.values.length + 2]]
             ebbArgs := s.dfg.ebbArgs.set ebb
               ((eargs.set num s.dfg.values.length) ++
                [s.dfg.values.length + 1]) }
    layout := l'
    pos := match binsts with
           | [] => CursorPos.endOf ebb
           | i :: _ => CursorPos.at_ i }

/-- C1: splitting an alias-resolved value that is parameter `num` of a
non-entry block `ebb` whose type supports the half-operation for the concat
kind: the parameter slot at index `num` keeps its index and is replaced by
the half-type value `low` (the fresh id `values.length`); exactly one
brand-new parameter `high` is appended whose recorded index `hi_num`
equals the block's parameter count just before the append; a synthetic
concat instruction combining `low` and `high` is inserted at the top of
`ebb`; the original value becomes an alias of that concat's result, so a
future split of the same original value takes the reuse path and returns
`(low, high)` with the state unchanged; exactly one
`RepairTask {concat_kind, split_type, ebb, num, hi_num}` is pushed; and the
call returns `(low, high)`. -/
theorem c1_block_param_surgery (s : State) (value v : Nat)
    (ty split_type : Ty) (ebb num : Nat) (concat : Opcode)
    (eargs : List Value) (binsts : List Inst) (l' : Layout)
    (repairs rs2 : List Repair)
    (hres : s.dfg.resolve_copies value = v)
    (hv : s.dfg.values.get? v = some (.Arg ty num ebb))
    (hentry : s.layout.entry ≠ some ebb)
    (hhalf : (concat = .Iconcat ∧ ty.half_width = some split_type) ∨
             (concat = .Vconcat ∧ ty.half_vector = some split_type))
    (heargs : s.dfg.ebbArgs.get? ebb = some eargs)
    (hnum : num < eargs.length)
    (hrlen : s.dfg.results.length = s.dfg.insts.length)
    (hins : s.layout.insert_at
        (match binsts with
         | [] => CursorPos.endOf ebb
         | i :: _ => CursorPos.at_ i)
        s.dfg.insts.length = some l')
    (hbinsts : s.layout.ebbs.get? ebb = some binsts) :
    split_value s value concat repairs =
      .ok ((s.dfg.values.length, s.dfg.values.length + 1),
        surgeryPost s v ty split_type ebb num concat eargs binsts l',
        ⟨concat, split_type, ebb, num, eargs.length⟩ :: repairs) ∧
    (surgeryPost s v ty split_type ebb num concat eargs binsts
        l').dfg.ebbArgs.get? ebb =
      some ((eargs.set num s.dfg.values.length) ++
        [s.dfg.values.length + 1]) ∧
    (surgeryPost s v ty split_type ebb num concat eargs binsts
        l').dfg.num_ebb_args ebb = eargs.length + 1 ∧
    l'.ebbs.get? ebb = some (s.dfg.insts.length :: binsts) ∧
    (surgeryPost s v ty split_type ebb num concat eargs binsts
        l').dfg.resolve_copies v = s.dfg.values.length + 2 ∧
    split_value (surgeryPost s v ty split_type ebb num concat eargs binsts l')
        v concat rs2 =
      .ok ((s.dfg.values.length, s.dfg.values.length + 1),
        surgeryPost s v ty split_type ebb num concat eargs binsts l', rs2) := by
  have hvlt : v < s.dfg.values.length := by
    rcases List.get?_eq_some.mp hv with ⟨hl, _⟩
    exact hl
  have hebblt : ebb < s.dfg.ebbArgs.length := by
    rcases List.get?_eq_some.mp heargs with ⟨hl, _⟩
    exact hl
  have hv' : s.dfg.values[v]? = some (.Arg ty num ebb) := by
    simpa [List.get?_eq_getElem?] using hv
  have hdef : s.dfg.value_def v = some (.Arg ebb num) := by
    simp [DataFlowGraph.value_def, hv']
  have hty : s.dfg.value_type v = ty := by
    simp [DataFlowGraph.value_type, hv', ValueData.ty]
  have hget2 : (s.dfg.values ++
      [ValueData.Arg split_type num ebb,
       ValueData.Arg split_type eargs.length ebb,
       ValueData.Inst ty 0 s.dfg.insts.length]).get?
        (s.dfg.values.length + 2) = some (.Inst ty 0 s.dfg.insts.length) := by
    rw [List.get?_append_right (Nat.le_add_right _ 2)]
    simp
  have hpost2 : (surgeryPost s v ty split_type ebb num concat eargs binsts
      l').dfg.values.get? (s.dfg.values.length + 2) =
      some (.Inst ty 0 s.dfg.insts.length) := by
    have hne : v ≠ s.dfg.values.length + 2 := by omega
    unfold surgeryPost
    rw [List.get?_set_ne _ _ hne]
    exact hget2
  have hpostv : (surgeryPost s v ty split_type ebb num concat eargs binsts
      l').dfg.values.get? v = some (.Alias ty (s.dfg.values.length + 2)) := by
    have hlt : v < (s.dfg.values ++
        [ValueData.Arg split_type num ebb,
         ValueData.Arg split_type eargs.length ebb,
         ValueData.Inst ty 0 s.dfg.insts.length]).length := by
      simp [List.length_append]
      omega
    unfold surgeryPost
    exact List.get?_set_eq_of_lt _ hlt
  have hresolve : (surgeryPost s v ty split_type ebb num concat eargs binsts
      l').dfg.resolve_copies v = s.dfg.values.length + 2 := by
    have hlenpost : (surgeryPost s v ty split_type ebb num concat eargs binsts
        l').dfg.values.length = s.dfg.values.length + 3 := by
      unfold surgeryPost
      simp
    unfold DataFlowGraph.resolve_copies
    rw [hlenpost]
    show DataFlowGraph.resolveAux _ (s.dfg.values.length + 2 + 1) v =
      s.dfg.values.length + 2
    unfold DataFlowGraph.resolveAux
    rw [hpostv]
    unfold DataFlowGraph.resolveAux
    rw [hpost2]
  have hvapp : (s.dfg.values ++
      [ValueData.Arg split_type num ebb,
       ValueData.Arg split_type eargs.length ebb,
       ValueData.Inst ty 0 s.dfg.insts.length]).get? v =
      some (.Arg ty num ebb) := by
    rw [List.get?_append hvlt]
    exact hv
  have hfirst : (s.dfg.results ++ [[s.dfg.values.length + 2]]).get?
      s.dfg.insts.length = some [s.dfg.values.length + 2] := by
    rw [← hrlen, List.get?_append_right (le_refl _)]
    simp
  have hd1 : (s.dfg.ebbArgs.set ebb
      (eargs.set num s.dfg.values.length)).get? ebb =
      some (eargs.set num s.dfg.values.length) :=
    List.get?_set_eq_of_lt _ hebblt
  have hvapp' := hvapp
  have hfirst' := hfirst
  have hd1' := hd1
  have heargs' := heargs
  have hbinsts' := hbinsts
  simp only [List.get?_eq_getElem?] at hvapp' hfirst' hd1' heargs' hbinsts'
  refine ⟨?_, ?_, ?_, ?_, hresolve, ?_⟩
  · rcases hhalf with ⟨hc, hh⟩ | ⟨hc, hh⟩ <;> subst hc <;>
      simp [split_value, splitEbbArg, State.make_inst, surgeryPost,
        DataFlowGraph.replace_ebb_arg, DataFlowGraph.append_ebb_arg,
        DataFlowGraph.num_ebb_args, DataFlowGraph.change_to_alias,
        DataFlowGraph.first_result, add_repair, heargs',
        hres, hdef, hentry, hty, hh, hv', hbinsts', hins, hvapp', hfirst',
        hd1', except_bind_ok, List.set_set, List.append_assoc,
        List.range_succ, List.range_zero, ValueData.ty]
  · unfold surgeryPost
    exact List.get?_set_eq_of_lt _ hebblt
  · have h2 : (s.dfg.ebbArgs.set ebb
        ((eargs.set num s.dfg.values.length) ++
         [s.dfg.values.length + 1])).get? ebb =
        some ((eargs.set num s.dfg.values.length) ++
          [s.dfg.values.length + 1]) := List.get?_set_eq_of_lt _ hebblt
    simp only [List.get?_eq_getElem?] at h2
    simp [surgeryPost, DataFlowGraph.num_ebb_args, h2]
  · cases binsts with
    | nil =>
      unfold Layout.insert_at at hins
      simp only [] at hins
      rw [hbinsts] at hins
      cases hins
      rcases List.get?_eq_some.mp hbinsts with ⟨hlb, _⟩
      have h2 : (s.layout.ebbs.set ebb
          ([] ++ [s.dfg.insts.length])).get? ebb =
          some ([] ++ [s.dfg.insts.length]) := List.get?_set_eq_of_lt _ hlb
      simpa using h2
    | cons i rest =>
      unfold Layout.insert_at at hins
      simp only [] at hins
      by_cases hany : s.layout.ebbs.any (fun xs => xs.contains i)
      · rw [if_pos hany] at hins
        cases hins
        have hbg : s.layout.ebbs[ebb]? = some (i :: rest) := by
          simpa [List.get?_eq_getElem?] using hbinsts
        have hmap := List.get?_map
          (fun xs => if xs.contains i then insertBefore xs i s.dfg.insts.length
                     else xs) s.layout.ebbs ebb
        simp [hmap, insertBefore]
        exact ⟨i :: rest, hbg, by simp [insertBefore]⟩
      · rw [if_neg hany] at hins
        cases hins
  · have hpost2' := hpost2
    simp only [List.get?_eq_getElem?] at hpost2'
    have hdefp : (surgeryPost s v ty split_type ebb num concat eargs binsts
        l').dfg.value_def (s.dfg.values.length + 2) =
        some (.Res s.dfg.insts.length 0) := by
      simp [DataFlowGraph.value_def, hpost2']
    have hinstp : (surgeryPost s v ty split_type ebb num concat eargs binsts
        l').dfg.insts.get? s.dfg.insts.length =
        some (.Binary concat s.dfg.values.length (s.dfg.values.length + 1)) := by
      unfold surgeryPost
      rw [List.get?_append_right (le_refl _)]
      simp
    simp only [List.get?_eq_getElem?] at hinstp
    simp [split_value, hresolve, hdefp, hinstp, except_bind_ok]

/-- Witness for C1: the surgery on block 1 of `dupState`, via the
theorem. -/
theorem c1_block_param_surgery_witness :
    split_value dupState 1 .Iconcat [] =
      .ok ((2, 3),
        surgeryPost dupState 1 tyI64 tyI32 1 0 .Iconcat [1] []
          { ebbs := [[0], [1]], entry := some 0 },
        [⟨.Iconcat, tyI32, 1, 0, 1⟩]) :=
  (c1_block_param_surgery dupState 1 1 tyI64 tyI32 1 0 .Iconcat [1] []
    { ebbs := [[0], [1]], entry := some 0 } [] [] rfl rfl (by decide)
    (Or.inl ⟨rfl, rfl⟩) rfl (by decide) rfl rfl rfl).1

theorem weight_half_width {t h : Ty} (hh : t.half_width = some h) :
    1 + 2 * weight .Iconcat h ≤ weight .Iconcat t := by
  unfold Ty.half_width at hh
  by_cases h16 : 16 ≤ t.bits
  · rw [if_pos h16] at hh
    cases hh
    simp only [weight]
    omega
  · rw [if_neg h16] at hh
    cases hh

theorem weight_half_vector {t h : Ty} (hh : t.half_vector = some h) :
    1 + 2 * weight .Vconcat h ≤ weight .Vconcat t := by
  unfold Ty.half_vector at hh
  by_cases h2 : 2 ≤ t.lanes
  · rw [if_pos h2] at hh
    cases hh
    simp only [weight]
    omega
  · rw [if_neg h2] at hh
    cases hh

theorem sum_map_set {α : Type} (f : α → Nat) :
    ∀ (l : List α) (i : Nat) (x y : α), l.get? i = some x →
    ((l.set i y).map f).sum + f x = (l.map f).sum + f y
  | [], i, x, y, h => by cases i <;> simp at h
  | a :: t, 0, x, y, h => by
    simp at h
    subst h
    simp [List.set]
    omega
  | a :: t, i + 1, x, y, h => by
    simp only [List.get?_cons_succ] at h
    have ih := sum_map_set f t i x y h
    simp only [List.set, List.map_cons, List.sum_cons]
    omega

theorem insertSplitInst_measure (s : State) (v : Nat) (k : Opcode)
    (rs : List Repair) (p : Value × Value) (s' : State) (rs' : List Repair)
    (h : insertSplitInst s v k rs = .ok (p, s', rs')) :
    dfgWeight k s'.dfg = dfgWeight k s.dfg ∧ rs' = rs := by
  unfold insertSplitInst State.make_inst at h
  cases k with
  | Iconcat =>
    cases hh : (s.dfg.value_type v).half_width with
    | none => simp [hh] at h
    | some ht =>
      simp only [hh] at h
      cases hins : s.layout.insert_at s.pos s.dfg.insts.length with
      | none => simp [hins, except_bind_error] at h
      | some l' =>
        simp only [hins, except_bind_ok, Except.ok.injEq, Prod.mk.injEq] at h
        obtain ⟨hp, hs2, hrs2⟩ := h
        subst hs2 hrs2
        refine ⟨?_, rfl⟩
        simp [dfgWeight, ValueData.weightOf, List.enum, List.enumFrom]
  | Vconcat =>
    cases hh : (s.dfg.value_type v).half_vector with
    | none => simp [hh] at h
    | some ht =>
      simp only [hh] at h
      cases hins : s.layout.insert_at s.pos s.dfg.insts.length with
      | none => simp [hins, except_bind_error] at h
      | some l' =>
        simp only [hins, except_bind_ok, Except.ok.injEq, Prod.mk.injEq] at h
        obtain ⟨hp, hs2, hrs2⟩ := h
        subst hs2 hrs2
        refine ⟨?_, rfl⟩
        simp [dfgWeight, ValueData.weightOf, List.enum, List.enumFrom]
  | Isplit => simp at h
  | Vsplit => simp at h
  | Jump => simp at h
  | Brz => simp at h
  | Iadd => simp at h

theorem splitEbbArg_measure (s : State) (v : Nat) (k : Opcode) (ty st : Ty)
    (ebb num : Nat) (rs : List Repair) (p : Value × Value) (s' : State)
    (rs' : List Repair) (numv ebbv : Nat)
    (hv : s.dfg.values.get? v = some (.Arg ty numv ebbv))
    (hw : 1 + 2 * weight k st ≤ weight k ty)
    (h : splitEbbArg s v k ty st ebb num rs = .ok (p, s', rs')) :
    rs'.length + dfgWeight k s'.dfg ≤ rs.length + dfgWeight k s.dfg ∧
    (∀ r ∈ rs', r.concat = k ∨ r ∈ rs) := by
  have hvlt : v < s.dfg.values.length := by
    rcases List.get?_eq_some.mp hv with ⟨hl, _⟩
    exact hl
  have hv' : s.dfg.values[v]? = some (.Arg ty numv ebbv) := by
    simpa [List.get?_eq_getElem?] using hv
  unfold splitEbbArg State.make_inst at h
  simp only [DataFlowGraph.replace_ebb_arg, DataFlowGraph.append_ebb_arg,
    DataFlowGraph.num_ebb_args, hv] at h
  generalize hN : (((s.dfg.ebbArgs.set ebbv
      (((s.dfg.ebbArgs.get? ebbv).getD []).set numv
        s.dfg.values.length)).get? ebb).getD []).length = N at h
  simp only [DataFlowGraph.change_to_alias, DataFlowGraph.first_result,
    add_repair, List.length_cons, List.length_nil, List.length_singleton,
    List.enum, List.enumFrom, List.map_cons, List.map_nil, List.range_succ,
    List.range_zero, List.length_append, List.append_nil, List.nil_append,
    Nat.add_zero, Nat.zero_add] at h
  split at h
  · simp [except_bind_error] at h
  · simp only [except_bind_ok, Except.ok.injEq, Prod.mk.injEq] at h
    have hL2 : v < (s.dfg.values ++ [ValueData.Arg st numv ebbv]).length := by
      simp
      omega
    have hL3 : v < ((s.dfg.values ++ [ValueData.Arg st numv ebbv]) ++
        [ValueData.Arg st N ebb]).length := by
      simp
      omega
    have hbigv : (((s.dfg.values ++ [ValueData.Arg st numv ebbv]) ++
        [ValueData.Arg st N ebb]) ++
        [ValueData.Inst ty 0 s.dfg.insts.length]).get? v =
        some (ValueData.Arg ty numv ebbv) := by
      rw [List.get?_append hL3, List.get?_append hL2, List.get?_append hvlt]
      exact hv
    simp only [hbigv, ValueData.ty] at h
    generalize hCV : (((s.dfg.results ++
      [[s.dfg.values.length + 2]]).get? s.dfg.insts.length).getD []).getD 0 0
      = CV at h
    obtain ⟨hp, hs2, hrs2⟩ := h
    subst hrs2
    refine ⟨?_, ?_⟩
    · subst hs2
      have hsum := sum_map_set (ValueData.weightOf k)
        (s.dfg.values ++ [ValueData.Arg st numv ebbv] ++
         [ValueData.Arg st N ebb] ++
         [ValueData.Inst ty 0 s.dfg.insts.length]) v
        (ValueData.Arg ty numv ebbv) (ValueData.Alias ty CV) hbigv
      simp only [dfgWeight, List.map_append, List.sum_append, List.map_cons,
        List.map_nil, List.sum_cons, List.sum_nil, ValueData.weightOf,
        List.length_cons] at hsum ⊢
      omega
    · intro r hr
      rcases List.mem_cons.mp hr with h1 | h1
      · left
        rw [h1]
      · right
        exact h1

theorem split_value_measure (s : State) (value : Nat) (k : Opcode)
    (rs : List Repair) (p : Value × Value) (s' : State) (rs' : List Repair)
    (h : split_value s value k rs = .ok (p, s', rs')) :
    rs'.length + dfgWeight k s'.dfg ≤ rs.length + dfgWeight k s.dfg ∧
    (∀ r ∈ rs', r.concat = k ∨ r ∈ rs) := by
  unfold split_value at h
  dsimp only at h
  split at h
  next inst num heq =>
    split at h
    next opcode a0 a1 heq2 =>
      split at h
      next hnum0 => simp at h
      next hnum0 =>
        split at h
        next hop =>
          simp only [Except.ok.injEq, Prod.mk.injEq] at h
          obtain ⟨hp, hs2, hrs2⟩ := h
          subst hs2 hrs2
          exact ⟨le_refl _, fun r hr => Or.inr hr⟩
        next hop =>
          obtain ⟨hW, hR⟩ := insertSplitInst_measure _ _ _ _ _ _ _ h
          subst hR
          exact ⟨by omega, fun r hr => Or.inr hr⟩
    next heq2 =>
      obtain ⟨hW, hR⟩ := insertSplitInst_measure _ _ _ _ _ _ _ h
      subst hR
      exact ⟨by omega, fun r hr => Or.inr hr⟩
  next ebb num heq =>
    split at h
    next hent =>
      obtain ⟨hW, hR⟩ := insertSplitInst_measure _ _ _ _ _ _ _ h
      subst hR
      exact ⟨by omega, fun r hr => Or.inr hr⟩
    next hent =>
      unfold DataFlowGraph.value_def at heq
      split at heq
      next heqg => simp at heq
      next ty2 num2 e2 heqg =>
        simp only [Option.some.injEq, ValueDef.Arg.injEq] at heq
        obtain ⟨he2, hnum2⟩ := heq
        subst he2 hnum2
        have hty : s.dfg.value_type (s.dfg.resolve_copies value) = ty2 := by
          simp only [List.get?_eq_getElem?] at heqg
          simp [DataFlowGraph.value_type, heqg, ValueData.ty]
        rw [hty] at h
        split at h
        next =>
          split at h
          next => simp at h
          next st hh =>
            exact splitEbbArg_measure s _ _ ty2 st _ _ rs p s' rs' _ _
              heqg (weight_half_width hh) h
        next =>
          split at h
          next => simp at h
          next st hh =>
            exact splitEbbArg_measure s _ _ ty2 st _ _ rs p s' rs' _ _
              heqg (weight_half_vector hh) h
        next => simp at h
      next => simp at heq
  next heq => simp at h

theorem put_list_values (d : DataFlowGraph) (i : Nat) (args : List Value) :
    (d.put_list i args).values = d.values := by
  unfold DataFlowGraph.put_list
  split <;> rfl

theorem repairEdge_measure (s : State) (rs : List Repair) (repair : Repair)
    (inst : Nat) (s' : State) (rs' : List Repair)
    (h : repairEdge s rs repair inst = .ok (s', rs')) :
    rs'.length + dfgWeight repair.concat s'.dfg ≤
      rs.length + dfgWeight repair.concat s.dfg ∧
    (∀ r ∈ rs', r.concat = repair.concat ∨ r ∈ rs) := by
  unfold repairEdge at h
  split at h
  next => simp at h
  next idata heq =>
    split at h
    next snd heqtake =>
      dsimp only at h
      split at h <;> simp at h
    next args idata2 heqtake =>
      dsimp only at h
      split at h
      next => simp at h
      next hbr =>
        split at h
        next => simp at h
        next old heq3 =>
          split at h
          next hty =>
            simp only [Except.ok.injEq, Prod.mk.injEq] at h
            obtain ⟨hs2, hrs2⟩ := h
            subst hs2 hrs2
            refine ⟨?_, fun r hr => Or.inr hr⟩
            have hval : (({ s with
                dfg := { s.dfg with
                  insts := s.dfg.insts.set inst idata2 } } : State).dfg.put_list
                  inst args).values = s.dfg.values := by
              rw [put_list_values]
            unfold dfgWeight
            rw [hval]
          next hty =>
            cases hsv : split_value { s with
                dfg := { s.dfg with insts := s.dfg.insts.set inst idata2 }
                pos := CursorPos.at_ inst } old repair.concat rs with
            | error e => rw [hsv, except_bind_error] at h; simp at h
            | ok out =>
              obtain ⟨p2, s2, rs2⟩ := out
              rw [hsv, except_bind_ok] at h
              simp only [Except.ok.injEq, Prod.mk.injEq] at h
              obtain ⟨hs2, hrs2⟩ := h
              subst hs2 hrs2
              obtain ⟨hW, hK⟩ := split_value_measure _ _ _ _ _ _ _ hsv
              refine ⟨?_, hK⟩
              have hv1 : (s2.dfg.put_list inst
                  (place_high (args.set
                    (idata.opcode.fixed_value_arguments + repair.num) p2.1)
                    args.length idata.opcode.fixed_value_arguments
                    repair.hi_num p2.2)).values = s2.dfg.values :=
                put_list_values _ _ _
              unfold dfgWeight at hW ⊢
              rw [hv1]
              simpa using hW

theorem processEdges_measure (repair : Repair) :
    ∀ (edges : List (Ebb × Inst)) (s : State) (rs : List Repair)
      (s' : State) (rs' : List Repair),
    processEdges repair s rs edges = .ok (s', rs') →
    rs'.length + dfgWeight repair.concat s'.dfg ≤
      rs.length + dfgWeight repair.concat s.dfg ∧
    (∀ r ∈ rs', r.concat = repair.concat ∨ r ∈ rs)
  | [], s, rs, s', rs', h => by
    unfold processEdges at h
    simp only [Except.ok.injEq, Prod.mk.injEq] at h
    obtain ⟨hs2, hrs2⟩ := h
    subst hs2 hrs2
    exact ⟨le_refl _, fun r hr => Or.inr hr⟩
  | (e0, inst) :: rest, s, rs, s', rs', h => by
    unfold processEdges at h
    cases hre : repairEdge s rs repair inst with
    | error e => rw [hre, except_bind_error] at h; simp at h
    | ok out =>
      obtain ⟨s1, rs1⟩ := out
      rw [hre, except_bind_ok] at h
      obtain ⟨hW1, hK1⟩ := repairEdge_measure _ _ _ _ _ _ hre
      obtain ⟨hW2, hK2⟩ := processEdges_measure repair rest s1 rs1 s' rs' h
      refine ⟨by omega, ?_⟩
      intro r hr
      rcases hK2 r hr with h1 | h1
      · exact Or.inl h1
      · exact hK1 r h1

theorem insertSplitInst_not_fuel (s : State) (v : Nat) (k : Opcode)
    (rs : List Repair) : insertSplitInst s v k rs ≠ .error .outOfFuel := by
  intro h
  unfold insertSplitInst State.make_inst at h
  cases k <;> simp at h <;>
    (try (split at h <;>
      first
      | simp at h
      | (split at h <;> simp [except_bind_ok, except_bind_error] at h)))

theorem splitEbbArg_not_fuel (s : State) (v : Nat) (k : Opcode) (ty st : Ty)
    (ebb num : Nat) (rs : List Repair) :
    splitEbbArg s v k ty st ebb num rs ≠ .error .outOfFuel := by
  intro h
  unfold splitEbbArg State.make_inst at h
  dsimp only at h
  split at h <;> simp [except_bind_ok, except_bind_error] at h

theorem split_value_not_fuel (s : State) (v : Nat) (k : Opcode)
    (rs : List Repair) : split_value s v k rs ≠ .error .outOfFuel := by
  intro h
  unfold split_value at h
  dsimp only at h
  split at h
  next =>
    split at h
    next =>
      split at h
      next => simp at h
      next =>
        split at h
        next => simp at h
        next => exact insertSplitInst_not_fuel _ _ _ _ h
    next => exact insertSplitInst_not_fuel _ _ _ _ h
  next =>
    split at h
    next => exact insertSplitInst_not_fuel _ _ _ _ h
    next =>
      split at h
      next =>
        split at h
        next => simp at h
        next => exact splitEbbArg_not_fuel _ _ _ _ _ _ _ _ h
      next =>
        split at h
        next => simp at h
        next => exact splitEbbArg_not_fuel _ _ _ _ _ _ _ _ h
      next => simp at h
  next => simp at h

theorem repairEdge_not_fuel (s : State) (rs : List Repair) (repair : Repair)
    (inst : Nat) : repairEdge s rs repair inst ≠ .error .outOfFuel := by
  intro h
  unfold repairEdge at h
  split at h
  next => simp at h
  next idata heq =>
    split at h
    next =>
      dsimp only at h
      split at h <;> simp at h
    next args idata2 heqtake =>
      dsimp only at h
      split at h
      next => simp at h
      next =>
        split at h
        next => simp at h
        next old heq3 =>
          split at h
          next => simp at h
          next =>
            cases hsv : split_value { s with
                dfg := { s.dfg with insts := s.dfg.insts.set inst idata2 }
                pos := CursorPos.at_ inst } old repair.concat rs with
            | error e =>
              rw [hsv, except_bind_error] at h
              simp only [Except.error.injEq] at h
              subst h
              exact split_value_not_fuel _ _ _ _ hsv
            | ok out =>
              rw [hsv, except_bind_ok] at h
              simp at h

theorem processEdges_not_fuel (repair : Repair) :
    ∀ (edges : List (Ebb × Inst)) (s : State) (rs : List Repair),
    processEdges repair s rs edges ≠ .error .outOfFuel
  | [], s, rs, h => by
    unfold processEdges at h
    simp at h
  | (e0, inst) :: rest, s, rs, h => by
    unfold processEdges at h
    cases hre : repairEdge s rs repair inst with
    | error e =>
      rw [hre, except_bind_error] at h
      simp only [Except.error.injEq] at h
      subst h
      exact repairEdge_not_fuel _ _ _ _ hre
    | ok out =>
      rw [hre, except_bind_ok] at h
      exact processEdges_not_fuel repair rest out.1 out.2 h

theorem drain_not_fuel (cfg : ControlFlowGraph) (k : Opcode) :
    ∀ (fuel : Nat) (rs : List Repair) (s : State),
    (∀ r ∈ rs, r.concat = k) →
    rs.length + dfgWeight k s.dfg ≤ fuel →
    drain cfg rs fuel s ≠ .error .outOfFuel := by
  intro fuel
  induction fuel with
  | zero =>
    intro rs s hk hm h
    cases rs with
    | nil => simp [drain] at h
    | cons r rest => simp at hm
  | succ n ih =>
    intro rs s hk hm h
    cases rs with
    | nil => simp [drain] at h
    | cons r rest =>
      unfold drain at h
      cases hpe : processEdges r s rest (cfg.get_predecessors r.ebb) with
      | error e =>
        rw [hpe, except_bind_error] at h
        simp only [Except.error.injEq] at h
        subst h
        exact processEdges_not_fuel r _ _ _ hpe
      | ok out =>
        obtain ⟨s1, rs1⟩ := out
        rw [hpe, except_bind_ok] at h
        have hkr : r.concat = k := hk r (List.mem_cons_self r rest)
        obtain ⟨hW, hK⟩ := processEdges_measure r _ _ _ _ _ hpe
        rw [hkr] at hW hK
        simp only [List.length_cons] at hm
        refine ih rs1 s1 ?_ (by omega) h
        intro r2 hr2
        rcases hK r2 hr2 with h1 | h1
        · exact h1
        · exact hk r2 (List.mem_cons_of_mem _ h1)

/-- C4: termination.  The drain of the repair work list never exhausts a
fuel of `dfgWeight k` (the total halving potential of the graph: the number
of distinct value/kind splits is bounded by the values times the times a
type can be halved), so `isplit`/`vsplit` terminates for every finite input
graph and every split value; and the concrete two-block parameter cycle
`cycState` is fully split on every edge, no edge is revisited (both jump
argument lists end at exactly the two half values), and the pass returns
normally. -/
theorem c4_termination :
    (∀ (cfg : ControlFlowGraph) (s : State) (value : Nat) (k : Opcode)
       (fuel : Nat), dfgWeight k s.dfg ≤ fuel →
       split_any cfg s value k fuel ≠ .error .outOfFuel) ∧
    isplit cycCfg cycState 0 2 = .ok ((2, 3), cycPost) := by
  constructor
  · intro cfg s value k fuel hf h
    unfold split_any at h
    cases hsv : split_value s value k [] with
    | error e =>
      rw [hsv, except_bind_error] at h
      simp only [Except.error.injEq] at h
      subst h
      exact split_value_not_fuel _ _ _ _ hsv
    | ok out =>
      obtain ⟨p, s1, rs1⟩ := out
      rw [hsv, except_bind_ok] at h
      dsimp only at h
      cases hd : drain cfg rs1 fuel s1 with
      | error e =>
        rw [hd, except_bind_error] at h
        simp only [Except.error.injEq] at h
        subst h
        obtain ⟨hW, hK⟩ := split_value_measure _ _ _ _ _ _ _ hsv
        refine drain_not_fuel cfg k fuel rs1 s1 ?_ ?_ hd
        · intro r hr
          rcases hK r hr with h1 | h1
          · exact h1
          · simp at h1
        · simp only [List.length_nil, Nat.zero_add] at hW
          omega
      | ok s2 =>
        rw [hd, except_bind_ok] at h
        simp at h
  · rfl

/-- Witness for C4: the cycle scenario's weight bounds the fuel, via the
theorem. -/
theorem c4_termination_witness :
    dfgWeight .Iconcat cycState.dfg ≤ 14 ∧
    split_any cycCfg cycState 0 .Iconcat 14 ≠ .error .outOfFuel :=
  ⟨by decide, c4_termination.1 cycCfg cycState 0 .Iconcat 14 (by decide)⟩

/-! ## The branch-arity preservation development -/

theorem halfOp_shrinks {k : Opcode} {t u : Ty} (h : halfOp k t = some u) :
    (u.bits < t.bits ∧ u.lanes = t.lanes ∧ 8 ≤ u.bits) ∨
    (u.bits = t.bits ∧ u.lanes < t.lanes ∧ 1 ≤ u.lanes) := by
  cases k <;> simp [halfOp] at h
  · unfold Ty.half_width at h
    by_cases h16 : 16 ≤ t.bits
    · rw [if_pos h16] at h
      simp only [Option.some.injEq] at h
      subst h
      left
      refine ⟨by simp; omega, by simp, by simp; omega⟩
    · rw [if_neg h16] at h
      cases h
  · unfold Ty.half_vector at h
    by_cases h2 : 2 ≤ t.lanes
    · rw [if_pos h2] at h
      simp only [Option.some.injEq] at h
      subst h
      right
      refine ⟨by simp, by simp; omega, by simp; omega⟩
    · rw [if_neg h2] at h
      cases h

theorem halfOp_strict {k : Opcode} {t u : Ty} (h : halfOp k t = some u) :
    u ≠ t := by
  intro he
  rcases halfOp_shrinks h with ⟨h1, _, _⟩ | ⟨_, h2, _⟩
  · rw [he] at h1
    omega
  · rw [he] at h2
    omega

theorem halfOp_ne_zero {k : Opcode} {t u : Ty} (h : halfOp k t = some u) :
    u ≠ ⟨0, 0⟩ := by
  intro he
  rcases halfOp_shrinks h with ⟨_, _, h3⟩ | ⟨_, _, h3⟩ <;>
    (rw [he] at h3; simp at h3)

theorem halfOp_zero {k : Opcode} : halfOp k ⟨0, 0⟩ = none := by
  cases k <;> simp [halfOp, Ty.half_width, Ty.half_vector]

/-- A value with a nonzero type is an allocated id. -/
theorem lt_of_value_type_ne (d : DataFlowGraph) (x : Nat)
    (h : d.value_type x ≠ ⟨0, 0⟩) : x < d.values.length := by
  by_contra hge
  apply h
  unfold DataFlowGraph.value_type
  rw [List.get?_eq_none.2 (by omega)]

theorem resolveAux_nonalias (d : DataFlowGraph) (v : Nat)
    (h : ∀ ty orig, d.values.get? v ≠ some (.Alias ty orig)) :
    ∀ n, d.resolveAux n v = v := by
  intro n
  cases n with
  | zero => rfl
  | succ m =>
    unfold DataFlowGraph.resolveAux
    cases hv : d.values.get? v with
    | none => simp
    | some vd =>
      cases vd with
      | Inst ty num i => simp
      | Arg ty num e => simp
      | Alias ty orig => exact absurd hv (h ty orig)

/-- Under `AliasOk`, resolution of an alias is its one-step target. -/
theorem resolve_alias_step (d : DataFlowGraph) (hA : AliasOk d) (v : Nat)
    {ty : Ty} {orig : Nat} (hv : d.values.get? v = some (.Alias ty orig)) :
    d.resolve_copies v = orig := by
  have hlen : v < d.values.length := by
    by_contra hge
    rw [List.get?_eq_none.2 (by omega)] at hv
    cases hv
  obtain ⟨_, ty2, n, i, horig⟩ := hA v ty orig hv
  unfold DataFlowGraph.resolve_copies
  cases hl : d.values.length with
  | zero => omega
  | succ m =>
    unfold DataFlowGraph.resolveAux
    rw [hv]
    exact resolveAux_nonalias d orig (by intro ty' orig' hc; rw [horig] at hc; cases hc) m

/-- Under `AliasOk`, resolution never changes a value's type. -/
theorem resolve_vt (d : DataFlowGraph) (hA : AliasOk d) (v : Nat) :
    d.value_type (d.resolve_copies v) = d.value_type v := by
  cases hv : d.values.get? v with
  | none =>
    rw [resolve_of_nonalias d v (by intro ty orig hc; rw [hv] at hc; cases hc)]
  | some vd =>
    cases vd with
    | Inst ty num i =>
      rw [resolve_of_nonalias d v (by intro ty' orig hc; rw [hv] at hc; cases hc)]
    | Arg ty num e =>
      rw [resolve_of_nonalias d v (by intro ty' orig hc; rw [hv] at hc; cases hc)]
    | Alias ty orig =>
      rw [resolve_alias_step d hA v hv]
      obtain ⟨hty, _⟩ := hA v ty orig hv
      rw [hty]
      unfold DataFlowGraph.value_type
      rw [hv]
      rfl

/-- Under `AliasOk`, the resolved value is never an alias entry. -/
theorem resolve_nonalias (d : DataFlowGraph) (hA : AliasOk d) (v : Nat) :
    ∀ ty orig, d.values.get? (d.resolve_copies v) ≠ some (.Alias ty orig) := by
  cases hv : d.values.get? v with
  | none =>
    rw [resolve_of_nonalias d v (by intro ty orig hc; rw [hv] at hc; cases hc)]
    intro ty orig hc
    rw [hv] at hc
    cases hc
  | some vd =>
    cases vd with
    | Inst ty num i =>
      rw [resolve_of_nonalias d v (by intro ty' orig hc; rw [hv] at hc; cases hc)]
      intro ty' orig hc
      rw [hv] at hc
      cases hc
    | Arg ty num e =>
      rw [resolve_of_nonalias d v (by intro ty' orig hc; rw [hv] at hc; cases hc)]
      intro ty' orig hc
      rw [hv] at hc
      cases hc
    | Alias ty orig =>
      rw [resolve_alias_step d hA v hv]
      obtain ⟨_, ty2, n, i, horig⟩ := hA v ty orig hv
      intro ty' orig' hc
      rw [horig] at hc
      cases hc

theorem insertSplitInst_effect (s : State) (w : Nat) (k : Opcode)
    (rs : List Repair) (lo hi : Nat) (s' : State) (rs' : List Repair)
    (h : insertSplitInst s w k rs = .ok ((lo, hi), s', rs')) :
    ∃ sop hh,
      halfOp k (s.dfg.value_type w) = some hh ∧
      s'.dfg = insertDfg s.dfg sop w hh ∧
      lo = s.dfg.values.length ∧ hi = s.dfg.values.length + 1 ∧ rs' = rs := by
  unfold insertSplitInst State.make_inst at h
  cases k with
  | Iconcat =>
    cases hh : (s.dfg.value_type w).half_width with
    | none => simp [hh] at h
    | some ht =>
      simp only [hh] at h
      cases hins : s.layout.insert_at s.pos s.dfg.insts.length with
      | none => simp [hins, except_bind_error] at h
      | some l' =>
        simp only [hins, except_bind_ok, Except.ok.injEq, Prod.mk.injEq] at h
        obtain ⟨⟨hlo, hhi⟩, hs2, hrs2⟩ := h
        subst hs2
        refine ⟨.Isplit, ht, by simp [halfOp, hh], ?_, ?_, ?_, hrs2.symm⟩
        · simp [insertDfg, List.enum, List.enumFrom, List.range_succ]
        · rw [← hlo]
          simp [List.range_succ]
        · rw [← hhi]
          simp [List.range_succ]
  | Vconcat =>
    cases hh : (s.dfg.value_type w).half_vector with
    | none => simp [hh] at h
    | some ht =>
      simp only [hh] at h
      cases hins : s.layout.insert_at s.pos s.dfg.insts.length with
      | none => simp [hins, except_bind_error] at h
      | some l' =>
        simp only [hins, except_bind_ok, Except.ok.injEq, Prod.mk.injEq] at h
        obtain ⟨⟨hlo, hhi⟩, hs2, hrs2⟩ := h
        subst hs2
        refine ⟨.Vsplit, ht, by simp [halfOp, hh], ?_, ?_, ?_, hrs2.symm⟩
        · simp [insertDfg, List.enum, List.enumFrom, List.range_succ]
        · rw [← hlo]
          simp [List.range_succ]
        · rw [← hhi]
          simp [List.range_succ]
  | Isplit => simp at h
  | Vsplit => simp at h
  | Jump => simp at h
  | Brz => simp at h
  | Iadd => simp at h

theorem splitEbbArg_effect (s : State) (v : Nat) (k : Opcode) (t st : Ty)
    (ebb num : Nat) (rs : List Repair) (lo hi : Nat) (s' : State)
    (rs' : List Repair)
    (hv : s.dfg.values.get? v = some (.Arg t num ebb))
    (hC : ebb < s.dfg.ebbArgs.length)
    (hRL : s.dfg.results.length = s.dfg.insts.length)
    (h : splitEbbArg s v k t st ebb num rs = .ok ((lo, hi), s', rs')) :
    s'.dfg = surgeryDfg s.dfg k st t v num ebb ∧
    lo = s.dfg.values.length ∧ hi = s.dfg.values.length + 1 ∧
    rs' = ⟨k, st, ebb, num, ((s.dfg.ebbArgs.get? ebb).getD []).length⟩ :: rs := by
  have hvlt : v < s.dfg.values.length := by
    rcases List.get?_eq_some.mp hv with ⟨hl, _⟩
    exact hl
  have hd1 : (s.dfg.ebbArgs.set ebb
      ((((s.dfg.ebbArgs.get? ebb).getD []).set num
        s.dfg.values.length))).get? ebb =
      some (((s.dfg.ebbArgs.get? ebb).getD []).set num s.dfg.values.length) :=
    List.get?_set_eq_of_lt _ hC
  have hbigv : (s.dfg.values ++
      [ValueData.Arg st num ebb,
       ValueData.Arg st ((s.dfg.ebbArgs.get? ebb).getD []).length ebb,
       ValueData.Inst t 0 s.dfg.insts.length]).get? v =
      some (ValueData.Arg t num ebb) := by
    rw [List.get?_append hvlt]
    exact hv
  have hfirst : (s.dfg.results ++ [[s.dfg.values.length + 2]]).get?
      s.dfg.insts.length = some [s.dfg.values.length + 2] := by
    rw [← hRL, List.get?_append_right (le_refl _)]
    simp
  unfold splitEbbArg State.make_inst at h
  simp only [DataFlowGraph.replace_ebb_arg, DataFlowGraph.append_ebb_arg,
    DataFlowGraph.num_ebb_args, hv, hd1, Option.getD_some, List.length_set,
    List.set_set] at h
  simp only [List.enum, List.enumFrom, List.map_cons, List.map_nil,
    List.range_succ, List.range_zero, List.length_cons, List.length_nil,
    List.length_singleton, List.nil_append, List.append_nil, List.map_append,
    Nat.add_zero, Nat.zero_add, List.append_assoc, List.cons_append,
    List.length_append, List.singleton_append] at h
  split at h
  · simp [except_bind_error] at h
  · simp only [except_bind_ok, DataFlowGraph.change_to_alias,
      DataFlowGraph.first_result, add_repair, Except.ok.injEq,
      Prod.mk.injEq] at h
    rw [hbigv] at h
    simp only [ValueData.ty, hfirst, Option.getD_some, List.getD_cons_zero] at h
    obtain ⟨⟨hlo, hhi⟩, hs2, hrs2⟩ := h
    subst hs2
    exact ⟨rfl, hlo.symm, hhi.symm, hrs2.symm⟩

/-- A successful `split_value` is one of the three structural outcomes. -/
theorem split_value_effect (s : State) (v : Nat) (k : Opcode)
    (rs : List Repair) (lo hi : Nat) (s' : State) (rs' : List Repair)
    (hAC : ArgConsistent s.dfg)
    (hRL : s.dfg.results.length = s.dfg.insts.length)
    (h : split_value s v k rs = .ok ((lo, hi), s', rs')) :
    SVEffect k s rs v lo hi s' rs' := by
  unfold split_value at h
  dsimp only at h
  split at h
  next inst num heq =>
    split at h
    next opcode a0 a1 heq2 =>
      split at h
      next hnum0 => simp at h
      next hnum0 =>
        split at h
        next hop =>
          simp only [Except.ok.injEq, Prod.mk.injEq] at h
          obtain ⟨⟨hlo, hhi⟩, hs2, hrs2⟩ := h
          subst hlo hhi hs2 hrs2
          left
          refine ⟨rfl, rfl, inst, ?_⟩
          unfold DataFlowGraph.value_def at heq
          split at heq
          next ty2 num2 i2 heqg =>
            simp only [Option.some.injEq, ValueDef.Res.injEq] at heq
            obtain ⟨h1, h2⟩ := heq
            subst h1 h2
            simp at hnum0
            subst hnum0
            subst hop
            exact ⟨ty2, heqg, heq2⟩
          next ty2 num2 e2 heqg => simp at heq
          next => simp at heq
        next hop =>
          obtain ⟨sop, hh, hhalf, h1, h2, h3, h4⟩ :=
            insertSplitInst_effect _ _ _ _ _ _ _ _ h
          right
          left
          exact ⟨sop, hh, hhalf, h1, h2, h3, h4⟩
    next heq2 =>
      obtain ⟨sop, hh, hhalf, h1, h2, h3, h4⟩ :=
        insertSplitInst_effect _ _ _ _ _ _ _ _ h
      right
      left
      exact ⟨sop, hh, hhalf, h1, h2, h3, h4⟩
  next ebb num heq =>
    split at h
    next hent =>
      obtain ⟨sop, hh, hhalf, h1, h2, h3, h4⟩ :=
        insertSplitInst_effect _ _ _ _ _ _ _ _ h
      right
      left
      exact ⟨sop, hh, hhalf, h1, h2, h3, h4⟩
    next hent =>
      unfold DataFlowGraph.value_def at heq
      split at heq
      next heqg => simp at heq
      next ty2 num2 e2 heqg =>
        simp only [Option.some.injEq, ValueDef.Arg.injEq] at heq
        obtain ⟨he2, hnum2⟩ := heq
        subst he2 hnum2
        have heqg' : s.dfg.values.get? (s.dfg.resolve_copies v) =
            some (.Arg ty2 num2 e2) := by
          simpa [List.get?_eq_getElem?] using heqg
        have hty : s.dfg.value_type (s.dfg.resolve_copies v) = ty2 := by
          simp only [List.get?_eq_getElem?] at heqg'
          simp [DataFlowGraph.value_type, heqg', ValueData.ty]
        obtain ⟨hClt, hjget⟩ := hAC _ _ _ _ heqg'
        have hjlt : num2 < ((s.dfg.ebbArgs.get? e2).getD []).length := by
          rcases List.get?_eq_some.mp hjget with ⟨hl, _⟩
          exact hl
        rw [hty] at h
        split at h
        next =>
          split at h
          next => simp at h
          next st hh =>
            obtain ⟨h1, h2, h3, h4⟩ :=
              splitEbbArg_effect s _ _ ty2 st _ _ rs lo hi s' rs'
                heqg' hClt hRL h
            right
            right
            exact ⟨ty2, st, num2, e2, heqg', by simp [halfOp, hh],
              hClt, hjlt, hjget, h1, h2, h3, h4⟩
        next =>
          split at h
          next => simp at h
          next st hh =>
            obtain ⟨h1, h2, h3, h4⟩ :=
              splitEbbArg_effect s _ _ ty2 st _ _ rs lo hi s' rs'
                heqg' hClt hRL h
            right
            right
            exact ⟨ty2, st, num2, e2, heqg', by simp [halfOp, hh],
              hClt, hjlt, hjget, h1, h2, h3, h4⟩
        next => simp at h
      next => simp at heq
  next heq => simp at h

theorem sg_values_len (d : DataFlowGraph) (k : Opcode) (st t : Ty)
    (r j C : Nat) :
    (surgeryDfg d k st t r j C).values.length = d.values.length + 3 := by
  simp [surgeryDfg]

theorem sg_val_old (d : DataFlowGraph) (k : Opcode) (st t : Ty)
    (r j C x : Nat) (hx : x < d.values.length) (hne : x ≠ r) :
    (surgeryDfg d k st t r j C).values.get? x = d.values.get? x := by
  unfold surgeryDfg
  rw [List.get?_set_ne _ _ (fun he => hne he.symm), List.get?_append hx]

theorem sg_val_r (d : DataFlowGraph) (k : Opcode) (st t : Ty)
    (r j C : Nat) (hr : r < d.values.length) :
    (surgeryDfg d k st t r j C).values.get? r =
      some (.Alias t (d.values.length + 2)) := by
  unfold surgeryDfg
  exact List.get?_set_eq_of_lt _ (by simp; omega)

theorem sg_val_lo (d : DataFlowGraph) (k : Opcode) (st t : Ty)
    (r j C : Nat) (hr : r < d.values.length) :
    (surgeryDfg d k st t r j C).values.get? d.values.length =
      some (.Arg st j C) := by
  unfold surgeryDfg
  rw [List.get?_set_ne _ _ (by omega), List.get?_append_right (le_refl _)]
  simp

theorem sg_val_hi (d : DataFlowGraph) (k : Opcode) (st t : Ty)
    (r j C : Nat) (hr : r < d.values.length) :
    (surgeryDfg d k st t r j C).values.get? (d.values.length + 1) =
      some (.Arg st ((d.ebbArgs.get? C).getD []).length C) := by
  unfold surgeryDfg
  rw [List.get?_set_ne _ _ (by omega),
    List.get?_append_right (Nat.le_add_right _ 1)]
  simp

theorem sg_val_cv (d : DataFlowGraph) (k : Opcode) (st t : Ty)
    (r j C : Nat) (hr : r < d.values.length) :
    (surgeryDfg d k st t r j C).values.get? (d.values.length + 2) =
      some (.Inst t 0 d.insts.length) := by
  unfold surgeryDfg
  rw [List.get?_set_ne _ _ (by omega),
    List.get?_append_right (Nat.le_add_right _ 2)]
  simp

theorem sg_vt_old (d : DataFlowGraph) (k : Opcode) (st t : Ty)
    (r j C x : Nat) (hx : x < d.values.length)
    (hr : d.values.get? r = some (.Arg t j C)) :
    (surgeryDfg d k st t r j C).value_type x = d.value_type x := by
  by_cases hxr : x = r
  · subst hxr
    unfold DataFlowGraph.value_type
    rw [sg_val_r d k st t x j C hx, hr]
    rfl
  · unfold DataFlowGraph.value_type
    rw [sg_val_old d k st t r j C x hx hxr]

theorem sg_vt_lo (d : DataFlowGraph) (k : Opcode) (st t : Ty)
    (r j C : Nat) (hr : r < d.values.length) :
    (surgeryDfg d k st t r j C).value_type d.values.length = st := by
  unfold DataFlowGraph.value_type
  rw [sg_val_lo d k st t r j C hr]
  rfl

theorem sg_vt_hi (d : DataFlowGraph) (k : Opcode) (st t : Ty)
    (r j C : Nat) (hr : r < d.values.length) :
    (surgeryDfg d k st t r j C).value_type (d.values.length + 1) = st := by
  unfold DataFlowGraph.value_type
  rw [sg_val_hi d k st t r j C hr]
  rfl

theorem sg_vt_cv (d : DataFlowGraph) (k : Opcode) (st t : Ty)
    (r j C : Nat) (hr : r < d.values.length) :
    (surgeryDfg d k st t r j C).value_type (d.values.length + 2) = t := by
  unfold DataFlowGraph.value_type
  rw [sg_val_cv d k st t r j C hr]
  rfl

theorem sg_insts_old (d : DataFlowGraph) (k : Opcode) (st t : Ty)
    (r j C i : Nat) (hi : i < d.insts.length) :
    (surgeryDfg d k st t r j C).insts.get? i = d.insts.get? i := by
  unfold surgeryDfg
  exact List.get?_append hi

theorem sg_insts_new (d : DataFlowGraph) (k : Opcode) (st t : Ty)
    (r j C : Nat) :
    (surgeryDfg d k st t r j C).insts.get? d.insts.length =
      some (.Binary k d.values.length (d.values.length + 1)) := by
  unfold surgeryDfg
  rw [List.get?_append_right (le_refl _)]
  simp

theorem sg_insts_cases (d : DataFlowGraph) (k : Opcode) (st t : Ty)
    (r j C i : Nat) (X : InstructionData)
    (h : (surgeryDfg d k st t r j C).insts.get? i = some X) :
    (i < d.insts.length ∧ d.insts.get? i = some X) ∨
    (i = d.insts.length ∧
      X = .Binary k d.values.length (d.values.length + 1)) := by
  by_cases hi : i < d.insts.length
  · left
    rw [sg_insts_old d k st t r j C i hi] at h
    exact ⟨hi, h⟩
  · right
    unfold surgeryDfg at h
    rw [List.get?_append_right (by omega)] at h
    have hlen : i - d.insts.length = 0 := by
      rcases List.get?_eq_some.mp h with ⟨hl, _⟩
      simp at hl
      omega
    rw [hlen] at h
    simp at h
    exact ⟨by omega, h.symm⟩

theorem sg_ebb_other (d : DataFlowGraph) (k : Opcode) (st t : Ty)
    (r j C e : Nat) (hne : C ≠ e) :
    (surgeryDfg d k st t r j C).ebbArgs.get? e = d.ebbArgs.get? e := by
  unfold surgeryDfg
  exact List.get?_set_ne _ _ hne

theorem sg_ebb_C (d : DataFlowGraph) (k : Opcode) (st t : Ty)
    (r j C : Nat) (hC : C < d.ebbArgs.length) :
    (surgeryDfg d k st t r j C).ebbArgs.get? C =
      some ((((d.ebbArgs.get? C).getD []).set j d.values.length) ++
        [d.values.length + 1]) := by
  unfold surgeryDfg
  exact List.get?_set_eq_of_lt _ hC

theorem sg_m_C (d : DataFlowGraph) (k : Opcode) (st t : Ty)
    (r j C : Nat) (hC : C < d.ebbArgs.length) :
    (surgeryDfg d k st t r j C).num_ebb_args C =
      ((d.ebbArgs.get? C).getD []).length + 1 := by
  unfold DataFlowGraph.num_ebb_args
  rw [sg_ebb_C d k st t r j C hC]
  simp

theorem sg_m_other (d : DataFlowGraph) (k : Opcode) (st t : Ty)
    (r j C e : Nat) (hne : C ≠ e) :
    (surgeryDfg d k st t r j C).num_ebb_args e = d.num_ebb_args e := by
  unfold DataFlowGraph.num_ebb_args
  rw [sg_ebb_other d k st t r j C e hne]

theorem sg_m_mono (d : DataFlowGraph) (k : Opcode) (st t : Ty)
    (r j C : Nat) (hC : C < d.ebbArgs.length) (e : Nat) :
    d.num_ebb_args e ≤ (surgeryDfg d k st t r j C).num_ebb_args e := by
  by_cases he : C = e
  · subst he
    rw [sg_m_C d k st t r j C hC]
    unfold DataFlowGraph.num_ebb_args
    omega
  · rw [sg_m_other d k st t r j C e he]

theorem sg_param_j (d : DataFlowGraph) (k : Opcode) (st t : Ty)
    (r j C : Nat) (hC : C < d.ebbArgs.length)
    (hj : j < ((d.ebbArgs.get? C).getD []).length) :
    (((surgeryDfg d k st t r j C).ebbArgs.get? C).getD []).get? j =
      some d.values.length := by
  rw [sg_ebb_C d k st t r j C hC]
  simp only [Option.getD_some]
  rw [List.get?_append (by rw [List.length_set]; exact hj)]
  exact List.get?_set_eq_of_lt _ hj

theorem sg_param_top (d : DataFlowGraph) (k : Opcode) (st t : Ty)
    (r j C : Nat) (hC : C < d.ebbArgs.length) :
    (((surgeryDfg d k st t r j C).ebbArgs.get? C).getD []).get?
      ((d.ebbArgs.get? C).getD []).length = some (d.values.length + 1) := by
  rw [sg_ebb_C d k st t r j C hC]
  simp only [Option.getD_some]
  rw [List.get?_append_right (by rw [List.length_set])]
  simp

theorem sg_param_old (d : DataFlowGraph) (k : Opcode) (st t : Ty)
    (r j C j' : Nat) (hC : C < d.ebbArgs.length) (hne : j' ≠ j)
    (hlt : j' < ((d.ebbArgs.get? C).getD []).length) :
    (((surgeryDfg d k st t r j C).ebbArgs.get? C).getD []).get? j' =
      ((d.ebbArgs.get? C).getD []).get? j' := by
  rw [sg_ebb_C d k st t r j C hC]
  simp only [Option.getD_some]
  rw [List.get?_append (by rw [List.length_set]; exact hlt)]
  exact List.get?_set_ne _ _ (fun he => hne he.symm)

theorem in_values_len (d : DataFlowGraph) (sop : Opcode) (w : Nat) (h : Ty) :
    (insertDfg d sop w h).values.length = d.values.length + 2 := by
  simp [insertDfg]

theorem in_val_old (d : DataFlowGraph) (sop : Opcode) (w : Nat) (h : Ty)
    (x : Nat) (hx : x < d.values.length) :
    (insertDfg d sop w h).values.get? x = d.values.get? x := by
  unfold insertDfg
  exact List.get?_append hx

theorem in_val_lo (d : DataFlowGraph) (sop : Opcode) (w : Nat) (h : Ty) :
    (insertDfg d sop w h).values.get? d.values.length =
      some (.Inst h 0 d.insts.length) := by
  unfold insertDfg
  rw [List.get?_append_right (le_refl _)]
  simp

theorem in_val_hi (d : DataFlowGraph) (sop : Opcode) (w : Nat) (h : Ty) :
    (insertDfg d sop w h).values.get? (d.values.length + 1) =
      some (.Inst h 1 d.insts.length) := by
  unfold insertDfg
  rw [List.get?_append_right (Nat.le_add_right _ 1)]
  simp

theorem in_vt_old (d : DataFlowGraph) (sop : Opcode) (w : Nat) (h : Ty)
    (x : Nat) (hx : x < d.values.length) :
    (insertDfg d sop w h).value_type x = d.value_type x := by
  unfold DataFlowGraph.value_type
  rw [in_val_old d sop w h x hx]

theorem in_vt_lo (d : DataFlowGraph) (sop : Opcode) (w : Nat) (h : Ty) :
    (insertDfg d sop w h).value_type d.values.length = h := by
  unfold DataFlowGraph.value_type
  rw [in_val_lo]
  rfl

theorem in_vt_hi (d : DataFlowGraph) (sop : Opcode) (w : Nat) (h : Ty) :
    (insertDfg d sop w h).value_type (d.values.length + 1) = h := by
  unfold DataFlowGraph.value_type
  rw [in_val_hi]
  rfl

theorem in_insts_old (d : DataFlowGraph) (sop : Opcode) (w : Nat) (h : Ty)
    (i : Nat) (hi : i < d.insts.length) :
    (insertDfg d sop w h).insts.get? i = d.insts.get? i := by
  unfold insertDfg
  exact List.get?_append hi

theorem in_insts_cases (d : DataFlowGraph) (sop : Opcode) (w : Nat) (h : Ty)
    (i : Nat) (X : InstructionData)
    (hX : (insertDfg d sop w h).insts.get? i = some X) :
    (i < d.insts.length ∧ d.insts.get? i = some X) ∨
    (i = d.insts.length ∧ X = .Unary sop w) := by
  by_cases hi : i < d.insts.length
  · left
    rw [in_insts_old d sop w h i hi] at hX
    exact ⟨hi, hX⟩
  · right
    unfold insertDfg at hX
    rw [List.get?_append_right (by omega)] at hX
    have hlen : i - d.insts.length = 0 := by
      rcases List.get?_eq_some.mp hX with ⟨hl, _⟩
      simp at hl
      omega
    rw [hlen] at hX
    simp at hX
    exact ⟨by omega, hX.symm⟩

theorem in_ebb (d : DataFlowGraph) (sop : Opcode) (w : Nat) (h : Ty) :
    (insertDfg d sop w h).ebbArgs = d.ebbArgs := rfl

theorem in_m (d : DataFlowGraph) (sop : Opcode) (w : Nat) (h : Ty) (e : Nat) :
    (insertDfg d sop w h).num_ebb_args e = d.num_ebb_args e := rfl

theorem in_val_cases (d : DataFlowGraph) (sop : Opcode) (w : Nat) (h : Ty)
    (x : Nat) (E : ValueData)
    (hE : (insertDfg d sop w h).values.get? x = some E) :
    (x < d.values.length ∧ d.values.get? x = some E) ∨
    (x = d.values.length ∧ E = .Inst h 0 d.insts.length) ∨
    (x = d.values.length + 1 ∧ E = .Inst h 1 d.insts.length) := by
  by_cases hx : x < d.values.length
  · left
    rw [in_val_old d sop w h x hx] at hE
    exact ⟨hx, hE⟩
  · right
    have hxlt : x < d.values.length + 2 := by
      rcases List.get?_eq_some.mp hE with ⟨hl, _⟩
      rw [in_values_len] at hl
      exact hl
    by_cases hx0 : x = d.values.length
    · left
      subst hx0
      rw [in_val_lo] at hE
      simp only [Option.some.injEq] at hE
      exact ⟨rfl, hE.symm⟩
    · right
      have hx1 : x = d.values.length + 1 := by omega
      subst hx1
      rw [in_val_hi] at hE
      simp only [Option.some.injEq] at hE
      exact ⟨rfl, hE.symm⟩

theorem sg_val_cases (d : DataFlowGraph) (k : Opcode) (st t : Ty)
    (r j C x : Nat) (E : ValueData) (hr : r < d.values.length)
    (hE : (surgeryDfg d k st t r j C).values.get? x = some E) :
    (x < d.values.length ∧ x ≠ r ∧ d.values.get? x = some E) ∨
    (x = r ∧ E = .Alias t (d.values.length + 2)) ∨
    (x = d.values.length ∧ E = .Arg st j C) ∨
    (x = d.values.length + 1 ∧
      E = .Arg st ((d.ebbArgs.get? C).getD []).length C) ∨
    (x = d.values.length + 2 ∧ E = .Inst t 0 d.insts.length) := by
  by_cases hxr : x = r
  · subst hxr
    rw [sg_val_r d k st t x j C hr] at hE
    simp only [Option.some.injEq] at hE
    exact Or.inr (Or.inl ⟨rfl, hE.symm⟩)
  by_cases hx : x < d.values.length
  · left
    rw [sg_val_old d k st t r j C x hx hxr] at hE
    exact ⟨hx, hxr, hE⟩
  · have hxlt : x < d.values.length + 3 := by
      rcases List.get?_eq_some.mp hE with ⟨hl, _⟩
      rw [sg_values_len] at hl
      exact hl
    by_cases hx0 : x = d.values.length
    · subst hx0
      rw [sg_val_lo d k st t r j C hr] at hE
      simp only [Option.some.injEq] at hE
      exact Or.inr (Or.inr (Or.inl ⟨rfl, hE.symm⟩))
    by_cases hx1 : x = d.values.length + 1
    · subst hx1
      rw [sg_val_hi d k st t r j C hr] at hE
      simp only [Option.some.injEq] at hE
      exact Or.inr (Or.inr (Or.inr (Or.inl ⟨rfl, hE.symm⟩)))
    · have hx2 : x = d.values.length + 2 := by omega
      subst hx2
      rw [sg_val_cv d k st t r j C hr] at hE
      simp only [Option.some.injEq] at hE
      exact Or.inr (Or.inr (Or.inr (Or.inr ⟨rfl, hE.symm⟩)))

theorem insert_pty (st0 : Ty) (d : DataFlowGraph) (sop : Opcode) (w : Nat)
    (h : Ty) (rsV : List Repair) (hst0 : st0 ≠ ⟨0, 0⟩)
    (hP : PendParamTy st0 d rsV) :
    PendParamTy st0 (insertDfg d sop w h) rsV := by
  intro r hr
  obtain ⟨h1, h2⟩ := hP r hr
  rw [in_ebb]
  constructor
  · intro x hx
    have hv := h1 x hx
    rw [in_vt_old d sop w h x (lt_of_value_type_ne d x (by rw [hv]; exact hst0))]
    exact hv
  · intro x hx
    have hv := h2 x hx
    rw [in_vt_old d sop w h x (lt_of_value_type_ne d x (by rw [hv]; exact hst0))]
    exact hv

theorem insert_pshape (k : Opcode) (st0 : Ty) (d : DataFlowGraph)
    (sop : Opcode) (w : Nat) (h : Ty) (rsV : List Repair)
    (hS : PendShape k st0 d rsV) :
    PendShape k st0 (insertDfg d sop w h) rsV := by
  intro r hr
  obtain ⟨h1, h2, h3, h4⟩ := hS r hr
  exact ⟨h1, h2, h3, by rw [in_m]; exact h4⟩

theorem insert_branch (k : Opcode) (st0 : Ty) (d : DataFlowGraph)
    (sop : Opcode) (w : Nat) (h : Ty) (rsV : List Repair)
    (op : Opcode) (dest : Ebb) (args : List Value)
    (hPV : ParamsValid d)
    (hB : BranchOK k st0 d rsV op dest args) :
    BranchOK k st0 (insertDfg d sop w h) rsV op dest args := by
  obtain ⟨ha, hb, hc, hd, he, hf⟩ := hB
  refine ⟨?_, ?_, ?_, ?_, ?_, ?_⟩
  · rw [in_m]
    exact ha
  · intro r hr hre
    obtain ⟨h1, h2⟩ := hb r hr hre
    refine ⟨h1, ?_⟩
    intro a hga
    have h3 := h2 a hga
    have halt : a < d.values.length := by
      apply lt_of_value_type_ne
      intro hz
      rw [hz, halfOp_zero] at h3
      cases h3
    rw [in_vt_old d sop w h a halt]
    exact h3
  · intro j x a hx hga hnp
    rw [in_ebb] at hx
    have h3 := hc j x a hx hga hnp
    have hxlt : x < d.values.length := by
      obtain ⟨ty, hty⟩ := hPV dest j x hx
      rcases List.get?_eq_some.mp hty with ⟨hl, _⟩
      exact hl
    have halt : a < d.values.length := hf a (List.get?_mem hga)
    rw [in_vt_old d sop w h a halt, in_vt_old d sop w h x hxlt]
    exact h3
  · rw [in_m]
    exact hd
  · intro j x hx hne
    rw [in_ebb] at hx
    have hxlt : x < d.values.length := by
      obtain ⟨ty, hty⟩ := hPV dest j x hx
      rcases List.get?_eq_some.mp hty with ⟨hl, _⟩
      exact hl
    rw [in_vt_old d sop w h x hxlt] at hne
    exact he j x hx hne
  · intro a hga
    have := hf a hga
    rw [in_values_len]
    exact Nat.lt_of_lt_of_le this (Nat.le_add_right _ 2)

theorem insert_core (k : Opcode) (st0 : Ty) (d : DataFlowGraph)
    (sop : Opcode) (w : Nat) (h : Ty) (rs : List Repair)
    (hst0 : st0 ≠ ⟨0, 0⟩)
    (hcore : InvCore k st0 d rs) :
    InvCore k st0 (insertDfg d sop w h) rs := by
  refine ⟨?_, ?_, ?_, ?_, ?_, ?_, ?_, ?_, hcore.stackOrder, hcore.pendDistinct⟩
  · show (d.results ++ _).length = (d.insts ++ _).length
    simp [hcore.resLen]
  · intro x ty orig hx
    rcases in_val_cases d sop w h x _ hx with ⟨hxl, hxe⟩ | ⟨_, hxe⟩ | ⟨_, hxe⟩
    · obtain ⟨hty, ty2, n, i, horig⟩ := hcore.aliasOk x ty orig hxe
      have horiglt : orig < d.values.length := by
        rcases List.get?_eq_some.mp horig with ⟨hl, _⟩
        exact hl
      rw [in_vt_old d sop w h orig horiglt, in_val_old d sop w h orig horiglt]
      exact ⟨hty, ty2, n, i, horig⟩
    · cases hxe
    · cases hxe
  · intro i a b x ty n st hi hx hhalf
    rcases in_insts_cases d sop w h i _ hi with ⟨hil, hie⟩ | ⟨hieq, hie⟩
    · rcases in_val_cases d sop w h x _ hx with ⟨hxl, hxe⟩ | ⟨_, hxe⟩ | ⟨_, hxe⟩
      · obtain ⟨hta, htb⟩ := hcore.concatTyped i a b x ty n st hie hxe hhalf
        have hsne : st ≠ ⟨0, 0⟩ := halfOp_ne_zero hhalf
        have halt : a < d.values.length :=
          lt_of_value_type_ne d a (by rw [hta]; exact hsne)
        have hblt : b < d.values.length :=
          lt_of_value_type_ne d b (by rw [htb]; exact hsne)
        rw [in_vt_old d sop w h a halt, in_vt_old d sop w h b hblt]
        exact ⟨hta, htb⟩
      · injection hxe with h1 h2 h3
        rw [h3] at hil
        exact absurd hil (lt_irrefl _)
      · injection hxe with h1 h2 h3
        rw [h3] at hil
        exact absurd hil (lt_irrefl _)
    · cases hie
  · intro x ty n i hx
    rcases in_val_cases d sop w h x _ hx with ⟨hxl, hxe⟩ | ⟨_, hxe⟩ | ⟨_, hxe⟩
    · have := hcore.resultBound x ty n i hxe
      show i < (d.insts ++ _).length
      rw [List.length_append]
      exact Nat.lt_of_lt_of_le this (Nat.le_add_right _ _)
    · injection hxe with h1 h2 h3
      show i < (d.insts ++ _).length
      rw [h3]
      simp
    · injection hxe with h1 h2 h3
      show i < (d.insts ++ _).length
      rw [h3]
      simp
  · intro x ty jx Cx hx
    rcases in_val_cases d sop w h x _ hx with ⟨hxl, hxe⟩ | ⟨_, hxe⟩ | ⟨_, hxe⟩
    · obtain ⟨h1, h2⟩ := hcore.argConsistent x ty jx Cx hxe
      rw [in_ebb]
      exact ⟨h1, h2⟩
    · cases hxe
    · cases hxe
  · intro Cx jx x hx
    rw [in_ebb] at hx
    obtain ⟨ty, hty⟩ := hcore.paramsValid Cx jx x hx
    have hxlt : x < d.values.length := by
      rcases List.get?_eq_some.mp hty with ⟨hl, _⟩
      exact hl
    rw [in_val_old d sop w h x hxlt]
    exact ⟨ty, hty⟩
  · exact insert_pshape k st0 d sop w h rs hcore.pendShape
  · exact insert_pty st0 d sop w h rs hst0 hcore.pendParamTy

theorem sg_ebb_len (d : DataFlowGraph) (k : Opcode) (st t : Ty)
    (r j C : Nat) :
    (surgeryDfg d k st t r j C).ebbArgs.length = d.ebbArgs.length := by
  simp [surgeryDfg]

theorem sg_plen (d : DataFlowGraph) (k : Opcode) (st t : Ty)
    (r j C : Nat) (hC : C < d.ebbArgs.length) :
    (((surgeryDfg d k st t r j C).ebbArgs.get? C).getD []).length =
      ((d.ebbArgs.get? C).getD []).length + 1 := by
  rw [sg_ebb_C d k st t r j C hC]
  simp

/-- The operated slot of the operated block is never a slot of a pending
repair whose parameters are typed at the split type: the parameter being
split still has the un-split type. -/
theorem surgery_notpend (st0 t : Ty) (d : DataFlowGraph) (r j C : Nat)
    (rsV : List Repair)
    (hr : d.values.get? r = some (.Arg t j C))
    (hj : ((d.ebbArgs.get? C).getD []).get? j = some r)
    (htne : t ≠ st0)
    (hVty : PendParamTy st0 d rsV) :
    ∀ r' ∈ rsV, r'.ebb = C → j ≠ r'.num ∧ j ≠ r'.hi_num := by
  intro r' hr' hebb
  have hvtr : d.value_type r = t := by
    unfold DataFlowGraph.value_type
    rw [hr]
    rfl
  obtain ⟨h1, h2⟩ := hVty r' hr'
  rw [hebb] at h1 h2
  constructor
  · intro hje
    have := h1 r (by rw [← hje]; exact hj)
    rw [hvtr] at this
    exact htne this
  · intro hje
    have := h2 r (by rw [← hje]; exact hj)
    rw [hvtr] at this
    exact htne this

theorem surgery_pty (k : Opcode) (st0 t : Ty) (d : DataFlowGraph)
    (r j C : Nat) (rsV : List Repair)
    (hr : d.values.get? r = some (.Arg t j C))
    (hC : C < d.ebbArgs.length)
    (hj : ((d.ebbArgs.get? C).getD []).get? j = some r)
    (hst0 : st0 ≠ ⟨0, 0⟩) (htne : t ≠ st0)
    (hVty : PendParamTy st0 d rsV)
    (hVsh : PendShape k st0 d rsV) :
    PendParamTy st0 (surgeryDfg d k st0 t r j C)
      (⟨k, st0, C, j, ((d.ebbArgs.get? C).getD []).length⟩ :: rsV) := by
  have hrlt : r < d.values.length := by
    rcases List.get?_eq_some.mp hr with ⟨hl, _⟩
    exact hl
  intro r' hr'
  rcases List.mem_cons.mp hr' with hrN | hmem
  · subst hrN
    constructor
    · intro x hx
      rw [sg_param_j d k st0 t r j C hC
        (by rcases List.get?_eq_some.mp hj with ⟨hl, _⟩; exact hl)] at hx
      injection hx with hx
      rw [← hx]
      exact sg_vt_lo d k st0 t r j C hrlt
    · intro x hx
      rw [sg_param_top d k st0 t r j C hC] at hx
      injection hx with hx
      rw [← hx]
      exact sg_vt_hi d k st0 t r j C hrlt
  · obtain ⟨h1, h2⟩ := hVty r' hmem
    obtain ⟨_, _, hnh, hhm⟩ := hVsh r' hmem
    by_cases hebb : r'.ebb = C
    · obtain ⟨hnj, hhj⟩ := surgery_notpend st0 t d r j C rsV hr hj htne hVty
        r' hmem hebb
      rw [hebb] at h1 h2 hhm ⊢
      unfold DataFlowGraph.num_ebb_args at hhm
      constructor
      · intro x hx
        rw [sg_param_old d k st0 t r j C r'.num hC
          (fun he => hnj he.symm) (by omega)] at hx
        have := h1 x hx
        rw [sg_vt_old d k st0 t r j C x
          (lt_of_value_type_ne d x (by rw [this]; exact hst0)) hr]
        exact this
      · intro x hx
        rw [sg_param_old d k st0 t r j C r'.hi_num hC
          (fun he => hhj he.symm) hhm] at hx
        have := h2 x hx
        rw [sg_vt_old d k st0 t r j C x
          (lt_of_value_type_ne d x (by rw [this]; exact hst0)) hr]
        exact this
    · have hebbeq : (surgeryDfg d k st0 t r j C).ebbArgs.get? r'.ebb =
          d.ebbArgs.get? r'.ebb :=
        sg_ebb_other d k st0 t r j C r'.ebb (fun he => hebb he.symm)
      rw [hebbeq]
      constructor
      · intro x hx
        have := h1 x hx
        rw [sg_vt_old d k st0 t r j C x
          (lt_of_value_type_ne d x (by rw [this]; exact hst0)) hr]
        exact this
      · intro x hx
        have := h2 x hx
        rw [sg_vt_old d k st0 t r j C x
          (lt_of_value_type_ne d x (by rw [this]; exact hst0)) hr]
        exact this

theorem surgery_pshape (k : Opcode) (st0 t : Ty) (d : DataFlowGraph)
    (r j C : Nat) (rsV : List Repair)
    (hC : C < d.ebbArgs.length)
    (hj : j < ((d.ebbArgs.get? C).getD []).length)
    (hVsh : PendShape k st0 d rsV) :
    PendShape k st0 (surgeryDfg d k st0 t r j C)
      (⟨k, st0, C, j, ((d.ebbArgs.get? C).getD []).length⟩ :: rsV) := by
  intro r' hr'
  rcases List.mem_cons.mp hr' with hrN | hmem
  · subst hrN
    refine ⟨rfl, rfl, hj, ?_⟩
    show _ < (surgeryDfg d k st0 t r j C).num_ebb_args C
    rw [sg_m_C d k st0 t r j C hC]
    exact Nat.lt_succ_self _
  · obtain ⟨h1, h2, h3, h4⟩ := hVsh r' hmem
    exact ⟨h1, h2, h3,
      Nat.lt_of_lt_of_le h4 (sg_m_mono d k st0 t r j C hC r'.ebb)⟩

theorem surgery_branch (k : Opcode) (st0 t : Ty) (d : DataFlowGraph)
    (r j C : Nat) (rsV : List Repair) (op : Opcode) (dest : Ebb)
    (args : List Value)
    (hr : d.values.get? r = some (.Arg t j C))
    (hC : C < d.ebbArgs.length)
    (hj : ((d.ebbArgs.get? C).getD []).get? j = some r)
    (hh : halfOp k t = some st0)
    (hPV : ParamsValid d)
    (hVty : PendParamTy st0 d rsV)
    (hB : BranchOK k st0 d rsV op dest args) :
    BranchOK k st0 (surgeryDfg d k st0 t r j C)
      (⟨k, st0, C, j, ((d.ebbArgs.get? C).getD []).length⟩ :: rsV)
      op dest args := by
  have hrlt : r < d.values.length := by
    rcases List.get?_eq_some.mp hr with ⟨hl, _⟩
    exact hl
  have hjm : j < ((d.ebbArgs.get? C).getD []).length := by
    rcases List.get?_eq_some.mp hj with ⟨hl, _⟩
    exact hl
  have htne : t ≠ st0 := fun he => halfOp_strict hh he.symm
  have hst0 : st0 ≠ ⟨0, 0⟩ := halfOp_ne_zero hh
  have hvtr : d.value_type r = t := by
    unfold DataFlowGraph.value_type
    rw [hr]
    rfl
  obtain ⟨ha, hb, hc, hd, he, hf⟩ := hB
  have hargLt : ∀ a ∈ args, a < d.values.length := hf
  refine ⟨?_, ?_, ?_, ?_, ?_, ?_⟩
  · exact Nat.le_trans ha
      (Nat.add_le_add_left (sg_m_mono d k st0 t r j C hC dest) _)
  · intro r' hr' hebb
    rcases List.mem_cons.mp hr' with hrN | hmem
    · subst hrN
      have hCd : C = dest := hebb
      subst hCd
      refine ⟨?_, ?_⟩
      · show op.fixed_value_arguments + j < args.length
        exact he j r hj (by rw [hvtr]; exact htne)
      · intro a hga
        have hmem' : a ∈ args := List.get?_mem hga
        have hnp : ∀ r'' ∈ rsV, r''.ebb = C → j ≠ r''.num ∧ j ≠ r''.hi_num :=
          surgery_notpend st0 t d r j C rsV hr hj htne hVty
        have hca := hc j r a hj hga hnp
        rw [sg_vt_old d k st0 t r j C a (hargLt a hmem') hr, hca, hvtr]
        exact hh
    · obtain ⟨h1, h2⟩ := hb r' hmem hebb
      refine ⟨h1, ?_⟩
      intro a hga
      have h3 := h2 a hga
      have halt : a < d.values.length := by
        apply lt_of_value_type_ne
        intro hz
        rw [hz, halfOp_zero] at h3
        cases h3
      rw [sg_vt_old d k st0 t r j C a halt hr]
      exact h3
  · intro j' x a hx hga hnp
    have halt : a < d.values.length := hargLt a (List.get?_mem hga)
    by_cases hdest : C = dest
    · subst hdest
      obtain ⟨hj'j, hj'm⟩ := hnp ⟨k, st0, C, j,
        ((d.ebbArgs.get? C).getD []).length⟩ (List.mem_cons_self _ _) rfl
      have hj'j' : j' ≠ j := hj'j
      have hj'm' : j' ≠ ((d.ebbArgs.get? C).getD []).length := hj'm
      have hj'lt : j' < ((d.ebbArgs.get? C).getD []).length + 1 := by
        rcases List.get?_eq_some.mp hx with ⟨hl, _⟩
        rw [sg_plen d k st0 t r j C hC] at hl
        exact hl
      rw [sg_param_old d k st0 t r j C j' hC hj'j' (by omega)] at hx
      have hxlt : x < d.values.length := by
        obtain ⟨ty, hty⟩ := hPV C j' x hx
        rcases List.get?_eq_some.mp hty with ⟨hl, _⟩
        exact hl
      have hca := hc j' x a hx hga
        (fun r'' hr'' hebb'' => hnp r'' (List.mem_cons_of_mem _ hr'') hebb'')
      rw [sg_vt_old d k st0 t r j C a halt hr,
        sg_vt_old d k st0 t r j C x hxlt hr]
      exact hca
    · rw [sg_ebb_other d k st0 t r j C dest hdest] at hx
      have hxlt : x < d.values.length := by
        obtain ⟨ty, hty⟩ := hPV dest j' x hx
        rcases List.get?_eq_some.mp hty with ⟨hl, _⟩
        exact hl
      have hca := hc j' x a hx hga
        (fun r'' hr'' hebb'' => hnp r'' (List.mem_cons_of_mem _ hr'') hebb'')
      rw [sg_vt_old d k st0 t r j C a halt hr,
        sg_vt_old d k st0 t r j C x hxlt hr]
      exact hca
  · by_cases hdest : C = dest
    · subst hdest
      right
      refine ⟨⟨k, st0, C, j, ((d.ebbArgs.get? C).getD []).length⟩,
        List.mem_cons_self _ _, rfl, ?_⟩
      show ((d.ebbArgs.get? C).getD []).length + 1 = _
      rw [sg_m_C d k st0 t r j C hC]
    · rcases hd with hdl | ⟨r', hmem, hebb, hhi⟩
      · left
        rw [sg_m_other d k st0 t r j C dest hdest]
        exact hdl
      · right
        exact ⟨r', List.mem_cons_of_mem _ hmem, hebb,
          by rw [sg_m_other d k st0 t r j C dest hdest]; exact hhi⟩
  · intro j' x hx hne
    by_cases hdest : C = dest
    · subst hdest
      by_cases hj'j : j' = j
      · subst hj'j
        rw [sg_param_j d k st0 t r j' C hC hjm] at hx
        injection hx with hx
        rw [← hx, sg_vt_lo d k st0 t r j' C hrlt] at hne
        exact absurd rfl hne
      by_cases hj'm : j' = ((d.ebbArgs.get? C).getD []).length
      · subst hj'm
        rw [sg_param_top d k st0 t r j C hC] at hx
        injection hx with hx
        rw [← hx, sg_vt_hi d k st0 t r j C hrlt] at hne
        exact absurd rfl hne
      · have hj'lt : j' < ((d.ebbArgs.get? C).getD []).length + 1 := by
          rcases List.get?_eq_some.mp hx with ⟨hl, _⟩
          rw [sg_plen d k st0 t r j C hC] at hl
          exact hl
        rw [sg_param_old d k st0 t r j C j' hC hj'j (by omega)] at hx
        have hxlt : x < d.values.length := by
          obtain ⟨ty, hty⟩ := hPV C j' x hx
          rcases List.get?_eq_some.mp hty with ⟨hl, _⟩
          exact hl
        rw [sg_vt_old d k st0 t r j C x hxlt hr] at hne
        exact he j' x hx hne
    · rw [sg_ebb_other d k st0 t r j C dest hdest] at hx
      have hxlt : x < d.values.length := by
        obtain ⟨ty, hty⟩ := hPV dest j' x hx
        rcases List.get?_eq_some.mp hty with ⟨hl, _⟩
        exact hl
      rw [sg_vt_old d k st0 t r j C x hxlt hr] at hne
      exact he j' x hx hne
  · intro a hga
    have := hf a hga
    rw [sg_values_len]
    exact Nat.lt_of_lt_of_le this (Nat.le_add_right _ 3)

theorem surgery_core (k : Opcode) (st0 t : Ty) (d : DataFlowGraph)
    (r j C : Nat) (rs : List Repair)
    (hr : d.values.get? r = some (.Arg t j C))
    (hC : C < d.ebbArgs.length)
    (hj : ((d.ebbArgs.get? C).getD []).get? j = some r)
    (hh : halfOp k t = some st0)
    (hcore : InvCore k st0 d rs) :
    InvCore k st0 (surgeryDfg d k st0 t r j C)
      (⟨k, st0, C, j, ((d.ebbArgs.get? C).getD []).length⟩ :: rs) := by
  have hrlt : r < d.values.length := by
    rcases List.get?_eq_some.mp hr with ⟨hl, _⟩
    exact hl
  have hjm : j < ((d.ebbArgs.get? C).getD []).length := by
    rcases List.get?_eq_some.mp hj with ⟨hl, _⟩
    exact hl
  have htne : t ≠ st0 := fun he => halfOp_strict hh he.symm
  have hst0 : st0 ≠ ⟨0, 0⟩ := halfOp_ne_zero hh
  refine ⟨?_, ?_, ?_, ?_, ?_, ?_, ?_, ?_, ?_, ?_⟩
  · show (d.results ++ _).length = (d.insts ++ _).length
    simp [hcore.resLen]
  · intro x ty orig hx
    rcases sg_val_cases d k st0 t r j C x _ hrlt hx with
      ⟨hxl, hxr, hxe⟩ | ⟨hxeq, hEeq⟩ | ⟨hxeq, hEeq⟩ | ⟨hxeq, hEeq⟩ |
      ⟨hxeq, hEeq⟩
    · obtain ⟨hty, ty2, n, i, horig⟩ := hcore.aliasOk x ty orig hxe
      have horiglt : orig < d.values.length := by
        rcases List.get?_eq_some.mp horig with ⟨hl, _⟩
        exact hl
      have horigr : orig ≠ r := by
        intro heq
        rw [heq, hr] at horig
        cases horig
      refine ⟨?_, ty2, n, i, ?_⟩
      · rw [sg_vt_old d k st0 t r j C orig horiglt hr]
        exact hty
      · rw [sg_val_old d k st0 t r j C orig horiglt horigr]
        exact horig
    · injection hEeq with h1 h2
      rw [h1, h2]
      refine ⟨sg_vt_cv d k st0 t r j C hrlt, t, 0, d.insts.length,
        sg_val_cv d k st0 t r j C hrlt⟩
    · cases hEeq
    · cases hEeq
    · cases hEeq
  · intro i a b x ty n st hi hx hhalf
    rcases sg_insts_cases d k st0 t r j C i _ hi with ⟨hil, hie⟩ | ⟨hieq, hXeq⟩
    · rcases sg_val_cases d k st0 t r j C x _ hrlt hx with
        ⟨hxl, hxr, hxe⟩ | ⟨hxeq, hEeq⟩ | ⟨hxeq, hEeq⟩ | ⟨hxeq, hEeq⟩ |
        ⟨hxeq, hEeq⟩
      · obtain ⟨hta, htb⟩ := hcore.concatTyped i a b x ty n st hie hxe hhalf
        have hsne : st ≠ ⟨0, 0⟩ := halfOp_ne_zero hhalf
        have halt : a < d.values.length :=
          lt_of_value_type_ne d a (by rw [hta]; exact hsne)
        have hblt : b < d.values.length :=
          lt_of_value_type_ne d b (by rw [htb]; exact hsne)
        rw [sg_vt_old d k st0 t r j C a halt hr,
          sg_vt_old d k st0 t r j C b hblt hr]
        exact ⟨hta, htb⟩
      · cases hEeq
      · cases hEeq
      · cases hEeq
      · injection hEeq with h1 h2 h3
        rw [h3] at hil
        exact absurd hil (lt_irrefl _)
    · injection hXeq with h1 h2 h3
      subst h2 h3 hieq
      rcases sg_val_cases d k st0 t r j C x _ hrlt hx with
        ⟨hxl, hxr, hxe⟩ | ⟨hxeq, hEeq⟩ | ⟨hxeq, hEeq⟩ | ⟨hxeq, hEeq⟩ |
        ⟨hxeq, hEeq⟩
      · have := hcore.resultBound x ty n _ hxe
        exact absurd this (lt_irrefl _)
      · cases hEeq
      · cases hEeq
      · cases hEeq
      · injection hEeq with h1 h2 h3
        rw [h1, hh] at hhalf
        injection hhalf with hst
        rw [← hst]
        exact ⟨sg_vt_lo d k st0 t r j C hrlt, sg_vt_hi d k st0 t r j C hrlt⟩
  · intro x ty n i hx
    rcases sg_val_cases d k st0 t r j C x _ hrlt hx with
      ⟨hxl, hxr, hxe⟩ | ⟨hxeq, hEeq⟩ | ⟨hxeq, hEeq⟩ | ⟨hxeq, hEeq⟩ |
      ⟨hxeq, hEeq⟩
    · have := hcore.resultBound x ty n i hxe
      show i < (d.insts ++ _).length
      rw [List.length_append]
      exact Nat.lt_of_lt_of_le this (Nat.le_add_right _ _)
    · cases hEeq
    · cases hEeq
    · cases hEeq
    · injection hEeq with h1 h2 h3
      show i < (d.insts ++ _).length
      rw [h3]
      simp
  · intro x ty jx Cx hx
    rcases sg_val_cases d k st0 t r j C x _ hrlt hx with
      ⟨hxl, hxr, hxe⟩ | ⟨hxeq, hEeq⟩ | ⟨hxeq, hEeq⟩ | ⟨hxeq, hEeq⟩ |
      ⟨hxeq, hEeq⟩
    · obtain ⟨hCxlt, hPx⟩ := hcore.argConsistent x ty jx Cx hxe
      refine ⟨by rw [sg_ebb_len]; exact hCxlt, ?_⟩
      by_cases hCx : Cx = C
      · subst hCx
        have hjxj : jx ≠ j := by
          intro heq
          rw [heq] at hPx
          rw [hPx] at hj
          injection hj with hj
          exact hxr hj
        have hjxlt : jx < ((d.ebbArgs.get? Cx).getD []).length := by
          rcases List.get?_eq_some.mp hPx with ⟨hl, _⟩
          exact hl
        rw [sg_param_old d k st0 t r j Cx jx hC hjxj hjxlt]
        exact hPx
      · rw [sg_ebb_other d k st0 t r j C Cx (fun he => hCx he.symm)]
        exact hPx
    · cases hEeq
    · injection hEeq with h1 h2 h3
      rw [hxeq, h2, h3]
      exact ⟨by rw [sg_ebb_len]; exact hC,
        sg_param_j d k st0 t r j C hC hjm⟩
    · injection hEeq with h1 h2 h3
      rw [hxeq, h2, h3]
      exact ⟨by rw [sg_ebb_len]; exact hC,
        sg_param_top d k st0 t r j C hC⟩
    · cases hEeq
  · intro Cx jx x hx
    by_cases hCx : Cx = C
    · rw [hCx] at hx ⊢
      by_cases hjx : jx = j
      · rw [hjx] at hx ⊢
        rw [sg_param_j d k st0 t r j C hC hjm] at hx
        injection hx with hx
        exact ⟨st0, by rw [← hx]; exact sg_val_lo d k st0 t r j C hrlt⟩
      by_cases hjm' : jx = ((d.ebbArgs.get? C).getD []).length
      · rw [hjm'] at hx ⊢
        rw [sg_param_top d k st0 t r j C hC] at hx
        injection hx with hx
        exact ⟨st0, by rw [← hx]; exact sg_val_hi d k st0 t r j C hrlt⟩
      · have hjxlt : jx < ((d.ebbArgs.get? C).getD []).length + 1 := by
          rcases List.get?_eq_some.mp hx with ⟨hl, _⟩
          rw [sg_plen d k st0 t r j C hC] at hl
          exact hl
        rw [sg_param_old d k st0 t r j C jx hC hjx (by omega)] at hx
        obtain ⟨ty, hty⟩ := hcore.paramsValid C jx x hx
        have hxr : x ≠ r := by
          intro heq
          rw [heq, hr] at hty
          injection hty with hty
          injection hty with e1 e2 e3
          exact hjx e2.symm
        have hxlt : x < d.values.length := by
          rcases List.get?_eq_some.mp hty with ⟨hl, _⟩
          exact hl
        exact ⟨ty, by rw [sg_val_old d k st0 t r j C x hxlt hxr]; exact hty⟩
    · rw [sg_ebb_other d k st0 t r j C Cx (fun he => hCx he.symm)] at hx
      obtain ⟨ty, hty⟩ := hcore.paramsValid Cx jx x hx
      have hxr : x ≠ r := by
        intro heq
        rw [heq, hr] at hty
        injection hty with hty
        injection hty with e1 e2 e3
        exact hCx e3.symm
      have hxlt : x < d.values.length := by
        rcases List.get?_eq_some.mp hty with ⟨hl, _⟩
        exact hl
      exact ⟨ty, by rw [sg_val_old d k st0 t r j C x hxlt hxr]; exact hty⟩
  · exact surgery_pshape k st0 t d r j C rs hC hjm hcore.pendShape
  · exact surgery_pty k st0 t d r j C rs hr hC hj hst0 htne
      hcore.pendParamTy hcore.pendShape
  · rw [List.pairwise_cons]
    refine ⟨?_, hcore.stackOrder⟩
    intro r' hmem hebb
    have hsh := (hcore.pendShape r' hmem).2.2.2
    show r'.hi_num < ((d.ebbArgs.get? C).getD []).length
    have hebb' : C = r'.ebb := hebb
    rw [← hebb'] at hsh
    unfold DataFlowGraph.num_ebb_args at hsh
    exact hsh
  · rw [List.pairwise_cons]
    refine ⟨?_, hcore.pendDistinct⟩
    intro r' hmem hebb
    have hebb' : C = r'.ebb := hebb
    obtain ⟨hn1, hn2⟩ := surgery_notpend st0 t d r j C rs hr hj htne
      hcore.pendParamTy r' hmem hebb'.symm
    obtain ⟨_, _, hnh, hhm⟩ := hcore.pendShape r' hmem
    rw [← hebb'] at hhm
    unfold DataFlowGraph.num_ebb_args at hhm
    refine ⟨hn1, hn2, ?_⟩
    show ((d.ebbArgs.get? C).getD []).length ≠ r'.num
    omega

/-- Invariant preservation and effect summary of a successful `split_value`:
the core invariant moves to the output repair list, the requested value's two
halves are typed at the split type, all pre-existing values keep their types,
parameter counts only grow, branch instruction entries are untouched, and
the per-branch conditions transfer — parameterised by an arbitrary view list
`rsV` of pending repairs so that a repair in flight can be accounted for. -/
theorem split_value_inv (k : Opcode) (st0 : Ty) (s : State) (rs : List Repair)
    (v lo hi : Nat) (s' : State) (rs' : List Repair)
    (hcore : InvCore k st0 s.dfg rs)
    (hv : halfOp k (s.dfg.value_type v) = some st0)
    (heff : SVEffect k s rs v lo hi s' rs') :
    InvCore k st0 s'.dfg rs' ∧
    s.dfg.values.length ≤ s'.dfg.values.length ∧
    (∀ x, x < s.dfg.values.length →
      s'.dfg.value_type x = s.dfg.value_type x) ∧
    s'.dfg.value_type lo = st0 ∧ s'.dfg.value_type hi = st0 ∧
    (∀ e, s.dfg.num_ebb_args e ≤ s'.dfg.num_ebb_args e) ∧
    (∀ i op dest args, s'.dfg.insts.get? i = some (.Branch op dest args) ↔
      s.dfg.insts.get? i = some (.Branch op dest args)) ∧
    ((rs' = rs ∧ (∀ e, s'.dfg.num_ebb_args e = s.dfg.num_ebb_args e) ∧
      (∀ rsV, PendParamTy st0 s.dfg rsV → PendShape k st0 s.dfg rsV →
       (∀ op dest args, BranchOK k st0 s.dfg rsV op dest args →
         BranchOK k st0 s'.dfg rsV op dest args) ∧
       PendParamTy st0 s'.dfg rsV ∧ PendShape k st0 s'.dfg rsV)) ∨
     (∃ rN, rs' = rN :: rs ∧ rN.concat = k ∧ rN.split_type = st0 ∧
      rN.hi_num + 1 = s'.dfg.num_ebb_args rN.ebb ∧
      (∀ e, e ≠ rN.ebb → s'.dfg.num_ebb_args e = s.dfg.num_ebb_args e) ∧
      (∀ rsV, PendParamTy st0 s.dfg rsV → PendShape k st0 s.dfg rsV →
       (∀ r' ∈ rsV, r'.ebb = rN.ebb → rN.num ≠ r'.num ∧ rN.num ≠ r'.hi_num ∧
         rN.hi_num ≠ r'.num ∧ rN.hi_num ≠ r'.hi_num) ∧
       (∀ op dest args, BranchOK k st0 s.dfg rsV op dest args →
         BranchOK k st0 s'.dfg (rN :: rsV) op dest args) ∧
       PendParamTy st0 s'.dfg (rN :: rsV) ∧
       PendShape k st0 s'.dfg (rN :: rsV)))) := by
  have hst0 : st0 ≠ ⟨0, 0⟩ := halfOp_ne_zero hv
  have hvres : s.dfg.value_type (s.dfg.resolve_copies v) =
      s.dfg.value_type v :=
    resolve_vt s.dfg hcore.aliasOk v
  rcases heff with ⟨hs, hrs, inst, ty, hres, hinst⟩ |
    ⟨sop, hh, hhalf, hdfg, hlo, hhi, hrs⟩ |
    ⟨t, st, j, C, hres, hhalf, hC, hjm, hj, hdfg, hlo, hhi, hrs⟩
  · rw [hs, hrs]
    have hty : s.dfg.value_type (s.dfg.resolve_copies v) = ty := by
      unfold DataFlowGraph.value_type
      rw [hres]
      rfl
    have hhalf : halfOp k ty = some st0 := by
      rw [← hty, hvres]
      exact hv
    obtain ⟨hta, htb⟩ :=
      hcore.concatTyped inst lo hi _ ty 0 st0 hinst hres hhalf
    exact ⟨hcore, le_refl _, fun x _ => rfl, hta, htb, fun e => le_refl _,
      fun i op dest args => Iff.rfl, Or.inl ⟨rfl, fun e => rfl,
        fun rsV hVty hVsh => ⟨fun op dest args hB => hB, hVty, hVsh⟩⟩⟩
  · subst hlo hhi
    have hheq : hh = st0 := by
      rw [hvres, hv] at hhalf
      injection hhalf with hhalf
      exact hhalf.symm
    rw [hheq] at hdfg
    rw [hrs, hdfg]
    refine ⟨insert_core k st0 s.dfg sop _ st0 rs hst0 hcore, ?_, ?_, ?_, ?_,
      ?_, ?_, ?_⟩
    · rw [in_values_len]
      exact Nat.le_add_right _ 2
    · intro x hx
      exact in_vt_old s.dfg sop _ st0 x hx
    · exact in_vt_lo s.dfg sop _ st0
    · exact in_vt_hi s.dfg sop _ st0
    · intro e
      rw [in_m]
    · intro i op dest args
      constructor
      · intro hbr
        rcases in_insts_cases s.dfg sop _ st0 i _ hbr with
          ⟨_, hie⟩ | ⟨_, hXeq⟩
        · exact hie
        · cases hXeq
      · intro hbr
        have hilt : i < s.dfg.insts.length := by
          rcases List.get?_eq_some.mp hbr with ⟨hl, _⟩
          exact hl
        rw [in_insts_old s.dfg sop _ st0 i hilt]
        exact hbr
    · refine Or.inl ⟨rfl, fun e => rfl, ?_⟩
      intro rsV hVty hVsh
      exact ⟨fun op dest args hB =>
          insert_branch k st0 s.dfg sop _ st0 rsV op dest args
            hcore.paramsValid hB,
        insert_pty st0 s.dfg sop _ st0 rsV hst0 hVty,
        insert_pshape k st0 s.dfg sop _ st0 rsV hVsh⟩
  · subst hlo hhi
    have hrlt : s.dfg.resolve_copies v < s.dfg.values.length := by
      rcases List.get?_eq_some.mp hres with ⟨hl, _⟩
      exact hl
    have hty : s.dfg.value_type (s.dfg.resolve_copies v) = t := by
      unfold DataFlowGraph.value_type
      rw [hres]
      rfl
    have hsteq : st = st0 := by
      rw [hty] at hvres
      rw [hvres, hv] at hhalf
      injection hhalf with hhalf
      exact hhalf.symm
    rw [hsteq] at hdfg hrs hhalf
    have htne : t ≠ st0 := fun he => halfOp_strict hhalf he.symm
    rw [hdfg, hrs]
    refine ⟨surgery_core k st0 t s.dfg _ j C rs hres hC hj hhalf hcore,
      ?_, ?_, ?_, ?_, ?_, ?_, ?_⟩
    · rw [sg_values_len]
      exact Nat.le_add_right _ 3
    · intro x hx
      exact sg_vt_old s.dfg k st0 t _ j C x hx hres
    · exact sg_vt_lo s.dfg k st0 t _ j C hrlt
    · exact sg_vt_hi s.dfg k st0 t _ j C hrlt
    · exact sg_m_mono s.dfg k st0 t _ j C hC
    · intro i op dest args
      constructor
      · intro hbr
        rcases sg_insts_cases s.dfg k st0 t _ j C i _ hbr with
          ⟨_, hie⟩ | ⟨_, hXeq⟩
        · exact hie
        · cases hXeq
      · intro hbr
        have hilt : i < s.dfg.insts.length := by
          rcases List.get?_eq_some.mp hbr with ⟨hl, _⟩
          exact hl
        rw [sg_insts_old s.dfg k st0 t _ j C i hilt]
        exact hbr
    · right
      refine ⟨⟨k, st0, C, j, ((s.dfg.ebbArgs.get? C).getD []).length⟩,
        rfl, rfl, rfl, ?_, ?_, ?_⟩
      · show ((s.dfg.ebbArgs.get? C).getD []).length + 1 = _
        rw [sg_m_C s.dfg k st0 t _ j C hC]
      · intro e hne
        exact sg_m_other s.dfg k st0 t _ j C e (fun he => hne he.symm)
      · intro rsV hVty hVsh
        refine ⟨?_, ?_, ?_, ?_⟩
        · intro r' hmem hebb
          have hebb' : r'.ebb = C := hebb
          obtain ⟨hn1, hn2⟩ := surgery_notpend st0 t s.dfg _ j C rsV hres hj
            htne hVty r' hmem hebb'
          obtain ⟨_, _, hnh, hhm⟩ := hVsh r' hmem
          rw [hebb'] at hhm
          unfold DataFlowGraph.num_ebb_args at hhm
          refine ⟨hn1, hn2, ?_, ?_⟩
          · show ((s.dfg.ebbArgs.get? C).getD []).length ≠ r'.num
            omega
          · show ((s.dfg.ebbArgs.get? C).getD []).length ≠ r'.hi_num
            omega
        · intro op dest args hB
          exact surgery_branch k st0 t s.dfg _ j C rsV op dest args hres hC hj
            hhalf hcore.paramsValid hVty hB
        · exact surgery_pty k st0 t s.dfg _ j C rsV hres hC hj hst0 htne
            hVty hVsh
        · exact surgery_pshape k st0 t s.dfg _ j C rsV hC hjm hVsh

theorem edgeinv_pty (k : Opcode) (st0 : Ty) (cfg : ControlFlowGraph)
    (rp : Repair) (s : State) (rs : List Repair)
    (h : EdgeInv k st0 cfg rp s rs) :
    PendParamTy st0 s.dfg (rp :: rs) := by
  intro r' hr'
  rcases List.mem_cons.mp hr' with he | hmem
  · subst he
    exact ⟨h.rpnty, h.rphty⟩
  · exact h.core.pendParamTy r' hmem

theorem edgeinv_pshape (k : Opcode) (st0 : Ty) (cfg : ControlFlowGraph)
    (rp : Repair) (s : State) (rs : List Repair)
    (h : EdgeInv k st0 cfg rp s rs) :
    PendShape k st0 s.dfg (rp :: rs) := by
  intro r' hr'
  rcases List.mem_cons.mp hr' with he | hmem
  · subst he
    exact ⟨h.rpk, h.rpst, h.rpnh, h.rphm⟩
  · exact h.core.pendShape r' hmem

/-- `BranchOK` only depends on the value store and parameter lists. -/
theorem branchok_congr (k : Opcode) (st0 : Ty) (d d' : DataFlowGraph)
    (rs : List Repair) (op : Opcode) (dest : Ebb) (args : List Value)
    (hval : d'.values = d.values) (hebb : d'.ebbArgs = d.ebbArgs)
    (hB : BranchOK k st0 d rs op dest args) :
    BranchOK k st0 d' rs op dest args := by
  have hvt : ∀ x, d'.value_type x = d.value_type x := by
    intro x
    unfold DataFlowGraph.value_type
    rw [hval]
  have hm : ∀ e, d'.num_ebb_args e = d.num_ebb_args e := by
    intro e
    unfold DataFlowGraph.num_ebb_args
    rw [hebb]
  obtain ⟨ha, hb, hc, hd, he, hf⟩ := hB
  refine ⟨by rw [hm]; exact ha, ?_, ?_, ?_, ?_, by rw [hval]; exact hf⟩
  · intro r hr hre
    obtain ⟨h1, h2⟩ := hb r hr hre
    exact ⟨h1, fun a hga => by rw [hvt]; exact h2 a hga⟩
  · intro j x a hx hga hnp
    rw [hebb] at hx
    rw [hvt, hvt]
    exact hc j x a hx hga hnp
  · rcases hd with h1 | ⟨r, hr, h2, h3⟩
    · exact Or.inl (by rw [hm]; exact h1)
    · exact Or.inr ⟨r, hr, h2, by rw [hm]; exact h3⟩
  · intro j x hx hne
    rw [hebb] at hx
    rw [hvt] at hne
    exact he j x hx hne

/-- `BranchOK` only depends on the membership of the repair list. -/
theorem branchok_mem_congr (k : Opcode) (st0 : Ty) (d : DataFlowGraph)
    (l1 l2 : List Repair) (op : Opcode) (dest : Ebb) (args : List Value)
    (hmem : ∀ r, r ∈ l2 → r ∈ l1) (hmem2 : ∀ r, r ∈ l1 → r ∈ l2)
    (hB : BranchOK k st0 d l1 op dest args) :
    BranchOK k st0 d l2 op dest args := by
  obtain ⟨ha, hb, hc, hd, he, hf⟩ := hB
  refine ⟨ha, ?_, ?_, ?_, he, hf⟩
  · intro r hr hre
    exact hb r (hmem r hr) hre
  · intro j x a hx hga hnp
    exact hc j x a hx hga (fun r hr hre => hnp r (hmem2 r hr) hre)
  · rcases hd with h1 | ⟨r, hr, h2, h3⟩
    · exact Or.inl h1
    · exact Or.inr ⟨r, hmem2 r hr, h2, h3⟩

/-- Replacing an instruction entry by a branch entry preserves the core
invariant (no core component inspects branch entries). -/
theorem set_branch_core (k : Opcode) (st0 : Ty) (d : DataFlowGraph)
    (rs : List Repair) (i0 : Nat) (op2 : Opcode) (dest2 : Ebb)
    (args2 : List Value) (hcore : InvCore k st0 d rs) :
    InvCore k st0
      { d with insts := d.insts.set i0 (.Branch op2 dest2 args2) } rs := by
  refine ⟨?_, hcore.aliasOk, ?_, ?_, hcore.argConsistent, hcore.paramsValid,
    hcore.pendShape, hcore.pendParamTy, hcore.stackOrder, hcore.pendDistinct⟩
  · show d.results.length = (d.insts.set i0 _).length
    rw [List.length_set]
    exact hcore.resLen
  · intro i a b x ty n st hi hx hhalf
    by_cases hii : i = i0
    · subst hii
      by_cases hlt : i < d.insts.length
      · rw [show (d.insts.set i (InstructionData.Branch op2 dest2
            args2)).get? i = some (.Branch op2 dest2 args2) from
            List.get?_set_eq_of_lt _ hlt] at hi
        cases hi
      · rw [List.get?_eq_none.2 (by rw [List.length_set]; omega)] at hi
        cases hi
    · rw [List.get?_set_ne _ _ (fun he => hii he.symm)] at hi
      exact hcore.concatTyped i a b x ty n st hi hx hhalf
  · intro x ty n i hx
    have := hcore.resultBound x ty n i hx
    show i < (d.insts.set i0 _).length
    rw [List.length_set]
    exact this

theorem ph_len (a : List Value) (n f h : Nat) (hi : Nat)
    (hn : a.length = n) :
    (place_high a n f h hi).length = max n (f + h + 1) := by
  unfold place_high
  by_cases hc : f + h < n
  · rw [if_pos hc, List.length_set, hn]
    omega
  · rw [if_neg hc, List.length_append, List.length_replicate, hn]
    omega

theorem ph_get_other (a : List Value) (n f h : Nat) (hi : Nat)
    (hn : a.length = n) (idx : Nat) (hidx : idx < n) (hne : idx ≠ f + h) :
    (place_high a n f h hi).get? idx = a.get? idx := by
  unfold place_high
  by_cases hc : f + h < n
  · rw [if_pos hc]
    exact List.get?_set_ne _ _ (fun he => hne he.symm)
  · rw [if_neg hc]
    exact List.get?_append (by omega)

theorem ph_get_hislot (a : List Value) (n f h : Nat) (hi : Nat)
    (hn : a.length = n) :
    (place_high a n f h hi).get? (f + h) = some hi := by
  unfold place_high
  by_cases hc : f + h < n
  · rw [if_pos hc]
    exact List.get?_set_eq_of_lt _ (by omega)
  · rw [if_neg hc]
    rw [List.get?_append_right (by omega)]
    rw [List.get?_eq_getElem?, List.getElem?_replicate]
    rw [if_pos (by omega)]

theorem ph_get_pad (a : List Value) (n f h : Nat) (hi : Nat)
    (hn : a.length = n) (idx : Nat) (hge : n ≤ idx) (hlt : idx < f + h + 1) :
    (place_high a n f h hi).get? idx = some hi := by
  unfold place_high
  by_cases hc : f + h < n
  · omega
  · rw [if_neg hc]
    rw [List.get?_append_right (by omega)]
    rw [List.get?_eq_getElem?, List.getElem?_replicate]
    rw [if_pos (by omega)]

theorem ph_mem (a : List Value) (n f h : Nat) (hi : Nat) (x : Nat)
    (hx : x ∈ place_high a n f h hi) : x ∈ a ∨ x = hi := by
  unfold place_high at hx
  by_cases hc : f + h < n
  · rw [if_pos hc] at hx
    rcases List.mem_or_eq_of_mem_set hx with h1 | h1
    · exact Or.inl h1
    · exact Or.inr h1
  · rw [if_neg hc] at hx
    rcases List.mem_append.mp hx with h1 | h1
    · exact Or.inl h1
    · exact Or.inr (List.eq_of_mem_replicate h1)

/-- After writing the low half into the repaired slot and placing the high
half, a branch whose conditions held with the in-flight repair `rp` pending
satisfies the conditions without it, and its repaired slot carries a
split-typed value. -/
theorem repaired_branchok (k : Opcode) (st0 : Ty) (d2 : DataFlowGraph)
    (rs2 : List Repair) (rp : Repair) (op : Opcode) (args : List Value)
    (lo hi : Nat)
    (hBs2 : BranchOK k st0 d2 (rp :: rs2) op rp.ebb args)
    (hrpnh : rp.num < rp.hi_num)
    (hrphm : rp.hi_num < d2.num_ebb_args rp.ebb)
    (hnty : ∀ x, ((d2.ebbArgs.get? rp.ebb).getD []).get? rp.num = some x →
      d2.value_type x = st0)
    (hhty : ∀ x, ((d2.ebbArgs.get? rp.ebb).getD []).get? rp.hi_num = some x →
      d2.value_type x = st0)
    (hdist : ∀ r' ∈ rs2, r'.ebb = rp.ebb →
      rp.num ≠ r'.num ∧ rp.num ≠ r'.hi_num ∧
      rp.hi_num ≠ r'.num ∧ rp.hi_num ≠ r'.hi_num)
    (hvtlo : d2.value_type lo = st0) (hvthi : d2.value_type hi = st0)
    (hst0 : st0 ≠ ⟨0, 0⟩) :
    Visited k st0 d2 rs2 rp op rp.ebb
      (place_high (args.set (op.fixed_value_arguments + rp.num) lo)
        args.length op.fixed_value_arguments rp.hi_num hi) := by
  obtain ⟨ha, hb, hc, hd, he, hf⟩ := hBs2
  obtain ⟨hbn, hbt⟩ := hb rp (List.mem_cons_self _ _) rfl
  set f := op.fixed_value_arguments with hfdef
  set n := args.length with hndef
  set args1 := args.set (f + rp.num) lo with hargs1
  have hn1 : args1.length = n := by
    rw [hargs1, List.length_set]
  set args2 := place_high args1 n f rp.hi_num hi with hargs2
  have hlen2 : args2.length = max n (f + rp.hi_num + 1) := by
    rw [hargs2]
    exact ph_len args1 n f rp.hi_num hi hn1
  have hnle : n ≤ f + d2.num_ebb_args rp.ebb := ha
  have hlen2le : args2.length ≤ f + d2.num_ebb_args rp.ebb := by
    rw [hlen2]
    omega
  have hget1_lo : args1.get? (f + rp.num) = some lo := by
    rw [hargs1]
    exact List.get?_set_eq_of_lt _ (by omega)
  have hget1_other : ∀ idx, idx ≠ f + rp.num →
      args1.get? idx = args.get? idx := by
    intro idx hne
    rw [hargs1]
    exact List.get?_set_ne _ _ (fun heq => hne heq.symm)
  have hget2_lo : args2.get? (f + rp.num) = some lo := by
    rw [hargs2, ph_get_other args1 n f rp.hi_num hi hn1 _ (by omega)
      (by omega)]
    exact hget1_lo
  have hget2_hi : args2.get? (f + rp.hi_num) = some hi := by
    rw [hargs2]
    exact ph_get_hislot args1 n f rp.hi_num hi hn1
  have hget2_old : ∀ idx, idx < n → idx ≠ f + rp.num → idx ≠ f + rp.hi_num →
      args2.get? idx = args.get? idx := by
    intro idx h1 h2 h3
    rw [hargs2, ph_get_other args1 n f rp.hi_num hi hn1 _ h1 h3]
    exact hget1_other idx h2
  have hget2_pad : ∀ idx, n ≤ idx → idx < f + rp.hi_num + 1 →
      args2.get? idx = some hi := by
    intro idx h1 h2
    rw [hargs2]
    exact ph_get_pad args1 n f rp.hi_num hi hn1 idx h1 h2
  refine ⟨⟨hlen2le, ?_, ?_, ?_, ?_, ?_⟩, ?_, ?_⟩
  · -- (b) over rs2
    intro r' hr' hebb
    obtain ⟨h1, h2⟩ := hb r' (List.mem_cons_of_mem _ hr') hebb
    obtain ⟨hd1, hd2, hd3, hd4⟩ := hdist r' hr' hebb
    refine ⟨by rw [hlen2]; omega, ?_⟩
    intro a hga
    rw [hget2_old (f + r'.num) h1 (by omega) (by omega)] at hga
    exact h2 a hga
  · -- (c) over rs2
    intro j' x a hx hga hnp
    by_cases hj'n : j' = rp.num
    · rw [hj'n] at hx hga
      rw [hget2_lo] at hga
      injection hga with hga
      rw [← hga, hvtlo, hnty x hx]
    by_cases hj'h : j' = rp.hi_num
    · rw [hj'h] at hx hga
      rw [hget2_hi] at hga
      injection hga with hga
      rw [← hga, hvthi, hhty x hx]
    by_cases hpad : n ≤ f + j'
    · have hj'lt : f + j' < args2.length := by
        rcases List.get?_eq_some.mp hga with ⟨hl, _⟩
        exact hl
      rw [hget2_pad (f + j') hpad (by rw [hlen2] at hj'lt; omega)] at hga
      injection hga with hga
      rw [← hga, hvthi]
      by_cases hxty : d2.value_type x = st0
      · rw [hxty]
      · exact absurd (he j' x hx hxty) (by omega)
    · rw [hget2_old (f + j') (by omega) (by omega) (by omega)] at hga
      exact hc j' x a hx hga
        (fun r'' hr'' hebb'' => by
          rcases List.mem_cons.mp hr'' with he'' | hmem''
          · subst he''
            exact ⟨hj'n, hj'h⟩
          · exact hnp r'' hmem'' hebb'')
  · -- (d) over rs2
    rcases hd with hdl | ⟨r', hr', hebb', hhi'⟩
    · left
      rw [hlen2, ← hdl]
      omega
    · rcases List.mem_cons.mp hr' with he' | hmem'
      · left
        rw [hlen2]
        rw [he'] at hhi'
        omega
      · right
        exact ⟨r', hmem', hebb', hhi'⟩
  · -- (e)
    intro j' x hx hne
    have := he j' x hx hne
    rw [hlen2]
    omega
  · -- (f)
    intro a hga
    rcases ph_mem args1 n f rp.hi_num hi a hga with h1 | h1
    · rcases List.mem_or_eq_of_mem_set h1 with h2 | h2
      · exact hf a h2
      · rw [h2]
        exact lt_of_value_type_ne d2 lo (by rw [hvtlo]; exact hst0)
    · rw [h1]
      exact lt_of_value_type_ne d2 hi (by rw [hvthi]; exact hst0)
  · -- repaired slot in range
    rw [hlen2]
    omega
  · -- repaired slot typed at the split type
    intro a hga
    rw [hget2_lo] at hga
    injection hga with hga
    rw [← hga]
    exact hvtlo

/-- Invariant preservation of one predecessor-edge repair: the loop
invariant survives, the processed instruction (if a branch) ends up
repaired, all other branch entries are untouched, and already repaired
branches stay repaired. -/
theorem repairEdge_inv (k : Opcode) (st0 : Ty) (cfg : ControlFlowGraph)
    (rp : Repair) (s : State) (rs : List Repair) (inst : Nat)
    (s' : State) (rs' : List Repair)
    (hInv : EdgeInv k st0 cfg rp s rs)
    (hdest : ∀ op dest args,
      s.dfg.insts.get? inst = some (.Branch op dest args) → dest = rp.ebb)
    (h : repairEdge s rs rp inst = .ok (s', rs')) :
    EdgeInv k st0 cfg rp s' rs' ∧
    (∀ op dest args, s'.dfg.insts.get? inst = some (.Branch op dest args) →
      dest = rp.ebb ∧ Visited k st0 s'.dfg rs' rp op dest args) ∧
    (∀ i op dest args, i ≠ inst →
      s.dfg.insts.get? i = some (.Branch op dest args) →
      s'.dfg.insts.get? i = some (.Branch op dest args)) ∧
    (∀ i op dest args,
      s.dfg.insts.get? i = some (.Branch op dest args) →
      Visited k st0 s.dfg rs rp op dest args →
      s'.dfg.insts.get? i = some (.Branch op dest args) ∧
      Visited k st0 s'.dfg rs' rp op dest args) ∧
    (∃ op2 args2x,
      s'.dfg.insts.get? inst = some (.Branch op2 rp.ebb args2x)) := by
  unfold repairEdge at h
  split at h
  next => simp at h
  next idata heq =>
    split at h
    next snd heqtake =>
      dsimp only at h
      split at h <;> simp at h
    next alist idata2 heqtake =>
      cases idata with
      | Binary op2 a2 b2 => simp [InstructionData.take_value_list] at heqtake
      | Unary op2 a2 => simp [InstructionData.take_value_list] at heqtake
      | Branch op dest argsB =>
        simp only [InstructionData.take_value_list, Prod.mk.injEq,
          Option.some.injEq] at heqtake
        obtain ⟨ha1, ha2⟩ := heqtake
        subst ha1 ha2
        have hdB : dest = rp.ebb := hdest op dest argsB heq
        subst hdB
        dsimp only [InstructionData.opcode] at h
        have hinstlt : inst < s.dfg.insts.length := by
          rcases List.get?_eq_some.mp heq with ⟨hl, _⟩
          exact hl
        split at h
        next => simp at h
        next hbrt =>
          split at h
          next => simp at h
          next old_arg heq3 =>
            split at h
            next hty0 =>
              -- duplicate edge: skipped, state unchanged
              have hty : s.dfg.value_type old_arg = st0 := by
                rw [← hInv.rpst]
                exact hty0
              have hset : (s.dfg.insts.set inst
                  (InstructionData.Branch op rp.ebb [])).get? inst =
                  some (.Branch op rp.ebb []) := by
                rw [List.get?_set_eq_of_lt]
                simpa using hinstlt
              simp only [DataFlowGraph.put_list, hset,
                InstructionData.put_value_list, List.set_set] at h
              rw [list_set_of_get? _ _ _ heq] at h
              simp only [Except.ok.injEq, Prod.mk.injEq] at h
              obtain ⟨hs2, hrs2⟩ := h
              subst hs2 hrs2
              -- the entry must already be repaired
              have hVis : Visited k st0 s.dfg rs rp op rp.ebb argsB := by
                rcases hInv.branches inst op rp.ebb argsB heq with
                  ⟨_, hV⟩ | hU
                · exact hV
                · obtain ⟨hr1, hr2⟩ := hU.2.1 rp (List.mem_cons_self _ _) rfl
                  have := hr2 old_arg heq3
                  rw [hty] at this
                  exact absurd rfl (halfOp_strict this)
              refine ⟨?_, ?_, ?_, ?_, ?_⟩
              · exact ⟨hInv.core, hInv.cfgok, hInv.rpk, hInv.rpst, hInv.rpnh,
                  hInv.rphm, hInv.rpnty, hInv.rphty, hInv.rpdist,
                  hInv.branches⟩
              · intro op' dest' args' hent
                have hent' : s.dfg.insts.get? inst =
                    some (.Branch op' dest' args') := hent
                rw [heq] at hent'
                injection hent' with hent'
                injection hent' with e1 e2 e3
                rw [← e1, ← e2, ← e3]
                exact ⟨rfl, hVis⟩
              · intro i op' dest' args' hne hent
                exact hent
              · intro i op' dest' args' hent hV
                exact ⟨hent, hV⟩
              · exact ⟨op, argsB, heq⟩
            next htyn =>
              cases hsv : split_value { s with
                  dfg := { s.dfg with
                    insts := s.dfg.insts.set inst (.Branch op rp.ebb []) }
                  pos := CursorPos.at_ inst } old_arg rp.concat rs with
              | error e => rw [hsv, except_bind_error] at h; simp at h
              | ok out =>
                obtain ⟨⟨lo, hi⟩, s2, rs2⟩ := out
                rw [hsv, except_bind_ok] at h
                simp only [Except.ok.injEq, Prod.mk.injEq] at h
                obtain ⟨hs2, hrs2⟩ := h
                subst hs2 hrs2
                rw [hInv.rpk] at hsv
                have core1 : InvCore k st0 { s.dfg with
                    insts := s.dfg.insts.set inst
                      (InstructionData.Branch op rp.ebb []) } rs :=
                  set_branch_core k st0 s.dfg rs inst op rp.ebb [] hInv.core
                -- the branch is not yet repaired
                have hUnv : BranchOK k st0 s.dfg (rp :: rs) op rp.ebb argsB := by
                  rcases hInv.branches inst op rp.ebb argsB heq with
                    ⟨_, hV⟩ | hU
                  · exfalso
                    apply htyn
                    show s.dfg.value_type old_arg = rp.split_type
                    rw [hInv.rpst]
                    exact hV.2.2 old_arg heq3
                  · exact hU
                have hvOld : halfOp k (s.dfg.value_type old_arg) =
                    some st0 := by
                  obtain ⟨hr1, hr2⟩ := hUnv.2.1 rp (List.mem_cons_self _ _) rfl
                  exact hr2 old_arg heq3
                have heff := split_value_effect
                  { s with
                    dfg := { s.dfg with
                      insts := s.dfg.insts.set inst (.Branch op rp.ebb []) }
                    pos := CursorPos.at_ inst }
                  old_arg k rs lo hi s2 rs2
                  core1.argConsistent core1.resLen hsv
                obtain ⟨core2, hlen12, hvt12, hvtlo, hvthi, hmm12, hbr12,
                    hdisj⟩ :=
                  split_value_inv k st0
                    { s with
                      dfg := { s.dfg with
                        insts := s.dfg.insts.set inst (.Branch op rp.ebb []) }
                      pos := CursorPos.at_ inst }
                    rs old_arg lo hi s2 rs2 core1 hvOld heff
                have hvt12' : ∀ x, x < s.dfg.values.length →
                    s2.dfg.value_type x = s.dfg.value_type x := hvt12
                have hlen12' : s.dfg.values.length ≤ s2.dfg.values.length :=
                  hlen12
                have hmm12' : ∀ e, s.dfg.num_ebb_args e ≤
                    s2.dfg.num_ebb_args e := hmm12
                have hbr12' : ∀ i op' dest' args',
                    s2.dfg.insts.get? i = some (.Branch op' dest' args') ↔
                    (s.dfg.insts.set inst
                      (InstructionData.Branch op rp.ebb [])).get? i =
                      some (.Branch op' dest' args') := hbr12
                have hvtlo' : s2.dfg.value_type lo = st0 := hvtlo
                have hvthi' : s2.dfg.value_type hi = st0 := hvthi
                have hst0' : st0 ≠ ⟨0, 0⟩ := halfOp_ne_zero hvOld
                have hentry2 : s2.dfg.insts.get? inst =
                    some (.Branch op rp.ebb []) :=
                  (hbr12' inst op rp.ebb []).mpr
                    (List.get?_set_eq_of_lt _ hinstlt)
                have hinstlt2 : inst < s2.dfg.insts.length :=
                  (List.get?_eq_some.mp hentry2).1
                have hentiff : ∀ i, i ≠ inst → ∀ op' dest' args',
                    s2.dfg.insts.get? i = some (.Branch op' dest' args') ↔
                    s.dfg.insts.get? i = some (.Branch op' dest' args') := by
                  intro i hne op' dest' args'
                  rw [hbr12' i op' dest' args',
                    List.get?_set_ne _ _ (fun he => hne he.symm)]
                have hA : PendParamTy st0 s2.dfg (rp :: rs2) ∧
                    PendShape k st0 s2.dfg (rp :: rs2) ∧
                    (∀ r' ∈ rs2, r'.ebb = rp.ebb →
                      rp.num ≠ r'.num ∧ rp.num ≠ r'.hi_num ∧
                      rp.hi_num ≠ r'.num ∧ rp.hi_num ≠ r'.hi_num) ∧
                    (∀ op' dest' args',
                      BranchOK k st0 s.dfg rs op' dest' args' →
                      BranchOK k st0 s2.dfg rs2 op' dest' args') ∧
                    (∀ op' dest' args',
                      BranchOK k st0 s.dfg (rp :: rs) op' dest' args' →
                      BranchOK k st0 s2.dfg (rp :: rs2) op' dest' args') := by
                  rcases hdisj with ⟨hrseq, hmeq, hview⟩ |
                    ⟨rN, hrseq, hrNk, hrNst, hrNhi, hrNmo, hview⟩
                  · obtain ⟨htr1, hpty1, hpsh1⟩ := hview (rp :: rs)
                      (edgeinv_pty k st0 cfg rp s rs hInv)
                      (edgeinv_pshape k st0 cfg rp s rs hInv)
                    obtain ⟨htr2, hpty2, hpsh2⟩ := hview rs
                      hInv.core.pendParamTy hInv.core.pendShape
                    rw [hrseq]
                    exact ⟨hpty1, hpsh1, hInv.rpdist, htr2, htr1⟩
                  · obtain ⟨hquad1, htr1, hpty1, hpsh1⟩ := hview (rp :: rs)
                      (edgeinv_pty k st0 cfg rp s rs hInv)
                      (edgeinv_pshape k st0 cfg rp s rs hInv)
                    obtain ⟨hquad2, htr2, hpty2, hpsh2⟩ := hview rs
                      hInv.core.pendParamTy hInv.core.pendShape
                    have hshuf : ∀ r' : Repair, r' ∈ rp :: rN :: rs →
                        r' ∈ rN :: rp :: rs := by
                      intro r' hr'
                      simp only [List.mem_cons] at hr' ⊢
                      tauto
                    have hshuf2 : ∀ r' : Repair, r' ∈ rN :: rp :: rs →
                        r' ∈ rp :: rN :: rs := by
                      intro r' hr'
                      simp only [List.mem_cons] at hr' ⊢
                      tauto
                    rw [hrseq]
                    refine ⟨?_, ?_, ?_, ?_, ?_⟩
                    · intro r' hr'
                      exact hpty1 r' (hshuf r' hr')
                    · intro r' hr'
                      exact hpsh1 r' (hshuf r' hr')
                    · intro r' hr' hebb'
                      rcases List.mem_cons.mp hr' with he' | hm'
                      · subst he'
                        obtain ⟨q1, q2, q3, q4⟩ := hquad1 rp
                          (List.mem_cons_self _ _) hebb'.symm
                        exact ⟨fun he => q1 he.symm, fun he => q3 he.symm,
                          fun he => q2 he.symm, fun he => q4 he.symm⟩
                      · exact hInv.rpdist r' hm' hebb'
                    · intro op' dest' args' hB
                      exact htr2 op' dest' args' hB
                    · intro op' dest' args' hB
                      exact branchok_mem_congr k st0 s2.dfg
                        (rN :: rp :: rs) (rp :: rN :: rs) op' dest' args'
                        hshuf hshuf2 (htr1 op' dest' args' hB)
                obtain ⟨hA_pty, hA_psh, hA_dist, hA_trs, hA_trp⟩ := hA
                simp only [DataFlowGraph.put_list, hentry2,
                  InstructionData.put_value_list]
                set args2T := place_high (argsB.set
                  (op.fixed_value_arguments + rp.num) lo) argsB.length
                  op.fixed_value_arguments rp.hi_num hi with hargs2T
                have hVisS2 : Visited k st0 s2.dfg rs2 rp op rp.ebb args2T :=
                  repaired_branchok k st0 s2.dfg rs2 rp op argsB lo hi
                    (hA_trp op rp.ebb argsB hUnv) hInv.rpnh
                    (Nat.lt_of_lt_of_le hInv.rphm (hmm12' rp.ebb))
                    (hA_pty rp (List.mem_cons_self _ _)).1
                    (hA_pty rp (List.mem_cons_self _ _)).2
                    hA_dist hvtlo' hvthi' hst0'
                have hD3entry : (s2.dfg.insts.set inst
                    (InstructionData.Branch op rp.ebb args2T)).get? inst =
                    some (.Branch op rp.ebb args2T) :=
                  List.get?_set_eq_of_lt _ hinstlt2
                have hD3other : ∀ i, i ≠ inst → (s2.dfg.insts.set inst
                    (InstructionData.Branch op rp.ebb args2T)).get? i =
                    s2.dfg.insts.get? i :=
                  fun i hne => List.get?_set_ne _ _ (fun he => hne he.symm)
                have hVisFin : Visited k st0 { s2.dfg with
                    insts := s2.dfg.insts.set inst
                      (InstructionData.Branch op rp.ebb args2T) } rs2 rp op
                    rp.ebb args2T :=
                  ⟨branchok_congr k st0 s2.dfg _ rs2 op rp.ebb args2T rfl rfl
                    hVisS2.1, hVisS2.2.1, hVisS2.2.2⟩
                have hVisMono : ∀ op' dest' args',
                    Visited k st0 s.dfg rs rp op' dest' args' →
                    Visited k st0 { s2.dfg with
                      insts := s2.dfg.insts.set inst
                        (InstructionData.Branch op rp.ebb args2T) } rs2 rp
                      op' dest' args' := by
                  intro op' dest' args' hV
                  refine ⟨branchok_congr k st0 s2.dfg _ rs2 op' dest' args'
                    rfl rfl (hA_trs op' dest' args' hV.1), hV.2.1, ?_⟩
                  intro a hga
                  have h0 := hV.2.2 a hga
                  have halt : a < s.dfg.values.length :=
                    lt_of_value_type_ne s.dfg a (by rw [h0]; exact hst0')
                  show s2.dfg.value_type a = st0
                  rw [hvt12' a halt]
                  exact h0
                have hUnvMono : ∀ op' dest' args',
                    BranchOK k st0 s.dfg (rp :: rs) op' dest' args' →
                    BranchOK k st0 { s2.dfg with
                      insts := s2.dfg.insts.set inst
                        (InstructionData.Branch op rp.ebb args2T) }
                      (rp :: rs2) op' dest' args' :=
                  fun op' dest' args' hB =>
                    branchok_congr k st0 s2.dfg _ (rp :: rs2) op' dest' args'
                      rfl rfl (hA_trp op' dest' args' hB)
                refine ⟨⟨set_branch_core k st0 s2.dfg rs2 inst op rp.ebb
                    args2T core2, ?_, hInv.rpk, hInv.rpst, hInv.rpnh, ?_, ?_,
                    ?_, hA_dist, ?_⟩, ?_, ?_, ?_, ⟨op, args2T, hD3entry⟩⟩
                · intro i op' dest' args' hent
                  by_cases hii : i = inst
                  · rw [hii] at hent ⊢
                    have hent2 : (s2.dfg.insts.set inst
                        (InstructionData.Branch op rp.ebb args2T)).get? inst =
                        some (.Branch op' dest' args') := hent
                    rw [hD3entry] at hent2
                    injection hent2 with hent2
                    injection hent2 with e1 e2 e3
                    rw [← e2]
                    exact hInv.cfgok inst op rp.ebb argsB heq
                  · have hent2 : s2.dfg.insts.get? i =
                        some (.Branch op' dest' args') := by
                      rw [← hD3other i hii]
                      exact hent
                    have hsent : s.dfg.insts.get? i =
                        some (.Branch op' dest' args') :=
                      (hentiff i hii op' dest' args').mp hent2
                    exact hInv.cfgok i op' dest' args' hsent
                · exact Nat.lt_of_lt_of_le hInv.rphm (hmm12' rp.ebb)
                · exact (hA_pty rp (List.mem_cons_self _ _)).1
                · exact (hA_pty rp (List.mem_cons_self _ _)).2
                · intro i op' dest' args' hent
                  by_cases hii : i = inst
                  · rw [hii] at hent
                    have hent2 : (s2.dfg.insts.set inst
                        (InstructionData.Branch op rp.ebb args2T)).get? inst =
                        some (.Branch op' dest' args') := hent
                    rw [hD3entry] at hent2
                    injection hent2 with hent2
                    injection hent2 with e1 e2 e3
                    rw [← e1, ← e2, ← e3]
                    exact Or.inl ⟨rfl, hVisFin⟩
                  · have hent2 : s2.dfg.insts.get? i =
                        some (.Branch op' dest' args') := by
                      rw [← hD3other i hii]
                      exact hent
                    have hsent : s.dfg.insts.get? i =
                        some (.Branch op' dest' args') :=
                      (hentiff i hii op' dest' args').mp hent2
                    rcases hInv.branches i op' dest' args' hsent with
                      ⟨hd', hV⟩ | hU
                    · exact Or.inl ⟨hd', hVisMono op' dest' args' hV⟩
                    · exact Or.inr (hUnvMono op' dest' args' hU)
                · intro op' dest' args' hent
                  have hent2 : (s2.dfg.insts.set inst
                      (InstructionData.Branch op rp.ebb args2T)).get? inst =
                      some (.Branch op' dest' args') := hent
                  rw [hD3entry] at hent2
                  injection hent2 with hent2
                  injection hent2 with e1 e2 e3
                  rw [← e1, ← e2, ← e3]
                  exact ⟨rfl, hVisFin⟩
                · intro i op' dest' args' hne hsent
                  show (s2.dfg.insts.set inst
                    (InstructionData.Branch op rp.ebb args2T)).get? i =
                    some (.Branch op' dest' args')
                  rw [hD3other i hne]
                  exact (hentiff i hne op' dest' args').mpr hsent
                · intro i op' dest' args' hsent hV
                  by_cases hii : i = inst
                  · exfalso
                    rw [hii] at hsent
                    rw [heq] at hsent
                    injection hsent with hsent
                    injection hsent with e1 e2 e3
                    apply htyn
                    show s.dfg.value_type old_arg = rp.split_type
                    rw [hInv.rpst]
                    apply hV.2.2 old_arg
                    rw [← e3, ← e1]
                    exact heq3
                  · constructor
                    · show (s2.dfg.insts.set inst
                        (InstructionData.Branch op rp.ebb args2T)).get? i =
                        some (.Branch op' dest' args')
                      rw [hD3other i hii]
                      exact (hentiff i hii op' dest' args').mpr hsent
                    · exact hVisMono op' dest' args' hV

/-- Invariant preservation of the whole predecessor loop: afterwards every
listed predecessor branch is repaired, and repaired branches stay
repaired. -/
theorem processEdges_inv (k : Opcode) (st0 : Ty) (cfg : ControlFlowGraph)
    (rp : Repair) :
    ∀ (edges : List (Ebb × Inst)) (s : State) (rs : List Repair)
      (s' : State) (rs' : List Repair),
    EdgeInv k st0 cfg rp s rs →
    (∀ p ∈ edges, p ∈ cfg.get_predecessors rp.ebb) →
    processEdges rp s rs edges = .ok (s', rs') →
    EdgeInv k st0 cfg rp s' rs' ∧
    (∀ p ∈ edges, ∀ op dest args,
      s'.dfg.insts.get? p.2 = some (.Branch op dest args) →
      dest = rp.ebb ∧ Visited k st0 s'.dfg rs' rp op dest args) ∧
    (∀ i op dest args,
      s.dfg.insts.get? i = some (.Branch op dest args) →
      Visited k st0 s.dfg rs rp op dest args →
      s'.dfg.insts.get? i = some (.Branch op dest args) ∧
      Visited k st0 s'.dfg rs' rp op dest args)
  | [], s, rs, s', rs', hInv, hmem, h => by
    unfold processEdges at h
    simp only [Except.ok.injEq, Prod.mk.injEq] at h
    obtain ⟨hs2, hrs2⟩ := h
    subst hs2 hrs2
    exact ⟨hInv, fun p hp => absurd hp (List.not_mem_nil p),
      fun i op dest args hent hV => ⟨hent, hV⟩⟩
  | (e0, i0) :: rest, s, rs, s', rs', hInv, hmem, h => by
    unfold processEdges at h
    cases hre : repairEdge s rs rp i0 with
    | error e => rw [hre, except_bind_error] at h; simp at h
    | ok out =>
      obtain ⟨s1, rs1⟩ := out
      rw [hre, except_bind_ok] at h
      have hdest0 : ∀ op dest args,
          s.dfg.insts.get? i0 = some (.Branch op dest args) →
          dest = rp.ebb := by
        intro op dest args hent
        exact (hInv.cfgok i0 op dest args hent).2 rp.ebb e0
          (hmem (e0, i0) (List.mem_cons_self _ _))
      obtain ⟨hInv1, hc2, hc3, hc4, op2, args2x, hpost⟩ :=
        repairEdge_inv k st0 cfg rp s rs i0 s1 rs1 hInv hdest0 hre
      obtain ⟨hInvF, hc2F, hc4F⟩ :=
        processEdges_inv k st0 cfg rp rest s1 rs1 s' rs' hInv1
          (fun p hp => hmem p (List.mem_cons_of_mem _ hp)) h
      refine ⟨hInvF, ?_, ?_⟩
      · intro p hp op dest args hent
        rcases List.mem_cons.mp hp with hphead | hptail
        · obtain ⟨hdB, hVis1⟩ := hc2 op2 rp.ebb args2x hpost
          obtain ⟨hentF, hVisF⟩ := hc4F i0 op2 rp.ebb args2x hpost hVis1
          rw [hphead] at hent
          rw [hentF] at hent
          injection hent with hent
          injection hent with f1 f2 f3
          rw [← f1, ← f2, ← f3]
          exact ⟨rfl, hVisF⟩
        · exact hc2F p hptail op dest args hent
      · intro i op dest args hent hV
        obtain ⟨hent1, hV1⟩ := hc4 i op dest args hent hV
        exact hc4F i op dest args hent1 hV1

theorem core_restrict (k : Opcode) (st0 : Ty) (d : DataFlowGraph)
    (rp : Repair) (rest : List Repair)
    (hcore : InvCore k st0 d (rp :: rest)) : InvCore k st0 d rest := by
  refine ⟨hcore.resLen, hcore.aliasOk, hcore.concatTyped, hcore.resultBound,
    hcore.argConsistent, hcore.paramsValid, ?_, ?_, ?_, ?_⟩
  · intro r hr
    exact hcore.pendShape r (List.mem_cons_of_mem _ hr)
  · intro r hr
    exact hcore.pendParamTy r (List.mem_cons_of_mem _ hr)
  · exact (List.pairwise_cons.mp hcore.stackOrder).2
  · exact (List.pairwise_cons.mp hcore.pendDistinct).2

theorem branchok_drop (k : Opcode) (st0 : Ty) (d : DataFlowGraph)
    (rp : Repair) (rs1 : List Repair) (op : Opcode) (dest : Ebb)
    (args : List Value) (hne : rp.ebb ≠ dest)
    (hB : BranchOK k st0 d (rp :: rs1) op dest args) :
    BranchOK k st0 d rs1 op dest args := by
  obtain ⟨ha, hb, hc, hd, he, hf⟩ := hB
  refine ⟨ha, ?_, ?_, ?_, he, hf⟩
  · intro r hr hre
    exact hb r (List.mem_cons_of_mem _ hr) hre
  · intro j x a hx hga hnp
    refine hc j x a hx hga ?_
    intro r hr hre
    rcases List.mem_cons.mp hr with he' | hm'
    · subst he'
      exact absurd hre hne
    · exact hnp r hm' hre
  · rcases hd with h1 | ⟨r, hr, h2, h3⟩
    · exact Or.inl h1
    · rcases List.mem_cons.mp hr with he' | hm'
      · subst he'
        exact absurd h2 hne
      · exact Or.inr ⟨r, hm', h2, h3⟩

/-- The drain of the repair work list preserves the global invariant and
finishes with no pending repairs. -/
theorem drain_inv (k : Opcode) (st0 : Ty) (cfg : ControlFlowGraph) :
    ∀ (fuel : Nat) (rs : List Repair) (s s' : State),
    Inv k st0 cfg s.dfg rs →
    drain cfg rs fuel s = .ok s' →
    Inv k st0 cfg s'.dfg []
  | fuel, [], s, s', hInv, h => by
    rw [drain_nil] at h
    injection h with h
    rw [← h]
    exact hInv
  | 0, rp :: rest, s, s', hInv, h => by
    unfold drain at h
    cases h
  | fuel + 1, rp :: rest, s, s', hInv, h => by
    unfold drain at h
    obtain ⟨hcore, hbrs, hcfg⟩ := hInv
    cases hpe : processEdges rp s rest (cfg.get_predecessors rp.ebb) with
    | error e => rw [hpe, except_bind_error] at h; simp at h
    | ok out =>
      obtain ⟨s1, rs1⟩ := out
      rw [hpe, except_bind_ok] at h
      have hsh := hcore.pendShape rp (List.mem_cons_self _ _)
      have hpt := hcore.pendParamTy rp (List.mem_cons_self _ _)
      have hEdge : EdgeInv k st0 cfg rp s rest := by
        refine ⟨core_restrict k st0 s.dfg rp rest hcore, hcfg, hsh.1,
          hsh.2.1, hsh.2.2.1, hsh.2.2.2, hpt.1, hpt.2, ?_, ?_⟩
        · intro r' hr' hebb
          have hd := (List.pairwise_cons.mp hcore.pendDistinct).1 r' hr'
            hebb.symm
          have ho := (List.pairwise_cons.mp hcore.stackOrder).1 r' hr'
            hebb.symm
          exact ⟨hd.1, hd.2.1, hd.2.2, by omega⟩
        · intro i op dest args hent
          exact Or.inr (hbrs i op dest args hent)
      obtain ⟨hEdge1, hVisAll, hVisMono⟩ :=
        processEdges_inv k st0 cfg rp (cfg.get_predecessors rp.ebb) s rest
          s1 rs1 hEdge (fun p hp => hp) hpe
      have hInv1 : Inv k st0 cfg s1.dfg rs1 := by
        refine ⟨hEdge1.core, ?_, hEdge1.cfgok⟩
        intro i op dest args hent
        rcases hEdge1.branches i op dest args hent with ⟨hdB, hV⟩ | hU
        · exact hV.1
        · by_cases hdB : dest = rp.ebb
          · obtain ⟨e, hmem⟩ := (hEdge1.cfgok i op dest args hent).1
            rw [hdB] at hmem
            obtain ⟨_, hV⟩ := hVisAll (e, i) hmem op dest args hent
            exact hV.1
          · exact branchok_drop k st0 s1.dfg rp rs1 op dest args
              (fun he => hdB he.symm) hU
      exact drain_inv k st0 cfg fuel rs1 s1 s' hInv1 h

/-- With no pending repairs, the global invariant does not depend on the
split type parameter. -/
theorem inv_nil_indep (k : Opcode) (st0 st1 : Ty) (cfg : ControlFlowGraph)
    (d : DataFlowGraph) (h : Inv k st0 cfg d []) : Inv k st1 cfg d [] := by
  obtain ⟨hcore, hbrs, hcfg⟩ := h
  refine ⟨⟨hcore.resLen, hcore.aliasOk, hcore.concatTyped, hcore.resultBound,
    hcore.argConsistent, hcore.paramsValid,
    fun r hr => absurd hr (List.not_mem_nil r),
    fun r hr => absurd hr (List.not_mem_nil r),
    List.Pairwise.nil, List.Pairwise.nil⟩, ?_, hcfg⟩
  intro i op dest args hent
  obtain ⟨ha, hb, hc, hd, he, hf⟩ := hbrs i op dest args hent
  have hdl : args.length = op.fixed_value_arguments + d.num_ebb_args dest := by
    rcases hd with h1 | ⟨r, hr, _⟩
    · exact h1
    · exact absurd hr (List.not_mem_nil r)
  refine ⟨ha, fun r hr => absurd hr (List.not_mem_nil r), ?_, Or.inl hdl,
    ?_, hf⟩
  · intro j x a hx hga _
    exact hc j x a hx hga (fun r hr => absurd hr (List.not_mem_nil r))
  · intro j x hx _
    have hj : j < d.num_ebb_args dest := by
      have := List.get?_eq_some.mp hx
      exact this.1
    omega

/-- With no pending repairs, the invariant's branch component amounts to the
arity check. -/
theorem branch_arity_of_inv (k : Opcode) (st0 : Ty) (cfg : ControlFlowGraph)
    (d : DataFlowGraph) (h : Inv k st0 cfg d []) :
    branch_arity_ok d = true := by
  unfold branch_arity_ok
  rw [List.all_eq_true]
  intro idat hmem
  cases idat with
  | Branch op dest args =>
    obtain ⟨i, hget⟩ := List.get?_of_mem hmem
    rcases (h.2.1 i op dest args hget).2.2.2.1 with h1 | ⟨r, hr, _⟩
    · simpa using h1
    · exact absurd hr (List.not_mem_nil r)
  | Unary op a => rfl
  | Binary op a b => rfl

theorem split_any_arity (cfg : ControlFlowGraph) (s : State) (value : Nat)
    (k : Opcode) (st0 : Ty) (fuel : Nat) (pr : Value × Value) (s' : State)
    (hwf : Inv k st0 cfg s.dfg [])
    (h : split_any cfg s value k fuel = .ok (pr, s')) :
    branch_arity_ok s'.dfg = true := by
  unfold split_any at h
  cases hsv : split_value s value k [] with
  | error e =>
    rw [hsv, except_bind_error] at h
    cases h
  | ok out =>
    obtain ⟨⟨lo, hi⟩, s1, rs1⟩ := out
    rw [hsv, except_bind_ok] at h
    dsimp only at h
    cases hdr : drain cfg rs1 fuel s1 with
    | error e =>
      rw [hdr, except_bind_error] at h
      cases h
    | ok s2 =>
      rw [hdr, except_bind_ok] at h
      have hdfg : s'.dfg = s2.dfg := by
        injection h with h
        injection h with h1 h2
        rw [← h2]
      rw [hdfg]
      cases hh : halfOp k (s.dfg.value_type value) with
      | some h0 =>
        have hwf' := inv_nil_indep k st0 h0 cfg s.dfg hwf
        have heff := split_value_effect s value k [] lo hi s1 rs1
          hwf'.1.argConsistent hwf'.1.resLen hsv
        obtain ⟨core1, _, _, _, _, _, hbr, hdisj⟩ :=
          split_value_inv k h0 s [] value lo hi s1 rs1 hwf'.1 hh heff
        have hBrs : BranchesOK k h0 s1.dfg rs1 := by
          rcases hdisj with ⟨hrs1, _, htrans⟩ |
            ⟨rN, hrs1, _, _, _, _, hq⟩
          · obtain ⟨ht, _, _⟩ := htrans []
              (fun r hr => absurd hr (List.not_mem_nil r))
              (fun r hr => absurd hr (List.not_mem_nil r))
            intro i op dest args hent
            rw [hrs1]
            exact ht op dest args
              (hwf'.2.1 i op dest args ((hbr i op dest args).mp hent))
          · obtain ⟨_, ht, _, _⟩ := hq []
              (fun r hr => absurd hr (List.not_mem_nil r))
              (fun r hr => absurd hr (List.not_mem_nil r))
            intro i op dest args hent
            rw [hrs1]
            exact ht op dest args
              (hwf'.2.1 i op dest args ((hbr i op dest args).mp hent))
        have hCfg : CfgOk cfg s1.dfg := by
          intro i op dest args hent
          exact hwf'.2.2 i op dest args ((hbr i op dest args).mp hent)
        exact branch_arity_of_inv k h0 cfg s2.dfg
          (drain_inv k h0 cfg fuel rs1 s1 s2 ⟨core1, hBrs, hCfg⟩ hdr)
      | none =>
        have heff := split_value_effect s value k [] lo hi s1 rs1
          hwf.1.argConsistent hwf.1.resLen hsv
        have hvres : s.dfg.value_type (s.dfg.resolve_copies value) =
            s.dfg.value_type value :=
          resolve_vt s.dfg hwf.1.aliasOk value
        rcases heff with ⟨hs, hrs, _, _, _, _⟩ |
          ⟨sop, h0, hhalf, _, _, _, _⟩ |
          ⟨t, st, j, C, hres, hhalf, _, _, _, _, _, _, _⟩
        · rw [hrs] at hdr
          rw [drain_nil] at hdr
          injection hdr with hdr
          rw [← hdr, hs]
          exact branch_arity_of_inv k st0 cfg s.dfg hwf
        · rw [hvres, hh] at hhalf
          cases hhalf
        · have ht : s.dfg.value_type (s.dfg.resolve_copies value) = t := by
            unfold DataFlowGraph.value_type
            rw [hres]
            rfl
          have hcontra : halfOp k (s.dfg.value_type value) = some st := by
            rw [← hvres, ht]
            exact hhalf
          rw [hh] at hcontra
          cases hcontra

theorem get?_bound {α : Type} {l : List α} {n : Nat} {a : α}
    (h : l.get? n = some a) : n < l.length :=
  (List.get?_eq_some.mp h).1

/-- The small state satisfies the global invariant for every concat kind. -/
theorem wf_inv : ∀ k, Inv k tyI32 wfCfg wfState.dfg [] := by
  intro k
  refine ⟨⟨rfl, ?_, ?_, ?_, ?_, ?_,
    fun r hr => absurd hr (List.not_mem_nil r),
    fun r hr => absurd hr (List.not_mem_nil r),
    List.Pairwise.nil, List.Pairwise.nil⟩, ?_, ?_⟩
  · intro x ty orig hx
    have hb : x < 3 := get?_bound hx
    interval_cases x <;> simp [wfState] at hx
  · intro i a b x ty n st hi hx hst
    have hbi : i < 2 := get?_bound hi
    have hbx : x < 3 := get?_bound hx
    interval_cases i
    · simp [wfState] at hi
      obtain ⟨hk, ha, hb⟩ := hi
      rw [← hk] at hst
      simp [halfOp] at hst
    · simp [wfState] at hi
      obtain ⟨hk, ha, hb⟩ := hi
      interval_cases x <;> simp [wfState] at hx
      obtain ⟨hty, hn⟩ := hx
      rw [← hty] at hst
      rw [← hk] at hst
      simp [halfOp, Ty.half_width, tyI64] at hst
      rw [← ha, ← hb, ← hst]
      constructor <;> rfl
  · intro x ty n i hx
    have hbx : x < 3 := get?_bound hx
    interval_cases x <;> simp [wfState] at hx <;> rw [← hx.2.2] <;>
      simp [wfState]
  · intro x ty j C hx
    have hbx : x < 3 := get?_bound hx
    interval_cases x <;> simp [wfState] at hx
  · intro C j x hx
    simp [wfState] at hx
  · intro i op dest args hent
    have hbi : i < 2 := get?_bound hent
    interval_cases i <;> simp [wfState] at hent
  · intro i op dest args hent
    have hbi : i < 2 := get?_bound hent
    interval_cases i <;> simp [wfState] at hent

/-- **C2** (amended): when `isplit` or `vsplit` returns normally, every
branch instruction's argument-list length equals its opcode's fixed arity
plus its target block's current parameter count — provided the input graph
is well formed in the sense of `Inv`: not merely arity-consistent, but
type-consistent (aliases resolve to equally-typed instruction results,
concat operands carry the half type of the claimed result type,
block-parameter records agree with the blocks' parameter lists, every
branch argument is typed like the corresponding target parameter and
references an allocated value) with a predecessor index listing every
branch exactly under its destination.  Mere entry arity-consistency does
not suffice (see the counterexample). -/
theorem c2_branch_arity_preserved (cfg : ControlFlowGraph) (s : State)
    (value : Nat) (st0 : Ty) (fuel : Nat) (pr : Value × Value) (s' : State)
    (hwf : ∀ k, Inv k st0 cfg s.dfg [])
    (h : isplit cfg s value fuel = .ok (pr, s') ∨
         vsplit cfg s value fuel = .ok (pr, s')) :
    branch_arity_ok s'.dfg = true := by
  rcases h with h | h
  · exact split_any_arity cfg s value .Iconcat st0 fuel pr s' (hwf _) h
  · exact split_any_arity cfg s value .Vconcat st0 fuel pr s' (hwf _) h

/-- Counterexample to the literal reading of the branch-arity claim:
`illState` satisfies the claimed precondition — on entry every branch's
argument count equals its opcode's fixed arity plus its target's parameter
count — yet `isplit` of block parameter 1 returns normally with a branch
whose argument list is one too short, because the type-confused input (an
`i16` argument passed for an `i32` parameter) makes the repair loop's
already-repaired skip check misfire. -/
theorem c2_counterexample :
    branch_arity_ok illState.dfg = true ∧
    isplit illCfg illState 1 1 = .ok ((2, 3), illPost) ∧
    branch_arity_ok illPost.dfg = false :=
  ⟨rfl, rfl, rfl⟩

/-- Witness for the amended branch-arity theorem at the small well-formed
state: the invariant hypotheses hold there and the theorem applies to the
successful `isplit` of value 2. -/
theorem c2_branch_arity_preserved_witness :
    (∀ k, Inv k tyI32 wfCfg wfState.dfg []) ∧
    branch_arity_ok wfState.dfg = true :=
  ⟨wf_inv, c2_branch_arity_preserved wfCfg wfState 2 tyI32 1 (0, 1) wfState
    wf_inv (Or.inl rfl)⟩

end Cretonne
